import Mathlib

/-!
# pwmanager: a shallow embedding of `pwmanager.go`

The program keeps a list of `PasswordEntry` records in one JSON file and offers
three commands, `add`, `remove <regexp>` and `get <regexp>`.

Go strings are byte sequences, so they are lists of bytes here.  The Go standard
library packages that the program calls are embedded next to the program:

* `unicode/utf8`, `strings.TrimSpace`, `encoding/base64` and `encoding/json`
  (for the one type `[]PasswordEntry` that the program serialises) are written
  out as functions, following the behaviour of the Go 1.22 packages;
* `regexp` is a parameter of `remove` and `get` (`RegexpPkg`): every theorem
  about them holds for whatever the package does;
* the file system holds the one file named by `filePath`: reading it fails when
  it is absent, and opening it for writing or writing to it fails when the
  world says so (a missing directory, a file that may not be written);
* standard input is a sequence of bytes, read through a `bufio.Reader` with its
  buffer of 4096 bytes.
-/

namespace Pwmanager

/-! ## Bytes and strings -/

/-- One byte. -/
abbrev Byte := Fin 256

/-- A Go `string` (equally a `[]byte`): a sequence of bytes, not necessarily UTF-8. -/
abbrev GoString := List Byte

/-- Constant `utf8.RuneError`, the replacement character U+FFFD. -/
def RuneError : Nat := 0xFFFD

/-- Function `utf8.AppendRune`: the UTF-8 encoding of a rune; a rune out of range or a
surrogate half is encoded as `RuneError`.  Shifts and masks are written as
division and remainder by powers of two. -/
def encodeRune (r : Nat) : GoString :=
  if h1 : r ≤ 0x7F then [⟨r, by omega⟩]
  else if h2 : r ≤ 0x7FF then [⟨0xC0 + r / 64, by omega⟩, ⟨0x80 + r % 64, by omega⟩]
  else if h0 : r > 0x10FFFF ∨ (0xD800 ≤ r ∧ r ≤ 0xDFFF) then [0xEF, 0xBF, 0xBD]
  else if h3 : r ≤ 0xFFFF then
    [⟨0xE0 + r / 4096, by omega⟩, ⟨0x80 + r / 64 % 64, by omega⟩, ⟨0x80 + r % 64, by omega⟩]
  else
    [⟨0xF0 + r / 262144, by omega⟩, ⟨0x80 + r / 4096 % 64, by omega⟩,
      ⟨0x80 + r / 64 % 64, by omega⟩, ⟨0x80 + r % 64, by omega⟩]

/-- The bytes of a string literal of the Go source (Go source text is UTF-8). -/
def str (s : String) : GoString :=
  (s.toList.map (fun c => encodeRune c.toNat)).flatten

/-- Number of bytes that the lead byte `p0` of a multi-byte encoding announces
(table `first` of package utf8, low three bits). -/
def runeSize (p0 : Byte) : Nat :=
  if p0.val < 0xE0 then 2 else if p0.val < 0xF0 then 3 else 4

/-- Lower end of the range accepted for the second byte after lead byte `p0`
(table `acceptRanges` of package utf8). -/
def acceptLo (p0 : Byte) : Nat :=
  if p0.val = 0xE0 then 0xA0 else if p0.val = 0xF0 then 0x90 else 0x80

/-- Upper end of the range accepted for the second byte after lead byte `p0`. -/
def acceptHi (p0 : Byte) : Nat :=
  if p0.val = 0xED then 0x9F else if p0.val = 0xF4 then 0x8F else 0xBF

/-- Function `utf8.DecodeRune`: the first rune of `p` and its width in bytes.  An empty
input gives `(RuneError, 0)`, an invalid or truncated encoding `(RuneError, 1)`. -/
def decodeRune (p : GoString) : Nat × Nat :=
  match p with
  | [] => (RuneError, 0)
  | p0 :: rest =>
    if p0.val < 0x80 then (p0.val, 1)
    else if p0.val < 0xC2 ∨ 0xF4 < p0.val then (RuneError, 1)
    else if p.length < runeSize p0 then (RuneError, 1)
    else
      match rest with
      | [] => (RuneError, 1)
      | b1 :: rest1 =>
        if b1.val < acceptLo p0 ∨ acceptHi p0 < b1.val then (RuneError, 1)
        else if runeSize p0 ≤ 2 then (p0.val % 32 * 64 + b1.val % 64, 2)
        else
          match rest1 with
          | [] => (RuneError, 1)
          | b2 :: rest2 =>
            if b2.val < 0x80 ∨ 0xBF < b2.val then (RuneError, 1)
            else if runeSize p0 ≤ 3 then
              (p0.val % 16 * 4096 + b1.val % 64 * 64 + b2.val % 64, 3)
            else
              match rest2 with
              | [] => (RuneError, 1)
              | b3 :: _ =>
                if b3.val < 0x80 ∨ 0xBF < b3.val then (RuneError, 1)
                else
                  (p0.val % 8 * 262144 + b1.val % 64 * 4096 + b2.val % 64 * 64
                    + b3.val % 64, 4)

/-- Loop of `utf8.ValidString`: no decoding step yields `(RuneError, 1)`.  The first
argument bounds the number of steps, each of which consumes at least one byte. -/
def validLoop : Nat → GoString → Bool
  | 0, s => s.isEmpty
  | fuel + 1, s =>
    match s with
    | [] => true
    | b :: rest =>
      let (r, size) := decodeRune (b :: rest)
      if r = RuneError ∧ size = 1 then false
      else validLoop fuel (rest.drop (size - 1))

/-- Function `utf8.ValidString`. -/
def validString (s : GoString) : Bool := validLoop s.length s

/-- Loop of the conversion `string([]rune(s))`: every rune of `s` encoded again, so that
each invalid byte becomes the three bytes of U+FFFD. -/
def toValidLoop : Nat → GoString → GoString
  | 0, _ => []
  | fuel + 1, s =>
    match s with
    | [] => []
    | b :: rest =>
      let (r, size) := decodeRune (b :: rest)
      encodeRune r ++ toValidLoop fuel (rest.drop (size - 1))

/-- The conversion `string([]rune(s))`: `s` coerced to valid UTF-8. -/
def toValidUTF8 (s : GoString) : GoString := toValidLoop s.length s

/-! ## strings.TrimSpace -/

/-- Table `asciiSpace` of package strings. -/
def asciiSpace (c : Byte) : Bool :=
  c.val = 0x09 ∨ c.val = 0x0A ∨ c.val = 0x0B ∨ c.val = 0x0C ∨ c.val = 0x0D ∨ c.val = 0x20

/-- Function `unicode.IsSpace`. -/
def isSpace (r : Nat) : Bool :=
  if r ≤ 0xFF then
    (0x09 ≤ r ∧ r ≤ 0x0D) ∨ r = 0x20 ∨ r = 0x85 ∨ r = 0xA0
  else
    r = 0x1680 ∨ (0x2000 ≤ r ∧ r ≤ 0x200A) ∨ r = 0x2028 ∨ r = 0x2029 ∨ r = 0x202F
      ∨ r = 0x205F ∨ r = 0x3000

/-- Function `strings.TrimLeftFunc(s, unicode.IsSpace)`: drop leading runes that are
spaces.  The first argument bounds the number of steps. -/
def trimLeftSpace : Nat → GoString → GoString
  | 0, s => s
  | fuel + 1, s =>
    match s with
    | [] => []
    | b :: rest =>
      let (r, size) := decodeRune (b :: rest)
      if isSpace r then trimLeftSpace fuel (rest.drop (size - 1)) else b :: rest

/-- Function `utf8.RuneStart`: `b` is not a continuation byte. -/
def runeStart (b : Byte) : Bool := b.val / 64 ≠ 2

/-- The backwards search of `utf8.DecodeLastRune`: from `start` down to `lim`, stop at
the first byte that can start a rune; the result is `lim - 1` when there is none
(as an integer, since it is `-1` when `lim` is 0). -/
def lastRuneStart (p : GoString) (lim : Nat) : Nat → Int
  | 0 => if lim = 0 ∧ runeStart (p.getD 0 0) then 0 else (lim : Int) - 1
  | start + 1 =>
    if start + 1 < lim then (lim : Int) - 1
    else if runeStart (p.getD (start + 1) 0) then ((start + 1 : Nat) : Int)
    else lastRuneStart p lim start

/-- Function `utf8.DecodeLastRune`: the last rune of `p` and its width. -/
def decodeLastRune (p : GoString) : Nat × Nat :=
  let fin := p.length
  if fin = 0 then (RuneError, 0)
  else
    let r := (p.getD (fin - 1) 0).val
    if r < 0x80 then (r, 1)
    else
      let lim := fin - 4
      let start : Int := if fin - 1 = 0 then -1 else lastRuneStart p lim (fin - 2)
      let start := if start < 0 then 0 else start.toNat
      let (r, size) := decodeRune (p.drop start)
      if start + size ≠ fin then (RuneError, 1) else (r, size)

/-- Function `lastIndexFunc(s, unicode.IsSpace, false)` of package strings: the index
at which the last rune that is not a space starts, `-1` when there is none.  The first
argument bounds the number of steps, the second is the index `i` of the loop. -/
def lastIndexNotSpace (s : GoString) : Nat → Nat → Int
  | 0, _ => -1
  | fuel + 1, i =>
    if i = 0 then -1
    else
      let (r, size) := decodeLastRune (s.take i)
      if isSpace r then lastIndexNotSpace s fuel (i - size) else ((i - size : Nat) : Int)

/-- Function `strings.TrimRightFunc(s, unicode.IsSpace)`. -/
def trimRightSpace (s : GoString) : GoString :=
  let i := lastIndexNotSpace s s.length s.length
  if 0 ≤ i ∧ 0x80 ≤ (s.getD i.toNat 0).val then
    s.take (i.toNat + (decodeRune (s.drop i.toNat)).2)
  else
    s.take (i + 1).toNat

/-- The second loop of `strings.TrimSpace`, over a string whose leading ASCII spaces
are gone: `rev` is what is left of the string, last byte first.  A byte that is not
ASCII hands the rest to `TrimRightFunc`. -/
def trimSpaceRight : GoString → GoString
  | [] => []
  | c :: rev =>
    if 0x80 ≤ c.val then trimRightSpace (c :: rev).reverse
    else if asciiSpace c then trimSpaceRight rev
    else (c :: rev).reverse

/-- Function `strings.TrimSpace`: the first loop drops leading ASCII spaces and hands the
string to the Unicode-aware `TrimFunc` at the first byte that is not ASCII. -/
def TrimSpace : GoString → GoString
  | [] => []
  | c :: rest =>
    if 0x80 ≤ c.val then trimRightSpace (trimLeftSpace (c :: rest).length (c :: rest))
    else if asciiSpace c then TrimSpace rest
    else trimSpaceRight (c :: rest).reverse

/-! ## encoding/base64, the standard encoding -/

/-- Constant `encodeStd`: the alphabet of `base64.StdEncoding`. -/
def encodeStd : GoString :=
  str "ABCDEFGHIJKLMNOPQRSTUVWXYZabcdefghijklmnopqrstuvwxyz0123456789+/"

/-- The padding character `=` of `base64.StdEncoding`. -/
def padChar : Byte := 0x3D

/-- Table `enc.encode`: the character of a 6-bit value. -/
def encodeChar (v : Nat) : Byte := encodeStd.getD v 0

/-- Table `enc.decodeMap`: the 6-bit value of a character of the alphabet, `none` where
the table holds `0xff`. -/
def decodeMap (c : Byte) : Option Nat :=
  let i := encodeStd.indexOf c
  if i < 64 then some i else none

/-- Method `(*Encoding).EncodeToString` of `base64.StdEncoding`: three bytes give four
characters; a remainder of one or two bytes is padded with `=`. -/
def EncodeToString : GoString → GoString
  | [] => []
  | [a] =>
    let val := a.val * 65536
    [encodeChar (val / 262144 % 64), encodeChar (val / 4096 % 64), padChar, padChar]
  | [a, b] =>
    let val := a.val * 65536 + b.val * 256
    [encodeChar (val / 262144 % 64), encodeChar (val / 4096 % 64),
      encodeChar (val / 64 % 64), padChar]
  | a :: b :: c :: rest =>
    let val := a.val * 65536 + b.val * 256 + c.val
    [encodeChar (val / 262144 % 64), encodeChar (val / 4096 % 64),
      encodeChar (val / 64 % 64), encodeChar (val % 64)] ++ EncodeToString rest

/-- Decimal digits of a number, as `strconv.FormatInt(n, 10)` writes them. -/
def formatInt (n : Nat) : GoString := str (toString n)

/-- Method `CorruptInputError.Error`. -/
def corruptInputError (offset : Nat) : GoString :=
  str "illegal base64 data at input byte " ++ formatInt offset

/-- The bytes that `decodeQuantum` stores from the 6-bit values `dbuf` of one quantum:
`dbuf.length - 1` bytes of the 24-bit value (the encoding is not strict, unused low
bits are dropped). -/
def quantumBytes (dbuf : List Nat) : GoString :=
  let val := dbuf.getD 0 0 * 262144 + dbuf.getD 1 0 * 4096 + dbuf.getD 2 0 * 64 + dbuf.getD 3 0
  ([⟨val / 65536 % 256, Nat.mod_lt _ (by decide)⟩, ⟨val / 256 % 256, Nat.mod_lt _ (by decide)⟩,
    ⟨val % 256, Nat.mod_lt _ (by decide)⟩] : GoString).take (dbuf.length - 1)

/-- Skip the line breaks that the decoder ignores; returns what is left and how many
bytes were skipped. -/
def skipNewlines : GoString → Nat → GoString × Nat
  | [], n => ([], n)
  | c :: rest, n =>
    if c.val = 0x0A ∨ c.val = 0x0D then skipNewlines rest (n + 1) else (c :: rest, n)

/-- The padding branch of `decodeQuantum`: a `=` was read as byte `si - 1` with `dbuf`
holding `j` values; `src` is the input after it. -/
def decodePadding (dbuf : List Nat) (src : GoString) (si : Nat) : Except GoString GoString :=
  if dbuf.length < 2 then .error (corruptInputError (si - 1))
  else
    let afterPad : Except GoString (GoString × Nat) :=
      if dbuf.length = 2 then
        let (src1, si1) := skipNewlines src si
        match src1 with
        | [] => .error (corruptInputError si1)
        | c :: src2 =>
          if c ≠ padChar then .error (corruptInputError (si1 - 1)) else .ok (src2, si1 + 1)
      else .ok (src, si)
    match afterPad with
    | .error e => .error e
    | .ok (src2, si2) =>
      let (src3, si3) := skipNewlines src2 si2
      if src3 ≠ [] then .error (corruptInputError si3) else .ok (quantumBytes dbuf)

/-- Method `(*Encoding).Decode` of `base64.StdEncoding`: the loop over `decodeQuantum`,
as one recursion over the input.  `dbuf` holds the 6-bit values read so far in the
current quantum (`j` of them) and `si` is the index of the next input byte.  Line breaks
are skipped; the input must end on a full quantum. -/
def decodeLoop : List Nat → GoString → Nat → Except GoString GoString
  | dbuf, [], si =>
    if dbuf.length = 0 then .ok [] else .error (corruptInputError (si - dbuf.length))
  | dbuf, c :: src, si =>
    match decodeMap c with
    | some out =>
      if dbuf.length = 3 then
        match decodeLoop [] src (si + 1) with
        | .error e => .error e
        | .ok bytes => .ok (quantumBytes (dbuf ++ [out]) ++ bytes)
      else decodeLoop (dbuf ++ [out]) src (si + 1)
    | none =>
      if c.val = 0x0A ∨ c.val = 0x0D then decodeLoop dbuf src (si + 1)
      else if c ≠ padChar then .error (corruptInputError si)
      else decodePadding dbuf src (si + 1)

/-- Method `(*Encoding).DecodeString` of `base64.StdEncoding`. -/
def DecodeString (s : GoString) : Except GoString GoString := decodeLoop [] s 0

/-! ## The record type -/

/-- Type `PasswordEntry` of the program: `Password` holds the base64 text of the secret. -/
structure PasswordEntry where
  Site : GoString
  Login : GoString
  Comment : GoString
  Password : GoString
  deriving DecidableEq, Repr

/-- A Go slice `[]PasswordEntry`: `none` is the nil slice, `some []` an empty slice that
is not nil.  The two differ only in how `encoding/json` writes them. -/
abbrev Slice := Option (List PasswordEntry)

/-- The elements of a slice, what `range` iterates over; `len` is the length of it. -/
def Slice.elems (s : Slice) : List PasswordEntry := s.getD []

/-- Every field of the entry is valid UTF-8. -/
def PasswordEntry.valid (e : PasswordEntry) : Bool :=
  validString e.Site && validString e.Login && validString e.Comment && validString e.Password

/-- The entry with every field coerced to valid UTF-8. -/
def PasswordEntry.toValid (e : PasswordEntry) : PasswordEntry :=
  { Site := toValidUTF8 e.Site, Login := toValidUTF8 e.Login,
    Comment := toValidUTF8 e.Comment, Password := toValidUTF8 e.Password }

/-- Every field of every entry of the slice is valid UTF-8. -/
def Slice.valid (s : Slice) : Bool := s.elems.all PasswordEntry.valid

/-- The slice with every field of every entry coerced to valid UTF-8. -/
def Slice.toValid (s : Slice) : Slice := s.map (List.map PasswordEntry.toValid)

/-! ## encoding/json: MarshalIndent for `[]PasswordEntry` -/

/-- Constant `hex` of package json. -/
def hexDigit (v : Nat) : Byte := (str "0123456789abcdef").getD v 0

/-- Table `htmlSafeSet`: the ASCII bytes that are written unescaped. -/
def htmlSafe (b : Byte) : Bool :=
  0x20 ≤ b.val ∧ b.val < 0x80 ∧ b.val ≠ 0x22 ∧ b.val ≠ 0x5C ∧ b.val ≠ 0x3C ∧ b.val ≠ 0x3E
    ∧ b.val ≠ 0x26

/-- The escape that `appendString` writes for an ASCII byte outside `htmlSafeSet`. -/
def escapeByte (b : Byte) : GoString :=
  if b.val = 0x5C ∨ b.val = 0x22 then [0x5C, b]
  else if b.val = 0x08 then str "\\b"
  else if b.val = 0x0C then str "\\f"
  else if b.val = 0x0A then str "\\n"
  else if b.val = 0x0D then str "\\r"
  else if b.val = 0x09 then str "\\t"
  else str "\\u00" ++ [hexDigit (b.val / 16), hexDigit (b.val % 16)]

/-- The loop of `appendString` (with `escapeHTML` set): the body of a JSON string literal.
Invalid UTF-8 is written as the escape of U+FFFD, U+2028 and U+2029 are escaped, every
other rune is copied.  The first argument bounds the number of steps. -/
def appendStringLoop : Nat → GoString → GoString
  | 0, _ => []
  | fuel + 1, s =>
    match s with
    | [] => []
    | b :: rest =>
      if b.val < 0x80 then
        (if htmlSafe b then [b] else escapeByte b) ++ appendStringLoop fuel rest
      else
        let (c, size) := decodeRune (b :: rest)
        if c = RuneError ∧ size = 1 then
          str "\\ufffd" ++ appendStringLoop fuel (rest.drop (size - 1))
        else if c = 0x2028 ∨ c = 0x2029 then
          str "\\u202" ++ [hexDigit (c % 16)] ++ appendStringLoop fuel (rest.drop (size - 1))
        else
          (b :: rest).take size ++ appendStringLoop fuel (rest.drop (size - 1))

/-- Function `appendString`: a Go string as a JSON string literal. -/
def appendString (s : GoString) : GoString :=
  [0x22] ++ appendStringLoop s.length s ++ [0x22]

/-- One element of the array as `MarshalIndent(v, "", "\t")` lays it out: the four fields
in declaration order, one per line, two tabs deep. -/
def marshalEntry (e : PasswordEntry) : GoString :=
  str "\t\x7b\n"
    ++ str "\t\t\"Site\": " ++ appendString e.Site ++ str ",\n"
    ++ str "\t\t\"Login\": " ++ appendString e.Login ++ str ",\n"
    ++ str "\t\t\"Comment\": " ++ appendString e.Comment ++ str ",\n"
    ++ str "\t\t\"Password\": " ++ appendString e.Password ++ str "\n"
    ++ str "\t\x7d"

/-- The elements of a non-empty array, separated by a comma and a line break. -/
def marshalEntries : List PasswordEntry → GoString
  | [] => []
  | [e] => marshalEntry e
  | e :: es => marshalEntry e ++ str ",\n" ++ marshalEntries es

/-- Function `json.MarshalIndent(v, "", "\t")` for `v` of type `[]PasswordEntry`.  It cannot
fail for this type.  A nil slice is written `null`, an empty one `[]`. -/
def MarshalIndent : Slice → GoString
  | none => str "null"
  | some [] => str "[]"
  | some (e :: es) => str "[\n" ++ marshalEntries (e :: es) ++ str "\n]"

/-! ## encoding/json: Unmarshal into `[]PasswordEntry`

`json.Unmarshal` first checks that the whole input is one JSON value (`checkValid`) and
then decodes it into the target.  Both are done here in one pass: a syntax error
anywhere gives `JsonError.syntaxError`, whatever else the input holds; a value that does
not fit the target is skipped and remembered, and reported at the end. -/

/-- The two kinds of error of `json.Unmarshal`: `*SyntaxError` and `*UnmarshalTypeError`. -/
inductive JsonError where
  | syntaxError
  | unmarshalType
  deriving DecidableEq, Repr

/-- Method `Error` of the two error types.  The library's text also names the offending
byte or type; only the kind of the error is kept. -/
def JsonError.Error : JsonError → GoString
  | .syntaxError => str "invalid character looking for beginning of value"
  | .unmarshalType => str "json: cannot unmarshal value into Go value"

/-- Constant `maxNestingDepth` of the scanner. -/
def maxNestingDepth : Nat := 10000

/-- Function `isSpace` of the scanner: space, tab, carriage return, line feed. -/
def isJsonSpace (c : Byte) : Bool :=
  c.val = 0x20 ∨ c.val = 0x09 ∨ c.val = 0x0D ∨ c.val = 0x0A

/-- Skip JSON white space. -/
def skipSpace : GoString → GoString
  | [] => []
  | c :: rest => if isJsonSpace c then skipSpace rest else c :: rest

/-- Value of a hexadecimal digit, in either case. -/
def hexVal (c : Byte) : Option Nat :=
  if 0x30 ≤ c.val ∧ c.val ≤ 0x39 then some (c.val - 0x30)
  else if 0x61 ≤ c.val ∧ c.val ≤ 0x66 then some (c.val - 0x61 + 10)
  else if 0x41 ≤ c.val ∧ c.val ≤ 0x46 then some (c.val - 0x41 + 10)
  else none

/-- Function `getu4`: the number written by a `\uXXXX` escape at the head of the input,
`none` (the library's `-1`) when the input does not start with one. -/
def getu4 : GoString → Option Nat
  | b :: u :: h1 :: h2 :: h3 :: h4 :: _ =>
    if b.val = 0x5C ∧ u.val = 0x75 then
      match hexVal h1, hexVal h2, hexVal h3, hexVal h4 with
      | some d1, some d2, some d3, some d4 => some (((d1 * 16 + d2) * 16 + d3) * 16 + d4)
      | _, _, _, _ => none
    else none
  | _ => none

/-- The byte that a one-letter escape stands for; `none` for a letter that the scanner
rejects. -/
def unescape (e : Byte) : Option Byte :=
  if e.val = 0x22 ∨ e.val = 0x5C ∨ e.val = 0x2F then some e
  else if e.val = 0x62 then some 0x08
  else if e.val = 0x66 then some 0x0C
  else if e.val = 0x6E then some 0x0A
  else if e.val = 0x72 then some 0x0D
  else if e.val = 0x74 then some 0x09
  else none

/-- Put `out` in front of the text of a parsed string. -/
def prependTo (out : GoString) : Option (GoString × GoString) → Option (GoString × GoString)
  | none => none
  | some (t, rest) => some (out ++ t, rest)

/-- A JSON string literal read after its opening quote: the scanner's check of the
literal together with `unquoteBytes`.  Returns the text of the string and the input
after the closing quote; `none` for a control character, a bad escape or a missing
closing quote.  A `\u` escape of a surrogate half is joined with a following escape of the
other half and is U+FFFD otherwise; invalid UTF-8 is coerced to U+FFFD.  The first
argument bounds the number of steps, each of which consumes at least one byte; the
callers pass the length of the input. -/
def parseString : Nat → GoString → Option (GoString × GoString)
  | 0, _ => none
  | fuel + 1, s =>
    match s with
    | [] => none
    | c :: rest =>
      if c.val = 0x22 then some ([], rest)
      else if c.val = 0x5C then
        match rest with
        | [] => none
        | e :: rest1 =>
          if e.val = 0x75 then
            match getu4 (c :: rest) with
            | none => none
            | some rr =>
              let rest2 := rest1.drop 4
              if 0xD800 ≤ rr ∧ rr < 0xE000 then
                match getu4 rest2 with
                | some rr1 =>
                  if rr < 0xDC00 ∧ 0xDC00 ≤ rr1 ∧ rr1 < 0xE000 then
                    prependTo (encodeRune ((rr - 0xD800) * 1024 + (rr1 - 0xDC00) + 0x10000))
                      (parseString fuel (rest2.drop 6))
                  else prependTo (encodeRune RuneError) (parseString fuel rest2)
                | none => prependTo (encodeRune RuneError) (parseString fuel rest2)
              else prependTo (encodeRune rr) (parseString fuel rest2)
          else
            match unescape e with
            | none => none
            | some b => prependTo [b] (parseString fuel rest1)
      else if c.val < 0x20 then none
      else if c.val < 0x80 then prependTo [c] (parseString fuel rest)
      else
        let (rr, size) := decodeRune (c :: rest)
        prependTo (encodeRune rr) (parseString fuel (rest.drop (size - 1)))

/-- Drop leading decimal digits. -/
def skipDigits : GoString → GoString
  | [] => []
  | c :: rest => if 0x30 ≤ c.val ∧ c.val ≤ 0x39 then skipDigits rest else c :: rest

/-- At least one decimal digit, then as many as follow. -/
def scanDigits1 : GoString → Option GoString
  | [] => none
  | c :: rest => if 0x30 ≤ c.val ∧ c.val ≤ 0x39 then some (skipDigits rest) else none

/-- The exponent of a number, if there is one. -/
def scanExponent : GoString → Option GoString
  | [] => some []
  | c :: rest =>
    if c.val = 0x65 ∨ c.val = 0x45 then
      match rest with
      | [] => none
      | sgn :: rest1 =>
        if sgn.val = 0x2B ∨ sgn.val = 0x2D then scanDigits1 rest1 else scanDigits1 (sgn :: rest1)
    else some (c :: rest)

/-- The fraction and the exponent of a number, if there are any. -/
def scanFraction : GoString → Option GoString
  | [] => some []
  | c :: rest =>
    if c.val = 0x2E then
      match scanDigits1 rest with
      | none => none
      | some rest1 => scanExponent rest1
    else scanExponent (c :: rest)

/-- The integer part of a number after an optional minus sign, then the rest of it. -/
def scanInteger : GoString → Option GoString
  | [] => none
  | c :: rest =>
    if c.val = 0x30 then scanFraction rest
    else if 0x31 ≤ c.val ∧ c.val ≤ 0x39 then scanFraction (skipDigits rest)
    else none

/-- A JSON number (scanner states `stateNeg` to `stateE0`): returns the input after it. -/
def scanNumber : GoString → Option GoString
  | [] => none
  | c :: rest => if c.val = 0x2D then scanInteger rest else scanInteger (c :: rest)

/-- The input after the given literal word, `none` when the input does not start with it. -/
def scanWord (word : GoString) (s : GoString) : Option GoString :=
  if s.take word.length = word then some (s.drop word.length) else none

mutual
/-- Check any JSON value and return the input after it (what the scanner does with a
value that the decoder skips).  The input starts at the first byte of the value;
`depth` is the number of arrays and objects around it.  The first argument bounds the
depth of the recursion; the callers pass the length of the input. -/
def skipValue : Nat → Nat → GoString → Option GoString
  | 0, _, _ => none
  | _ + 1, _, [] => none
  | fuel + 1, depth, c :: rest =>
    if c.val = 0x22 then (parseString rest.length rest).map Prod.snd
    else if c.val = 0x5B then
      if maxNestingDepth < depth + 1 then none
      else
        match skipSpace rest with
        | [] => none
        | d :: rest1 =>
          if d.val = 0x5D then some rest1 else skipElems fuel (depth + 1) (d :: rest1)
    else if c.val = 0x7B then
      if maxNestingDepth < depth + 1 then none
      else
        match skipSpace rest with
        | [] => none
        | d :: rest1 =>
          if d.val = 0x7D then some rest1 else skipMembers fuel (depth + 1) (d :: rest1)
    else if c.val = 0x2D ∨ (0x30 ≤ c.val ∧ c.val ≤ 0x39) then scanNumber (c :: rest)
    else if c.val = 0x74 then scanWord (str "true") (c :: rest)
    else if c.val = 0x66 then scanWord (str "false") (c :: rest)
    else if c.val = 0x6E then scanWord (str "null") (c :: rest)
    else none
/-- The elements of an array from the first byte of an element to the closing bracket. -/
def skipElems : Nat → Nat → GoString → Option GoString
  | 0, _, _ => none
  | fuel + 1, depth, s =>
    match skipValue fuel depth s with
    | none => none
    | some rest =>
      match skipSpace rest with
      | [] => none
      | d :: rest1 =>
        if d.val = 0x2C then skipElems fuel depth (skipSpace rest1)
        else if d.val = 0x5D then some rest1
        else none
/-- The members of an object from the opening quote of a key to the closing brace. -/
def skipMembers : Nat → Nat → GoString → Option GoString
  | 0, _, _ => none
  | _ + 1, _, [] => none
  | fuel + 1, depth, q :: s =>
    if q.val ≠ 0x22 then none
    else
      match parseString s.length s with
      | none => none
      | some (_, rest) =>
        match skipSpace rest with
        | [] => none
        | colon :: rest1 =>
          if colon.val ≠ 0x3A then none
          else
            match skipValue fuel depth (skipSpace rest1) with
            | none => none
            | some rest2 =>
              match skipSpace rest2 with
              | [] => none
              | d :: rest3 =>
                if d.val = 0x2C then skipMembers fuel depth (skipSpace rest3)
                else if d.val = 0x7D then some rest3
                else none
end

/-- The fields of `PasswordEntry`. -/
inductive Field where
  | Site
  | Login
  | Comment
  | Password
  deriving DecidableEq, Repr

/-- The name of a field, which is also its key in the JSON object (there are no tags). -/
def Field.name : Field → GoString
  | .Site => str "Site"
  | .Login => str "Login"
  | .Comment => str "Comment"
  | .Password => str "Password"

/-- Function `foldRune` of package json: the smallest rune of the case-folding orbit of `r`.
Only the orbits of ASCII letters matter, the field names being ASCII: lower case folds
to upper case, U+017F (long s) to `S` and U+212A (Kelvin sign) to `K`.  Any other rune
folds to a rune that is not ASCII and is left as it is. -/
def foldRune (r : Nat) : Nat :=
  if 0x61 ≤ r ∧ r ≤ 0x7A then r - 0x20
  else if r = 0x17F then 0x53
  else if r = 0x212A then 0x4B
  else r

/-- Function `appendFoldedName`: the runes of a key, folded.  The first argument bounds the
number of steps. -/
def foldNameLoop : Nat → GoString → GoString
  | 0, _ => []
  | fuel + 1, s =>
    match s with
    | [] => []
    | b :: rest =>
      let (r, size) := decodeRune (b :: rest)
      encodeRune (foldRune r) ++ foldNameLoop fuel (rest.drop (size - 1))

/-- Function `foldName` of package json. -/
def foldName (s : GoString) : GoString := foldNameLoop s.length s

/-- The field that a key of the object selects: the field of exactly that name, else the
first field whose folded name is the folded key, else none (the member is skipped). -/
def fieldOfKey (key : GoString) : Option Field :=
  match [Field.Site, .Login, .Comment, .Password].find? (fun f => f.name = key) with
  | some f => some f
  | none => [Field.Site, .Login, .Comment, .Password].find?
      (fun f => foldName f.name = foldName key)

/-- Store a string in a field of an entry. -/
def PasswordEntry.set (e : PasswordEntry) (f : Field) (v : GoString) : PasswordEntry :=
  match f with
  | .Site => { e with Site := v }
  | .Login => { e with Login := v }
  | .Comment => { e with Comment := v }
  | .Password => { e with Password := v }

/-- The zero value of `PasswordEntry`. -/
def PasswordEntry.zero : PasswordEntry := ⟨[], [], [], []⟩

/-- The value of a member of an object that is decoded into the entry `e`; the input
starts at the first byte of the value.  A string is stored in the field that the key
selects, `null` leaves the field as it is, any other value is skipped and is a type
error; the value of a key that selects no field is skipped.  Returns the entry, whether a
type error was met, and the input after the value. -/
def parseFieldValue (fld : Option Field) (e : PasswordEntry) (s : GoString) :
    Option (PasswordEntry × Bool × GoString) :=
  match fld, s with
  | none, _ => (skipValue s.length 2 s).map (fun rest => (e, false, rest))
  | some _, [] => none
  | some f, c :: rest =>
    if c.val = 0x22 then
      (parseString rest.length rest).map (fun (v, rest1) => (e.set f v, false, rest1))
    else if c.val = 0x6E then
      (scanWord (str "null") (c :: rest)).map (fun rest1 => (e, false, rest1))
    else (skipValue (c :: rest).length 2 (c :: rest)).map (fun rest1 => (e, true, rest1))

/-- The members of an object that is decoded into an entry, from the opening quote of a
key to the closing brace.  A key that occurs again overwrites the field.  The first
argument bounds the number of members. -/
def parseMembers : Nat → PasswordEntry → GoString → Option (PasswordEntry × Bool × GoString)
  | 0, _, _ => none
  | _ + 1, _, [] => none
  | fuel + 1, e, q :: s =>
    if q.val ≠ 0x22 then none
    else
      match parseString s.length s with
      | none => none
      | some (key, rest) =>
        match skipSpace rest with
        | [] => none
        | colon :: rest1 =>
          if colon.val ≠ 0x3A then none
          else
            match parseFieldValue (fieldOfKey key) e (skipSpace rest1) with
            | none => none
            | some (e1, bad, rest2) =>
              match skipSpace rest2 with
              | [] => none
              | d :: rest3 =>
                if d.val = 0x2C then
                  match parseMembers fuel e1 (skipSpace rest3) with
                  | none => none
                  | some (e2, bad2, rest4) => some (e2, bad || bad2, rest4)
                else if d.val = 0x7D then some (e1, bad, rest3)
                else none

/-- One element of the array, decoded into a fresh entry; the input starts at the first
byte of the element.  An object fills the entry, `null` leaves it zero, any other
value is skipped and is a type error. -/
def parseElement : GoString → Option (PasswordEntry × Bool × GoString)
  | [] => none
  | c :: rest =>
    if c.val = 0x7B then
      match skipSpace rest with
      | [] => none
      | d :: rest1 =>
        if d.val = 0x7D then some (PasswordEntry.zero, false, rest1)
        else parseMembers (d :: rest1).length PasswordEntry.zero (d :: rest1)
    else if c.val = 0x6E then
      (scanWord (str "null") (c :: rest)).map (fun rest1 => (PasswordEntry.zero, false, rest1))
    else
      (skipValue (c :: rest).length 1 (c :: rest)).map
        (fun rest1 => (PasswordEntry.zero, true, rest1))

/-- The elements of the array that is decoded into the slice, from the first byte of an
element to the closing bracket.  The first argument bounds the number of elements. -/
def parseElems : Nat → GoString → Option (List PasswordEntry × Bool × GoString)
  | 0, _ => none
  | fuel + 1, s =>
    match parseElement s with
    | none => none
    | some (e, bad, rest) =>
      match skipSpace rest with
      | [] => none
      | d :: rest1 =>
        if d.val = 0x2C then
          match parseElems fuel (skipSpace rest1) with
          | none => none
          | some (es, bad2, rest2) => some (e :: es, bad || bad2, rest2)
        else if d.val = 0x5D then some ([e], bad, rest1)
        else none

/-- The top-level value decoded into the slice: an array gives its elements (an empty
slice that is not nil for `[]`), `null` gives the nil slice, any other value is a
type error. -/
def parseTop : GoString → Option (Slice × Bool × GoString)
  | [] => none
  | c :: rest =>
    if c.val = 0x5B then
      match skipSpace rest with
      | [] => none
      | d :: rest1 =>
        if d.val = 0x5D then some (some [], false, rest1)
        else
          (parseElems (d :: rest1).length (d :: rest1)).map
            (fun (es, bad, rest2) => (some es, bad, rest2))
    else if c.val = 0x6E then
      (scanWord (str "null") (c :: rest)).map (fun rest1 => (none, false, rest1))
    else
      (skipValue (c :: rest).length 0 (c :: rest)).map (fun rest1 => (none, true, rest1))

/-- Function `json.Unmarshal(data, &v)` for `v` of type `[]PasswordEntry`, initially nil:
white space, one value, white space, end of input. -/
def Unmarshal (data : GoString) : Except JsonError Slice :=
  match parseTop (skipSpace data) with
  | none => .error .syntaxError
  | some (v, bad, rest) =>
    if skipSpace rest ≠ [] then .error .syntaxError
    else if bad then .error .unmarshalType
    else .ok v

/-! ## Package regexp -/

/-- Package `regexp`, as far as the program uses it.  `Compile` either rejects a
pattern with the text of its error or gives the compiled expression, taken as the test
that its method `MatchString` performs on a string. -/
structure RegexpPkg where
  Compile : GoString → Except GoString (GoString → Bool)

/-- Function `regexp.MatchString(pattern, s)`: compile the pattern, then match. -/
def RegexpPkg.MatchString (re : RegexpPkg) (pattern s : GoString) : Except GoString Bool :=
  match re.Compile pattern with
  | .error err => .error err
  | .ok compiled => .ok (compiled s)

/-- Whether `s` starts with `sub`. -/
def startsWith : GoString → GoString → Bool
  | _, [] => true
  | [], _ :: _ => false
  | c :: s, d :: sub => c = d && startsWith s sub

/-- Whether `sub` occurs somewhere in `s`. -/
def hasSubstr : GoString → GoString → Bool
  | [], sub => startsWith [] sub
  | c :: s, sub => startsWith (c :: s) sub || hasSubstr s sub

/-- The metacharacters of the regular expression syntax. -/
def isMetaChar (c : Byte) : Bool := c ∈ str "\\.+*?()|[]\x7b\x7d^$"

/-- Package `regexp` on the patterns used as concrete inputs below.  A pattern of ASCII
bytes none of which is a metacharacter is a literal: it compiles, and matches the strings
in which it occurs.  A pattern with an opening parenthesis that is never closed is a
syntax error.  Other patterns with metacharacters are not covered; they are rejected
here as well. -/
def literalRegexp : RegexpPkg where
  Compile pattern :=
    if pattern.all (fun c => decide (c.val < 0x80) && !isMetaChar c) then
      .ok (fun s => hasSubstr s pattern)
    else
      .error (str "error parsing regexp: missing closing ): " ++ [0x60] ++ pattern ++ [0x60])

/-! ## The program -/

/-- Equality of results is decidable. -/
instance instDecidableEqExcept {ε α : Type} [DecidableEq ε] [DecidableEq α] :
    DecidableEq (Except ε α)
  | .ok a, .ok b =>
    if h : a = b then isTrue (by rw [h]) else isFalse (by intro h2; cases h2; exact h rfl)
  | .error a, .error b =>
    if h : a = b then isTrue (by rw [h]) else isFalse (by intro h2; cases h2; exact h rfl)
  | .ok _, .error _ => isFalse (by intro h; cases h)
  | .error _, .ok _ => isFalse (by intro h; cases h)

/-- A Go `error` value of the program: the `*wrongUsageError` marker or an error made by
`fmt.Errorf`, which is its message. -/
inductive GoError where
  | wrongUsageError
  | errorf (msg : GoString)
  deriving DecidableEq, Repr

/-- Method `Error`. -/
def GoError.Error : GoError → GoString
  | .wrongUsageError => []
  | .errorf msg => msg

/-- What the program sees of the outside: the file named by the global `filePath` (`none`
when it does not exist), the bytes of standard input that are not read yet, and the text
printed to standard output.  `openErr` is the error with which `os.OpenFile` fails to open
the file for writing (`none` when it opens it; a missing directory or a file that may not
be written give an error), `writeErr` the failure of `Write` on the opened file (`none`
when it writes everything; otherwise the number of bytes written before the error, and the
error).  `writes` counts the times the file was opened and truncated; it is not part of
the program and only records whether a write took place. -/
structure World where
  filePath : GoString
  file : Option GoString
  writes : Nat
  stdin : GoString
  stdout : GoString
  openErr : Option GoString
  writeErr : Option (Nat × GoString)
  deriving DecidableEq, Repr

/-- Function `ioutil.ReadFile(filePath)`. -/
def ReadFile (w : World) : Except GoString GoString :=
  match w.file with
  | none => .error (str "open " ++ w.filePath ++ str ": no such file or directory")
  | some data => .ok data

/-- Function `fmt.Printf` with the text already formatted. -/
def Printf (text : GoString) (w : World) : World :=
  { w with stdout := w.stdout ++ text }

/-- Constant `defaultBufSize` of package bufio: the size of the buffer of the reader that
`bufio.NewReader` makes. -/
def defaultBufSize : Nat := 4096

/-- The errors of `ReadSlice`. -/
inductive BufioError where
  | ErrBufferFull
  | EOF
  deriving DecidableEq, Repr

/-- Method `Error`. -/
def BufioError.Error : BufioError → GoString
  | .ErrBufferFull => str "bufio: buffer full"
  | .EOF => str "EOF"

/-- The search of `ReadSlice` for the line feed among the first `n` bytes of the input:
the bytes up to the first line feed, with it, and the bytes after it. -/
def indexLine : Nat → GoString → Option (GoString × GoString)
  | 0, _ => none
  | _ + 1, [] => none
  | n + 1, c :: s =>
    if c = 0x0A then some ([c], s)
    else
      match indexLine n s with
      | none => none
      | some (line, rest) => some (c :: line, rest)

/-- Method `ReadSlice` of the `bufio.Reader` on standard input, for the delimiter `\n`.
The reader fills its buffer until it holds the delimiter, the input ends or the buffer is
full, so the outcome depends only on the bytes not read yet: the line with its line feed
when one is among the first `defaultBufSize` bytes; all that is left, with `io.EOF`, when
the input ends before the buffer is full; else the full buffer, with `ErrBufferFull`. -/
def ReadSlice (w : World) : GoString × Option BufioError × World :=
  match indexLine defaultBufSize w.stdin with
  | some (line, rest) => (line, none, { w with stdin := rest })
  | none =>
    if w.stdin.length < defaultBufSize then (w.stdin, some .EOF, { w with stdin := [] })
    else
      (w.stdin.take defaultBufSize, some .ErrBufferFull,
        { w with stdin := w.stdin.drop defaultBufSize })

/-- Method `ReadLine` of the `bufio.Reader` on standard input; the result is the line,
`isPrefix` and the text of the error.  A line that does not fit the buffer comes in
pieces, `isPrefix` set on all but the last; a carriage return at the end of such a piece
is put back for the next call. -/
def ReadLine (w : World) : (GoString × Bool × Option GoString) × World :=
  let (line, err, w) := ReadSlice w
  if err = some .ErrBufferFull then
    if line.getLast? = some 0x0D then
      ((line.dropLast, true, none), { w with stdin := 0x0D :: w.stdin })
    else ((line, true, none), w)
  else if line.length = 0 then (([], false, err.map BufioError.Error), w)
  else if line.getLast? = some 0x0A then
    let drop := if 1 < line.length ∧ line.getD (line.length - 2) 0 = 0x0D then 2 else 1
    ((line.take (line.length - drop), false, none), w)
  else ((line, false, none), w)

/-- Function `readPasswords`. -/
def readPasswords (w : World) : Except GoError Slice :=
  match ReadFile w with
  | .error err => .error (.errorf (str "ioutil.ReadFile(): " ++ err))
  | .ok jsonText =>
    match Unmarshal jsonText with
    | .error err => .error (.errorf (str "json.Unmarshal(): " ++ err.Error))
    | .ok passwordEntries => .ok passwordEntries

/-- Function `writePasswords`.  `json.MarshalIndent` does not fail for this type.  When
`os.OpenFile` fails the file is left as it was; when it succeeds the file is created or
truncated, and holds what `Write` wrote. -/
def writePasswords (passwords : Slice) (w : World) : Option GoError × World :=
  let jsonText := MarshalIndent passwords
  match w.openErr with
  | some err => (some (.errorf (str "os.OpenFile(): " ++ err)), w)
  | none =>
    match w.writeErr with
    | some (n, err) =>
      (some (.errorf (str "(os.File) os.Write(): " ++ err)),
        { w with file := some (jsonText.take n), writes := w.writes + 1 })
    | none => (none, { w with file := some jsonText, writes := w.writes + 1 })

/-- Function `add`.  `pwgen` is the outcome of running the generator: its standard output, or
the text of the error.  The three calls of `ReadLine` drop `isPrefix`. -/
def add (_args : List GoString) (pwgen : Except GoString GoString) (w : World) :
    Option GoError × World :=
  let loaded : Except GoError Slice :=
    if w.file = none then .ok (some []) else readPasswords w
  match loaded with
  | .error err => (some (.errorf (str "readPasswords(): " ++ err.Error)), w)
  | .ok passwordEntries =>
    let w := Printf (str "Site: ") w
    match ReadLine w with
    | ((_, _, some err), w) => (some (.errorf (str "(io.Reader) bufio.ReadLine() " ++ err)), w)
    | ((site, _, none), w) =>
      let w := Printf (str "Login: ") w
      match ReadLine w with
      | ((_, _, some err), w) =>
        (some (.errorf (str "(io.Reader) bufio.ReadLine() " ++ err)), w)
      | ((login, _, none), w) =>
        let w := Printf (str "Comment: ") w
        match ReadLine w with
        | ((_, _, some err), w) =>
          (some (.errorf (str "(io.Reader) bufio.ReadLine() " ++ err)), w)
        | ((comment, _, none), w) =>
          match pwgen with
          | .error err => (some (.errorf (str "pwgen: " ++ err)), w)
          | .ok p =>
            let password := TrimSpace p
            let passwordEntries : Slice :=
              some (passwordEntries.elems ++
                [{ Site := site, Login := login, Comment := comment,
                   Password := EncodeToString password }])
            match writePasswords passwordEntries w with
            | (some err, w) => (some (.errorf (str "writePasswords(): " ++ err.Error)), w)
            | (none, w) => (none, w)

/-- The loop of `remove` over the entries: `i` is the index of the next entry,
`matchedEntries` the entries matched so far (the program keeps pointers to them) and
`lastMatchedEntryIndex` the index of the last one, `-1` at first.  An error of
`regexp.MatchString` ends the loop. -/
def removeLoop (re : RegexpPkg) (pattern : GoString) :
    List PasswordEntry → Nat → List PasswordEntry → Int →
      Except GoString (List PasswordEntry × Int)
  | [], _, matchedEntries, lastMatchedEntryIndex => .ok (matchedEntries, lastMatchedEntryIndex)
  | entry :: rest, i, matchedEntries, lastMatchedEntryIndex =>
    match re.MatchString pattern entry.Site with
    | .error err => .error err
    | .ok matched =>
      if matched then removeLoop re pattern rest (i + 1) (matchedEntries ++ [entry]) i
      else removeLoop re pattern rest (i + 1) matchedEntries lastMatchedEntryIndex

/-- The text of the error for several matches: a heading, then the site of every matched
entry, indented by two spaces, one per line. -/
def multipleMatches (matchedEntries : List PasswordEntry) : GoString :=
  matchedEntries.foldl (fun errorStr m => errorStr ++ (str "  " ++ m.Site ++ str "\n"))
    (str "Multiple matches:\n")

/-- Function `remove`. -/
def remove (re : RegexpPkg) (args : List GoString) (w : World) : Option GoError × World :=
  match args with
  | [pattern] =>
    match readPasswords w with
    | .error err => (some (.errorf (str "readPasswords(): " ++ err.Error)), w)
    | .ok passwordEntries =>
      match removeLoop re pattern passwordEntries.elems 0 [] (-1) with
      | .error err => (some (.errorf (str "regexp.MatchString(): " ++ err)), w)
      | .ok (matchedEntries, lastMatchedEntryIndex) =>
        if matchedEntries.length = 0 then (some (.errorf (str "Site not found")), w)
        else if matchedEntries.length = 1 then
          let newArray : List PasswordEntry := []
          let newArray := newArray ++ passwordEntries.elems.take lastMatchedEntryIndex.toNat
          let newArray := newArray ++ passwordEntries.elems.drop (lastMatchedEntryIndex.toNat + 1)
          match writePasswords (some newArray) w with
          | (some err, w) => (some (.errorf (str "writePasswords(): " ++ err.Error)), w)
          | (none, w) => (none, w)
        else (some (.errorf (multipleMatches matchedEntries)), w)
  | _ => (some .wrongUsageError, w)

/-- The loop of `get` over the entries, collecting the matched ones. -/
def getLoop (re : RegexpPkg) (pattern : GoString) :
    List PasswordEntry → List PasswordEntry → Except GoString (List PasswordEntry)
  | [], matchedEntries => .ok matchedEntries
  | entry :: rest, matchedEntries =>
    match re.MatchString pattern entry.Site with
    | .error err => .error err
    | .ok matched =>
      if matched then getLoop re pattern rest (matchedEntries ++ [entry])
      else getLoop re pattern rest matchedEntries

/-- The four lines that `get` prints for an entry and the decoded password. -/
def getOutput (m : PasswordEntry) (pw : GoString) : GoString :=
  str "Site: " ++ m.Site ++ str "\n" ++ (str "Login: " ++ m.Login ++ str "\n")
    ++ (str "Comment: " ++ m.Comment ++ str "\n") ++ (str "Password: " ++ pw ++ str "\n")

/-- Function `get`. -/
def get (re : RegexpPkg) (args : List GoString) (w : World) : Option GoError × World :=
  match args with
  | [pattern] =>
    match readPasswords w with
    | .error err => (some (.errorf (str "readPasswords(): " ++ err.Error)), w)
    | .ok passwordEntries =>
      match getLoop re pattern passwordEntries.elems [] with
      | .error err => (some (.errorf (str "regexp.MatchString(): " ++ err)), w)
      | .ok matchedEntries =>
        if matchedEntries.length = 0 then (some (.errorf (str "Site not found")), w)
        else if h : matchedEntries.length = 1 then
          match DecodeString (matchedEntries[0]).Password with
          | .error err => (some (.errorf (str "base64.DecodeString(): " ++ err)), w)
          | .ok pw =>
            let w := Printf (str "Site: " ++ (matchedEntries[0]).Site ++ str "\n") w
            let w := Printf (str "Login: " ++ (matchedEntries[0]).Login ++ str "\n") w
            let w := Printf (str "Comment: " ++ (matchedEntries[0]).Comment ++ str "\n") w
            let w := Printf (str "Password: " ++ pw ++ str "\n") w
            (none, w)
        else (some (.errorf (multipleMatches matchedEntries)), w)
  | _ => (some .wrongUsageError, w)

/-! ## Predicates and concrete inputs used by the theorems -/

/-- The five outcomes of `decodeRune` on a string that is not empty: `RuneStep p r n` says
that `p` starts with the rune `r` in `n` bytes (`r` is `RuneError` and `n` is 1 for an
invalid byte). -/
inductive RuneStep : GoString → Nat → Nat → Prop
  | ascii (p0 : Byte) (rest : GoString) (h : p0.val < 0x80) : RuneStep (p0 :: rest) p0.val 1
  | invalid (p0 : Byte) (rest : GoString) (h : 0x80 ≤ p0.val) :
      RuneStep (p0 :: rest) RuneError 1
  | two (p0 b1 : Byte) (rest : GoString) (h0 : 0xC2 ≤ p0.val) (h0u : p0.val < 0xE0)
      (h1 : 0x80 ≤ b1.val) (h1u : b1.val ≤ 0xBF) :
      RuneStep (p0 :: b1 :: rest) (p0.val % 32 * 64 + b1.val % 64) 2
  | three (p0 b1 b2 : Byte) (rest : GoString) (h0 : 0xE0 ≤ p0.val) (h0u : p0.val < 0xF0)
      (h1 : acceptLo p0 ≤ b1.val) (h1u : b1.val ≤ acceptHi p0)
      (h2 : 0x80 ≤ b2.val) (h2u : b2.val ≤ 0xBF) :
      RuneStep (p0 :: b1 :: b2 :: rest)
        (p0.val % 16 * 4096 + b1.val % 64 * 64 + b2.val % 64) 3
  | four (p0 b1 b2 b3 : Byte) (rest : GoString) (h0 : 0xF0 ≤ p0.val) (h0u : p0.val ≤ 0xF4)
      (h1 : acceptLo p0 ≤ b1.val) (h1u : b1.val ≤ acceptHi p0)
      (h2 : 0x80 ≤ b2.val) (h2u : b2.val ≤ 0xBF) (h3 : 0x80 ≤ b3.val) (h3u : b3.val ≤ 0xBF) :
      RuneStep (p0 :: b1 :: b2 :: b3 :: rest)
        (p0.val % 8 * 262144 + b1.val % 64 * 4096 + b2.val % 64 * 64 + b3.val % 64) 4

/-- The text that one step of `parseString` puts in front of the rest: valid UTF-8 made
of whole runes, so that it does not change whether what follows it is valid. -/
def GoodPiece (out : GoString) : Prop := ∀ t : GoString, validString (out ++ t) = validString t

/-- A line of input as `ReadLine` returns it whole: `text` holds no line feed, `eol` is
the end of the line, a line feed with or without a carriage return before it (a carriage
return before a line feed always belongs to the end of the line), and the line with its
end fits the buffer of the reader. -/
def isLine (text eol : GoString) : Bool :=
  decide ((0x0A : Byte) ∉ text ∧ text.length + eol.length ≤ defaultBufSize
    ∧ (eol = [0x0D, 0x0A] ∨ (eol = [0x0A] ∧ text.getLast? ≠ some 0x0D)))

/-- Three entries with the sites `x`, `y` and `x2`. -/
def storeABC : List PasswordEntry :=
  [ { Site := str "x", Login := str "alice", Comment := str "", Password := str "cGFzc0E=" },
    { Site := str "y", Login := str "bob", Comment := str "work", Password := str "cGFzc0I=" },
    { Site := str "x2", Login := str "carol", Comment := str "", Password := str "cGFzc0M=" } ]

/-- A world whose file holds the three entries of `storeABC`. -/
def worldABC : World :=
  { filePath := str "passwords.json", file := some (MarshalIndent (some storeABC)),
    writes := 0, stdin := [], stdout := [], openErr := none, writeErr := none }

/-- The world `worldABC` with a file that may be read and not written. -/
def worldReadOnly : World :=
  { worldABC with openErr := some (str "open passwords.json: permission denied") }

/-- The world `worldABC` on a failing disk: the file opens, and is truncated, and `Write`
fails before it has written a byte. -/
def worldWriteError : World :=
  { worldABC with writeErr := some (0, str "write passwords.json: input/output error") }

/-- A world whose file holds the empty array `[]`. -/
def worldEmpty : World :=
  { filePath := str "passwords.json", file := some (str "[]"),
    writes := 0, stdin := [], stdout := [], openErr := none, writeErr := none }

/-- A world without the file, in which the user types a site, a login and an empty
comment. -/
def worldFresh : World :=
  { filePath := str "passwords.json", file := none, writes := 0,
    stdin := str "example.com\nalice\n\n", stdout := [], openErr := none, writeErr := none }

/-- The world of `pwmanager -f nodir/passwords.json` where the directory `nodir` does not
exist: the file is absent and cannot be created.  The user types what they type in
`worldFresh`. -/
def worldNoDir : World :=
  { filePath := str "nodir/passwords.json", file := none, writes := 0,
    stdin := str "example.com\nalice\n\n", stdout := [],
    openErr := some (str "open nodir/passwords.json: no such file or directory"),
    writeErr := none }

/-- The world `worldFresh` on a failing disk: the file is created, and `Write` fails
before it has written a byte. -/
def worldFreshWriteError : World :=
  { worldFresh with writeErr := some (0, str "write passwords.json: input/output error") }

/-- A world without the file, in which the user types the byte 0xFF as the site. -/
def worldBadSite : World :=
  { worldFresh with stdin := [0xFF, 0x0A] ++ str "alice\n\n" }

/-- A site of 4097 bytes, one more than the buffer of the reader holds. -/
def longSite : GoString := List.replicate defaultBufSize 0x61 ++ [0x61]

/-- A world without the file, in which the user types `longSite`, a login and an empty
comment. -/
def worldLong : World :=
  { worldFresh with stdin := longSite ++ str "\nalice\n\n" }

/-- The output of the generator in the scenario. -/
def scenarioSecret : GoString := str "Ab12Cd34Ef56Gh78Ij90Kl12"

/-- The entry that `add` stores in the scenario. -/
def scenarioEntry : PasswordEntry :=
  { Site := str "example.com", Login := str "alice", Comment := str "",
    Password := EncodeToString scenarioSecret }

/-- First step of the scenario: `add`, the generator printing `scenarioSecret`. -/
def scenarioAdd (w0 : World) : Option GoError × World :=
  add [] (.ok scenarioSecret) w0

/-- Second step of the scenario: `get example`. -/
def scenarioGet (re : RegexpPkg) (w0 : World) : Option GoError × World :=
  get re [str "example"] (scenarioAdd w0).2

/-- Third step of the scenario: `remove nomatch`. -/
def scenarioRemoveNoMatch (re : RegexpPkg) (w0 : World) : Option GoError × World :=
  remove re [str "nomatch"] (scenarioGet re w0).2

/-- Fourth step of the scenario: `remove example`. -/
def scenarioRemove (re : RegexpPkg) (w0 : World) : Option GoError × World :=
  remove re [str "example"] (scenarioRemoveNoMatch re w0).2

/-- An entry whose site is the single byte 0xFF, which is not valid UTF-8. -/
def entryBadSite : PasswordEntry :=
  { Site := [0xFF], Login := str "alice", Comment := str "", Password := str "cGFzc0E=" }

/-! ## The loops of `remove` and `get` -/

theorem MatchString_of_compile {re : RegexpPkg} {pattern : GoString} {m : GoString → Bool}
    (hc : re.Compile pattern = .ok m) (s : GoString) :
    re.MatchString pattern s = .ok (m s) := by
  simp [RegexpPkg.MatchString, hc]

theorem MatchString_of_compile_error {re : RegexpPkg} {pattern err : GoString}
    (hc : re.Compile pattern = .error err) (s : GoString) :
    re.MatchString pattern s = .error err := by
  simp [RegexpPkg.MatchString, hc]

theorem MatchString_ok_iff {re : RegexpPkg} {pattern s : GoString} {b : Bool} :
    re.MatchString pattern s = .ok b ↔ ∃ m, re.Compile pattern = .ok m ∧ m s = b := by
  unfold RegexpPkg.MatchString
  cases h : re.Compile pattern with
  | error e => simp
  | ok m => simp

theorem removeLoop_matched {re : RegexpPkg} {pattern : GoString} {m : GoString → Bool}
    (hc : re.Compile pattern = .ok m) :
    ∀ (es : List PasswordEntry) (i : Nat) (acc : List PasswordEntry) (last : Int),
      ∃ last2, removeLoop re pattern es i acc last
        = .ok (acc ++ es.filter (fun e => m e.Site), last2) := by
  intro es
  induction es with
  | nil => intro i acc last; exact ⟨last, by simp [removeLoop]⟩
  | cons e rest ih =>
    intro i acc last
    simp only [removeLoop, MatchString_of_compile hc]
    by_cases hm : m e.Site = true
    · obtain ⟨l2, h2⟩ := ih (i + 1) (acc ++ [e]) i
      exact ⟨l2, by simp [hm, h2]⟩
    · obtain ⟨l2, h2⟩ := ih (i + 1) acc last
      exact ⟨l2, by simp [hm, h2]⟩

theorem removeLoop_none {re : RegexpPkg} {pattern : GoString} :
    ∀ (es : List PasswordEntry) (i : Nat) (acc : List PasswordEntry) (last : Int),
      (∀ e ∈ es, re.MatchString pattern e.Site = .ok false) →
      removeLoop re pattern es i acc last = .ok (acc, last) := by
  intro es
  induction es with
  | nil => intro i acc last _; simp [removeLoop]
  | cons e rest ih =>
    intro i acc last h
    have he := h e (List.mem_cons_self _ _)
    simp only [removeLoop, he]
    simpa using ih (i + 1) acc last (fun x hx => h x (List.mem_cons_of_mem _ hx))

theorem removeLoop_unique {re : RegexpPkg} {pattern : GoString} {m : GoString → Bool}
    (hc : re.Compile pattern = .ok m) :
    ∀ (es : List PasswordEntry) (k : Nat) (hk : k < es.length) (i : Nat)
      (acc : List PasswordEntry) (last : Int),
      (∀ j (hj : j < es.length), m (es[j]).Site = true ↔ j = k) →
      removeLoop re pattern es i acc last = .ok (acc ++ [es[k]], ((i + k : Nat) : Int)) := by
  intro es
  induction es with
  | nil => intro k hk; simp at hk
  | cons e rest ih =>
    intro k hk i acc last h
    simp only [removeLoop, MatchString_of_compile hc]
    cases k with
    | zero =>
      have h0 : m e.Site = true := (h 0 (by simp)).2 rfl
      have hrest : ∀ x ∈ rest, re.MatchString pattern x.Site = .ok false := by
        intro x hx
        obtain ⟨j, hj, rfl⟩ := List.getElem_of_mem hx
        rw [MatchString_of_compile hc]
        have := h (j + 1) (by simpa using hj)
        simp only [List.getElem_cons_succ] at this
        cases hmx : m (rest[j]).Site with
        | false => rfl
        | true => exact absurd (this.1 hmx) (by omega)
      simp [h0, removeLoop_none rest (i + 1) (acc ++ [e]) i hrest]
    | succ k =>
      have h0 : m e.Site = false := by
        cases hmx : m e.Site with
        | false => rfl
        | true => exact absurd ((h 0 (by simp)).1 (by simpa using hmx)) (by omega)
      have hk2 : k < rest.length := by simpa using hk
      have := ih k hk2 (i + 1) acc last (by
        intro j hj
        have := h (j + 1) (by simpa using hj)
        simpa using this)
      simp only [h0, Bool.false_eq_true, ↓reduceIte, this, List.getElem_cons_succ]
      congr 2
      omega

theorem removeLoop_error {re : RegexpPkg} {pattern err : GoString}
    (hc : re.Compile pattern = .error err) (e : PasswordEntry) (rest : List PasswordEntry)
    (i : Nat) (acc : List PasswordEntry) (last : Int) :
    removeLoop re pattern (e :: rest) i acc last = .error err := by
  simp [removeLoop, MatchString_of_compile_error hc]

theorem getLoop_matched {re : RegexpPkg} {pattern : GoString} {m : GoString → Bool}
    (hc : re.Compile pattern = .ok m) :
    ∀ (es acc : List PasswordEntry),
      getLoop re pattern es acc = .ok (acc ++ es.filter (fun e => m e.Site)) := by
  intro es
  induction es with
  | nil => intro acc; simp [getLoop]
  | cons e rest ih =>
    intro acc
    simp only [getLoop, MatchString_of_compile hc]
    by_cases hm : m e.Site = true
    · simp [hm, ih]
    · simp [hm, ih]

theorem getLoop_none {re : RegexpPkg} {pattern : GoString} :
    ∀ (es acc : List PasswordEntry),
      (∀ e ∈ es, re.MatchString pattern e.Site = .ok false) →
      getLoop re pattern es acc = .ok acc := by
  intro es
  induction es with
  | nil => intro acc _; simp [getLoop]
  | cons e rest ih =>
    intro acc h
    have he := h e (List.mem_cons_self _ _)
    simp only [getLoop, he]
    simpa using ih acc (fun x hx => h x (List.mem_cons_of_mem _ hx))

theorem getLoop_error {re : RegexpPkg} {pattern err : GoString}
    (hc : re.Compile pattern = .error err) (e : PasswordEntry) (rest : List PasswordEntry)
    (acc : List PasswordEntry) :
    getLoop re pattern (e :: rest) acc = .error err := by
  simp [getLoop, MatchString_of_compile_error hc]

theorem filter_unique {m : GoString → Bool} :
    ∀ (es : List PasswordEntry) (k : Nat) (hk : k < es.length),
      (∀ j (hj : j < es.length), m (es[j]).Site = true ↔ j = k) →
      es.filter (fun e => m e.Site) = [es[k]] := by
  intro es
  induction es with
  | nil => intro k hk; simp at hk
  | cons e rest ih =>
    intro k hk h
    cases k with
    | zero =>
      have h0 : m e.Site = true := (h 0 (by simp)).2 rfl
      have hrest : ∀ x ∈ rest, ¬ m x.Site = true := by
        intro x hx hmx
        obtain ⟨j, hj, rfl⟩ := List.getElem_of_mem hx
        have := (h (j + 1) (by simpa using hj)).1 (by simpa using hmx)
        omega
      have : rest.filter (fun e => m e.Site) = [] := by
        rw [List.filter_eq_nil_iff]; exact hrest
      simp [List.filter_cons, h0, this]
    | succ k =>
      have h0 : ¬ m e.Site = true := by
        intro hmx
        have := (h 0 (by simp)).1 (by simpa using hmx)
        omega
      have hk2 : k < rest.length := by simpa using hk
      have := ih k hk2 (by
        intro j hj
        have := h (j + 1) (by simpa using hj)
        simpa using this)
      simp [List.filter_cons, h0, this]

theorem multipleMatches_eq (ms : List PasswordEntry) :
    multipleMatches ms
      = str "Multiple matches:\n" ++ (ms.map (fun e => str "  " ++ e.Site ++ str "\n")).flatten := by
  unfold multipleMatches
  generalize str "Multiple matches:\n" = init
  induction ms generalizing init with
  | nil => simp
  | cons e rest ih =>
    rw [List.foldl_cons, ih]
    simp [List.append_assoc]

/-! ## UTF-8 -/

theorem encodeRune_ascii (b : Byte) (h : b.val < 0x80) : encodeRune b.val = [b] := by
  unfold encodeRune
  rw [dif_pos (by omega)]

theorem encodeRune_two (p0 b1 : Byte) (h0 : 0xC2 ≤ p0.val) (h0u : p0.val < 0xE0)
    (h1 : 0x80 ≤ b1.val) (h1u : b1.val ≤ 0xBF) :
    encodeRune (p0.val % 32 * 64 + b1.val % 64) = [p0, b1] := by
  unfold encodeRune
  rw [dif_neg (by omega), dif_pos (by omega)]
  congr 1
  · apply Fin.ext; simp only; omega
  · congr 1; apply Fin.ext; simp only; omega

theorem encodeRune_three (p0 b1 b2 : Byte) (h0 : 0xE0 ≤ p0.val) (h0u : p0.val < 0xF0)
    (h1 : acceptLo p0 ≤ b1.val) (h1u : b1.val ≤ acceptHi p0)
    (h2 : 0x80 ≤ b2.val) (h2u : b2.val ≤ 0xBF) :
    encodeRune (p0.val % 16 * 4096 + b1.val % 64 * 64 + b2.val % 64) = [p0, b1, b2] := by
  unfold acceptLo at h1
  unfold acceptHi at h1u
  unfold encodeRune
  split_ifs at h1 h1u <;>
  · rw [dif_neg (by omega), dif_neg (by omega), dif_neg (by omega), dif_pos (by omega)]
    congr 1
    · apply Fin.ext; simp only; omega
    · congr 1
      · apply Fin.ext; simp only; omega
      · congr 1; apply Fin.ext; simp only; omega

theorem encodeRune_four (p0 b1 b2 b3 : Byte) (h0 : 0xF0 ≤ p0.val) (h0u : p0.val ≤ 0xF4)
    (h1 : acceptLo p0 ≤ b1.val) (h1u : b1.val ≤ acceptHi p0)
    (h2 : 0x80 ≤ b2.val) (h2u : b2.val ≤ 0xBF) (h3 : 0x80 ≤ b3.val) (h3u : b3.val ≤ 0xBF) :
    encodeRune (p0.val % 8 * 262144 + b1.val % 64 * 4096 + b2.val % 64 * 64 + b3.val % 64)
      = [p0, b1, b2, b3] := by
  unfold acceptLo at h1
  unfold acceptHi at h1u
  unfold encodeRune
  split_ifs at h1 h1u <;>
  · rw [dif_neg (by omega), dif_neg (by omega), dif_neg (by omega), dif_neg (by omega)]
    congr 1
    · apply Fin.ext; simp only; omega
    · congr 1
      · apply Fin.ext; simp only; omega
      · congr 1
        · apply Fin.ext; simp only; omega
        · congr 1; apply Fin.ext; simp only; omega

theorem decodeRune_ascii (p0 : Byte) (rest : GoString) (h : p0.val < 0x80) :
    decodeRune (p0 :: rest) = (p0.val, 1) := by
  simp [decodeRune, h]

theorem decodeRune_two (p0 b1 : Byte) (rest : GoString) (h0 : 0xC2 ≤ p0.val)
    (h0u : p0.val < 0xE0) (h1 : 0x80 ≤ b1.val) (h1u : b1.val ≤ 0xBF) :
    decodeRune (p0 :: b1 :: rest) = (p0.val % 32 * 64 + b1.val % 64, 2) := by
  have hs : runeSize p0 = 2 := by simp [runeSize, h0u]
  have hlo : acceptLo p0 = 0x80 := by
    unfold acceptLo; rw [if_neg (by omega), if_neg (by omega)]
  have hhi : acceptHi p0 = 0xBF := by
    unfold acceptHi; rw [if_neg (by omega), if_neg (by omega)]
  simp only [decodeRune, List.length_cons]
  rw [if_neg (by omega), if_neg (by omega), hs, hlo, hhi]
  rw [if_neg (by omega), if_neg (by omega), if_pos (by omega)]

theorem decodeRune_three (p0 b1 b2 : Byte) (rest : GoString) (h0 : 0xE0 ≤ p0.val)
    (h0u : p0.val < 0xF0) (h1 : acceptLo p0 ≤ b1.val) (h1u : b1.val ≤ acceptHi p0)
    (h2 : 0x80 ≤ b2.val) (h2u : b2.val ≤ 0xBF) :
    decodeRune (p0 :: b1 :: b2 :: rest)
      = (p0.val % 16 * 4096 + b1.val % 64 * 64 + b2.val % 64, 3) := by
  have hs : runeSize p0 = 3 := by
    unfold runeSize; rw [if_neg (by omega), if_pos (by omega)]
  simp only [decodeRune, List.length_cons]
  rw [if_neg (by omega), if_neg (by omega), hs]
  rw [if_neg (by omega), if_neg (by omega), if_neg (by omega), if_neg (by omega),
    if_pos (by omega)]

theorem decodeRune_four (p0 b1 b2 b3 : Byte) (rest : GoString) (h0 : 0xF0 ≤ p0.val)
    (h0u : p0.val ≤ 0xF4) (h1 : acceptLo p0 ≤ b1.val) (h1u : b1.val ≤ acceptHi p0)
    (h2 : 0x80 ≤ b2.val) (h2u : b2.val ≤ 0xBF) (h3 : 0x80 ≤ b3.val) (h3u : b3.val ≤ 0xBF) :
    decodeRune (p0 :: b1 :: b2 :: b3 :: rest)
      = (p0.val % 8 * 262144 + b1.val % 64 * 4096 + b2.val % 64 * 64 + b3.val % 64, 4) := by
  have hs : runeSize p0 = 4 := by
    unfold runeSize; rw [if_neg (by omega), if_neg (by omega)]
  simp only [decodeRune, List.length_cons]
  rw [if_neg (by omega), if_neg (by omega), hs]
  rw [if_neg (by omega), if_neg (by omega), if_neg (by omega), if_neg (by omega),
    if_neg (by omega), if_neg (by omega)]

theorem decodeRune_step (p0 : Byte) (rest : GoString) :
    RuneStep (p0 :: rest) (decodeRune (p0 :: rest)).1 (decodeRune (p0 :: rest)).2 := by
  by_cases ha : p0.val < 0x80
  · rw [decodeRune_ascii p0 rest ha]; exact .ascii p0 rest ha
  have hinv : ∀ {x : Nat × Nat}, x = (RuneError, 1) → RuneStep (p0 :: rest) x.1 x.2 := by
    intro x hx; rw [hx]; exact .invalid p0 rest (by omega)
  by_cases hx : p0.val < 0xC2 ∨ 0xF4 < p0.val
  · apply hinv; simp only [decodeRune]; rw [if_neg ha, if_pos hx]
  cases rest with
  | nil => apply hinv; simp only [decodeRune]; rw [if_neg ha, if_neg hx]; split <;> rfl
  | cons b1 rest1 =>
    by_cases hb1 : b1.val < acceptLo p0 ∨ acceptHi p0 < b1.val
    · apply hinv; simp only [decodeRune]; rw [if_neg ha, if_neg hx]; split
      · rfl
      · rfl
    by_cases h2 : p0.val < 0xE0
    · have hlo : acceptLo p0 = 0x80 := by
        unfold acceptLo; rw [if_neg (by omega), if_neg (by omega)]
      have hhi : acceptHi p0 = 0xBF := by
        unfold acceptHi; rw [if_neg (by omega), if_neg (by omega)]
      rw [hlo, hhi] at hb1
      rw [decodeRune_two p0 b1 rest1 (by omega) h2 (by omega) (by omega)]
      exact .two p0 b1 rest1 (by omega) h2 (by omega) (by omega)
    have hs3 : 3 ≤ runeSize p0 := by
      unfold runeSize; rw [if_neg h2]; split <;> omega
    cases rest1 with
    | nil =>
      apply hinv; simp only [decodeRune, List.length_cons, List.length_nil]
      rw [if_neg ha, if_neg hx, if_pos (by omega)]
    | cons b2 rest2 =>
      by_cases hb2 : b2.val < 0x80 ∨ 0xBF < b2.val
      · apply hinv; simp only [decodeRune]; rw [if_neg ha, if_neg hx]; split
        · rfl
        · rw [if_neg (by omega)]
      by_cases h3 : p0.val < 0xF0
      · rw [decodeRune_three p0 b1 b2 rest2 (by omega) h3 (by omega) (by omega) (by omega)
          (by omega)]
        exact .three p0 b1 b2 rest2 (by omega) h3 (by omega) (by omega) (by omega) (by omega)
      have hs4 : runeSize p0 = 4 := by
        unfold runeSize; rw [if_neg h2, if_neg h3]
      cases rest2 with
      | nil =>
        apply hinv; simp only [decodeRune, List.length_cons, List.length_nil]
        rw [if_neg ha, if_neg hx, if_pos (by omega)]
      | cons b3 rest3 =>
        by_cases hb3 : b3.val < 0x80 ∨ 0xBF < b3.val
        · apply hinv; simp only [decodeRune]; rw [if_neg ha, if_neg hx]; split
          · rfl
          · rw [if_neg (by omega), if_neg (by omega)]
        · rw [decodeRune_four p0 b1 b2 b3 rest3 (by omega) (by omega) (by omega) (by omega)
            (by omega) (by omega) (by omega) (by omega)]
          exact .four p0 b1 b2 b3 rest3 (by omega) (by omega) (by omega) (by omega)
            (by omega) (by omega) (by omega) (by omega)

theorem RuneStep.size_pos {p : GoString} {r n : Nat} (h : RuneStep p r n) :
    1 ≤ n ∧ n ≤ p.length := by
  cases h <;> simp

theorem RuneStep.decode {p : GoString} {r n : Nat} (h : RuneStep p r n)
    (hv : ¬ (r = RuneError ∧ n = 1)) (more : GoString) :
    decodeRune (p.take n ++ more) = (r, n) := by
  cases h with
  | ascii p0 rest h => simpa using decodeRune_ascii p0 more h
  | invalid p0 rest h => exact absurd ⟨rfl, rfl⟩ hv
  | two p0 b1 rest h0 h0u h1 h1u => simpa using decodeRune_two p0 b1 more h0 h0u h1 h1u
  | three p0 b1 b2 rest h0 h0u h1 h1u h2 h2u =>
    simpa using decodeRune_three p0 b1 b2 more h0 h0u h1 h1u h2 h2u
  | four p0 b1 b2 b3 rest h0 h0u h1 h1u h2 h2u h3 h3u =>
    simpa using decodeRune_four p0 b1 b2 b3 more h0 h0u h1 h1u h2 h2u h3 h3u

theorem RuneStep.encode {p : GoString} {r n : Nat} (h : RuneStep p r n)
    (hv : ¬ (r = RuneError ∧ n = 1)) : encodeRune r = p.take n := by
  cases h with
  | ascii p0 rest h => simpa using encodeRune_ascii p0 h
  | invalid p0 rest h => exact absurd ⟨rfl, rfl⟩ hv
  | two p0 b1 rest h0 h0u h1 h1u => simpa using encodeRune_two p0 b1 h0 h0u h1 h1u
  | three p0 b1 b2 rest h0 h0u h1 h1u h2 h2u =>
    simpa using encodeRune_three p0 b1 b2 h0 h0u h1 h1u h2 h2u
  | four p0 b1 b2 b3 rest h0 h0u h1 h1u h2 h2u h3 h3u =>
    simpa using encodeRune_four p0 b1 b2 b3 h0 h0u h1 h1u h2 h2u h3 h3u

theorem decodeRune_size (p0 : Byte) (rest : GoString) :
    1 ≤ (decodeRune (p0 :: rest)).2 ∧ (decodeRune (p0 :: rest)).2 ≤ rest.length + 1 := by
  simpa using (decodeRune_step p0 rest).size_pos

theorem drop_size_length (p0 : Byte) (rest : GoString) :
    (rest.drop ((decodeRune (p0 :: rest)).2 - 1)).length ≤ rest.length := by
  simp

theorem take_size_append (p0 : Byte) (rest : GoString) :
    (p0 :: rest).take (decodeRune (p0 :: rest)).2
      ++ rest.drop ((decodeRune (p0 :: rest)).2 - 1) = p0 :: rest := by
  have h := (decodeRune_size p0 rest).1
  obtain ⟨k, hk⟩ : ∃ k, (decodeRune (p0 :: rest)).2 = k + 1 := ⟨_, (Nat.sub_add_cancel h).symm⟩
  rw [hk]
  simp

/-- The rune that `encodeRune` really encodes. -/
theorem decodeRune_encodeRune (r : Nat) (t : GoString) :
    ∃ r2, decodeRune (encodeRune r ++ t) = (r2, (encodeRune r).length)
      ∧ ¬ (r2 = RuneError ∧ (encodeRune r).length = 1) ∧ 1 ≤ (encodeRune r).length := by
  unfold encodeRune
  split_ifs with h1 h2 h0 h3
  · refine ⟨r, ?_, ?_, by simp⟩
    · exact decodeRune_ascii ⟨r, by omega⟩ t (by simp only; omega)
    · simp [RuneError]; omega
  · exact ⟨_, decodeRune_two ⟨0xC0 + r / 64, by omega⟩ ⟨0x80 + r % 64, by omega⟩ t
      (by simp only; omega) (by simp only; omega) (by simp only; omega) (by simp only; omega),
      by simp, by simp⟩
  · exact ⟨_, decodeRune_three 0xEF 0xBF 0xBD t (by decide) (by decide) (by decide)
      (by decide) (by decide) (by decide), by simp, by simp⟩
  · have hlo : acceptLo (⟨0xE0 + r / 4096, by omega⟩ : Byte) ≤ 0x80 + r / 64 % 64 := by
      unfold acceptLo; simp only; split_ifs <;> omega
    have hhi : 0x80 + r / 64 % 64 ≤ acceptHi (⟨0xE0 + r / 4096, by omega⟩ : Byte) := by
      unfold acceptHi; simp only; split_ifs <;> omega
    exact ⟨_, decodeRune_three ⟨0xE0 + r / 4096, by omega⟩ ⟨0x80 + r / 64 % 64, by omega⟩
      ⟨0x80 + r % 64, by omega⟩ t (by simp only; omega) (by simp only; omega)
      hlo hhi (by simp only; omega) (by simp only; omega), by simp, by simp⟩
  · have hlo : acceptLo (⟨0xF0 + r / 262144, by omega⟩ : Byte) ≤ 0x80 + r / 4096 % 64 := by
      unfold acceptLo; simp only; split_ifs <;> omega
    have hhi : 0x80 + r / 4096 % 64 ≤ acceptHi (⟨0xF0 + r / 262144, by omega⟩ : Byte) := by
      unfold acceptHi; simp only; split_ifs <;> omega
    exact ⟨_, decodeRune_four ⟨0xF0 + r / 262144, by omega⟩ ⟨0x80 + r / 4096 % 64, by omega⟩
      ⟨0x80 + r / 64 % 64, by omega⟩ ⟨0x80 + r % 64, by omega⟩ t (by simp only; omega)
      (by simp only; omega) hlo hhi (by simp only; omega)
      (by simp only; omega) (by simp only; omega) (by simp only; omega), by simp, by simp⟩

/-! ## Valid UTF-8 -/

theorem validLoop_fuel : ∀ (n m : Nat) (s : GoString), s.length ≤ n → s.length ≤ m →
    validLoop n s = validLoop m s := by
  intro n
  induction n with
  | zero =>
    intro m s hn hm
    have : s = [] := List.length_eq_zero.mp (by omega)
    subst this
    cases m <;> simp [validLoop]
  | succ n ih =>
    intro m s hn hm
    cases s with
    | nil => cases m <;> simp [validLoop]
    | cons b rest =>
      cases m with
      | zero => simp at hm
      | succ m =>
        simp only [validLoop]
        have hd := drop_size_length b rest
        simp only [List.length_cons] at hn hm
        rw [ih m _ (by omega) (by omega)]

theorem toValidLoop_fuel : ∀ (n m : Nat) (s : GoString), s.length ≤ n → s.length ≤ m →
    toValidLoop n s = toValidLoop m s := by
  intro n
  induction n with
  | zero =>
    intro m s hn hm
    have : s = [] := List.length_eq_zero.mp (by omega)
    subst this
    cases m <;> simp [toValidLoop]
  | succ n ih =>
    intro m s hn hm
    cases s with
    | nil => cases m <;> simp [toValidLoop]
    | cons b rest =>
      cases m with
      | zero => simp at hm
      | succ m =>
        simp only [toValidLoop]
        have hd := drop_size_length b rest
        simp only [List.length_cons] at hn hm
        rw [ih m _ (by omega) (by omega)]

theorem validString_nil : validString [] = true := by
  simp [validString, validLoop]

theorem validString_cons (b : Byte) (rest : GoString) :
    validString (b :: rest)
      = (if (decodeRune (b :: rest)).1 = RuneError ∧ (decodeRune (b :: rest)).2 = 1 then false
         else validString (rest.drop ((decodeRune (b :: rest)).2 - 1))) := by
  have hd := drop_size_length b rest
  simp only [validString, List.length_cons, validLoop]
  rw [validLoop_fuel rest.length _ _ (by omega) (le_refl _)]

theorem toValidUTF8_nil : toValidUTF8 [] = [] := by
  simp [toValidUTF8, toValidLoop]

theorem toValidUTF8_cons (b : Byte) (rest : GoString) :
    toValidUTF8 (b :: rest)
      = encodeRune (decodeRune (b :: rest)).1
        ++ toValidUTF8 (rest.drop ((decodeRune (b :: rest)).2 - 1)) := by
  have hd := drop_size_length b rest
  simp only [toValidUTF8, List.length_cons, toValidLoop]
  rw [toValidLoop_fuel rest.length _ _ (by omega) (le_refl _)]

theorem validString_encodeRune_append (r : Nat) (t : GoString) :
    validString (encodeRune r ++ t) = validString t := by
  obtain ⟨r2, hdec, hv, hlen⟩ := decodeRune_encodeRune r t
  cases hE : encodeRune r with
  | nil => rw [hE] at hlen; simp at hlen
  | cons b rest =>
    rw [hE] at hdec hv
    simp only [List.cons_append]
    rw [validString_cons]
    simp only [List.cons_append] at hdec
    rw [hdec]
    simp only
    rw [if_neg hv]
    simp

theorem validString_ascii_cons (b : Byte) (t : GoString) (h : b.val < 0x80) :
    validString (b :: t) = validString t := by
  have := validString_encodeRune_append b.val t
  rwa [encodeRune_ascii b h] at this

theorem validString_append_ascii (s t : GoString) (h : ∀ b ∈ s, b.val < 0x80) :
    validString (s ++ t) = validString t := by
  induction s with
  | nil => rfl
  | cons b rest ih =>
    rw [List.cons_append, validString_ascii_cons b _ (h b (List.mem_cons_self _ _))]
    exact ih (fun x hx => h x (List.mem_cons_of_mem _ hx))

theorem validString_of_ascii (s : GoString) (h : ∀ b ∈ s, b.val < 0x80) :
    validString s = true := by
  have := validString_append_ascii s [] h
  rwa [List.append_nil, validString_nil] at this

theorem toValidUTF8_of_valid : ∀ (n : Nat) (s : GoString), s.length ≤ n →
    validString s = true → toValidUTF8 s = s := by
  intro n
  induction n with
  | zero =>
    intro s hn _
    have : s = [] := List.length_eq_zero.mp (by omega)
    subst this
    exact toValidUTF8_nil
  | succ n ih =>
    intro s hn hv
    cases s with
    | nil => exact toValidUTF8_nil
    | cons b rest =>
      rw [validString_cons] at hv
      split_ifs at hv with hbad
      rw [toValidUTF8_cons, (decodeRune_step b rest).encode hbad]
      have hd := drop_size_length b rest
      simp only [List.length_cons] at hn
      rw [ih _ (by omega) hv]
      exact take_size_append b rest

theorem toValidUTF8_valid (s : GoString) (h : validString s = true) : toValidUTF8 s = s :=
  toValidUTF8_of_valid s.length s (le_refl _) h

/-! ## JSON string literals -/

theorem prependTo_eq_some {out : GoString} {x : Option (GoString × GoString)}
    {t rest : GoString} (h : prependTo out x = some (t, rest)) :
    ∃ t2, x = some (t2, rest) ∧ t = out ++ t2 := by
  cases x with
  | none => simp [prependTo] at h
  | some p =>
    obtain ⟨t2, r2⟩ := p
    simp only [prependTo, Option.some.injEq, Prod.mk.injEq] at h
    exact ⟨t2, by rw [h.2], h.1.symm⟩

theorem prependTo_some (out t rest : GoString) :
    prependTo out (some (t, rest)) = some (out ++ t, rest) := rfl

theorem parseString_quote (f : Nat) (rest : GoString) :
    parseString (f + 1) (0x22 :: rest) = some ([], rest) := by
  simp only [parseString]
  rw [if_pos (by decide)]

theorem parseString_plain (f : Nat) (c : Byte) (rest : GoString) (h1 : 0x20 ≤ c.val)
    (h2 : c.val < 0x80) (h3 : c.val ≠ 0x22) (h4 : c.val ≠ 0x5C) :
    parseString (f + 1) (c :: rest) = prependTo [c] (parseString f rest) := by
  simp only [parseString]
  rw [if_neg h3, if_neg h4, if_neg (by omega), if_pos h2]

theorem parseString_escape (f : Nat) (e b : Byte) (rest : GoString)
    (he : unescape e = some b) :
    parseString (f + 1) (0x5C :: e :: rest) = prependTo [b] (parseString f rest) := by
  have hu : e.val ≠ 0x75 := by
    intro hu
    unfold unescape at he
    rw [if_neg (by omega), if_neg (by omega), if_neg (by omega), if_neg (by omega),
      if_neg (by omega), if_neg (by omega)] at he
    cases he
  simp only [parseString]
  rw [if_neg (by decide), if_pos (by decide), if_neg hu, he]

theorem parseString_u (f : Nat) (h1 h2 h3 h4 : Byte) (rest : GoString) (rr : Nat)
    (hg : getu4 (0x5C :: 0x75 :: h1 :: h2 :: h3 :: h4 :: rest) = some rr)
    (hns : ¬ (0xD800 ≤ rr ∧ rr < 0xE000)) :
    parseString (f + 1) (0x5C :: 0x75 :: h1 :: h2 :: h3 :: h4 :: rest)
      = prependTo (encodeRune rr) (parseString f rest) := by
  simp only [parseString]
  rw [if_neg (by decide), if_pos (by decide), if_pos (by decide), hg]
  simp only [List.drop_succ_cons, List.drop_zero]
  rw [if_neg hns]

theorem parseString_rune (f : Nat) (c : Byte) (rest : GoString) (h : 0x80 ≤ c.val) :
    parseString (f + 1) (c :: rest)
      = prependTo (encodeRune (decodeRune (c :: rest)).1)
          (parseString f (rest.drop ((decodeRune (c :: rest)).2 - 1))) := by
  simp only [parseString]
  rw [if_neg (by omega), if_neg (by omega), if_neg (by omega), if_neg (by omega)]

theorem unescape_ascii {e b : Byte} (h : unescape e = some b) : b.val < 0x80 := by
  unfold unescape at h
  split_ifs at h with h1 <;> first
    | (cases h; rcases h1 with h1 | h1 | h1 <;> omega)
    | (cases h; decide)

theorem goodPiece_encodeRune (r : Nat) : GoodPiece (encodeRune r) :=
  fun t => validString_encodeRune_append r t

theorem goodPiece_ascii (b : Byte) (h : b.val < 0x80) : GoodPiece [b] :=
  fun t => by rw [List.singleton_append, validString_ascii_cons b t h]

theorem parseString_backslash (f : Nat) (e : Byte) (tl t rest : GoString)
    (h : parseString (f + 1) (0x5C :: e :: tl) = some (t, rest)) :
    ∃ out y t2, GoodPiece out ∧ parseString f y = some (t2, rest) ∧ t = out ++ t2 := by
  simp only [parseString] at h
  rw [if_neg (by decide), if_pos (by decide)] at h
  by_cases hu : e.val = 0x75
  · rw [if_pos hu] at h
    cases hg : getu4 (0x5C :: e :: tl) with
    | none => rw [hg] at h; simp at h
    | some rr =>
      rw [hg] at h
      dsimp only at h
      by_cases hs : 0xD800 ≤ rr ∧ rr < 0xE000
      · rw [if_pos hs] at h
        cases hg1 : getu4 (List.drop 4 tl) with
        | none =>
          rw [hg1] at h
          obtain ⟨t2, h2, ht⟩ := prependTo_eq_some h
          exact ⟨_, _, t2, goodPiece_encodeRune _, h2, ht⟩
        | some rr1 =>
          rw [hg1] at h
          dsimp only at h
          by_cases hp : rr < 0xDC00 ∧ 0xDC00 ≤ rr1 ∧ rr1 < 0xE000
          · rw [if_pos hp] at h
            obtain ⟨t2, h2, ht⟩ := prependTo_eq_some h
            exact ⟨_, _, t2, goodPiece_encodeRune _, h2, ht⟩
          · rw [if_neg hp] at h
            obtain ⟨t2, h2, ht⟩ := prependTo_eq_some h
            exact ⟨_, _, t2, goodPiece_encodeRune _, h2, ht⟩
      · rw [if_neg hs] at h
        obtain ⟨t2, h2, ht⟩ := prependTo_eq_some h
        exact ⟨_, _, t2, goodPiece_encodeRune _, h2, ht⟩
  · rw [if_neg hu] at h
    cases hb : unescape e with
    | none => rw [hb] at h; simp at h
    | some b =>
      rw [hb] at h
      obtain ⟨t2, h2, ht⟩ := prependTo_eq_some h
      exact ⟨_, _, t2, goodPiece_ascii b (unescape_ascii hb), h2, ht⟩

/-- What `parseString` returns is valid UTF-8. -/
theorem parseString_valid : ∀ (fuel : Nat) (s t rest : GoString),
    parseString fuel s = some (t, rest) → validString t = true := by
  intro fuel
  induction fuel with
  | zero => intro s t rest h; simp [parseString] at h
  | succ f ih =>
    intro s t rest h
    cases s with
    | nil => simp [parseString] at h
    | cons c tl =>
      by_cases hq : c.val = 0x22
      · have : c = 0x22 := Fin.ext hq
        subst this
        rw [parseString_quote] at h
        simp only [Option.some.injEq, Prod.mk.injEq] at h
        rw [← h.1]; exact validString_nil
      by_cases hb : c.val = 0x5C
      · have : c = 0x5C := Fin.ext hb
        subst this
        cases tl with
        | nil =>
          simp only [parseString] at h
          rw [if_neg (by decide), if_pos (by decide)] at h
          cases h
        | cons e tl1 =>
          obtain ⟨out, y, t2, hg, h2, rfl⟩ := parseString_backslash f e tl1 t rest h
          rw [hg]; exact ih _ _ _ h2
      by_cases hctl : c.val < 0x20
      · simp only [parseString] at h
        rw [if_neg hq, if_neg hb, if_pos hctl] at h
        simp at h
      by_cases hasc : c.val < 0x80
      · rw [parseString_plain f c tl (by omega) hasc hq hb] at h
        obtain ⟨t2, h2, rfl⟩ := prependTo_eq_some h
        rw [goodPiece_ascii c hasc]; exact ih _ _ _ h2
      · rw [parseString_rune f c tl (by omega)] at h
        obtain ⟨t2, h2, rfl⟩ := prependTo_eq_some h
        rw [goodPiece_encodeRune]; exact ih _ _ _ h2

/-! ## Writing a string literal and reading it back -/

theorem hexVal_hexDigit : ∀ d : Fin 16, hexVal (hexDigit d.val) = some d.val := by decide

theorem getu4_00 (b : Byte) (tail : GoString) (hb : b.val < 0x80) :
    getu4 (0x5C :: 0x75 :: 0x30 :: 0x30 :: hexDigit (b.val / 16) :: hexDigit (b.val % 16) :: tail)
      = some b.val := by
  have h1 := hexVal_hexDigit ⟨b.val / 16, by omega⟩
  have h2 := hexVal_hexDigit ⟨b.val % 16, by omega⟩
  simp only at h1 h2
  simp only [getu4]
  rw [if_pos (by decide), h1, h2]
  have h0 : hexVal 0x30 = some 0 := by decide
  rw [h0]
  simp only [Option.some.injEq]
  omega

theorem str_u00 : str "\\u00" = [0x5C, 0x75, 0x30, 0x30] := by decide
theorem str_ufffd : str "\\ufffd" = [0x5C, 0x75, 0x66, 0x66, 0x66, 0x64] := by decide
theorem str_u202 : str "\\u202" = [0x5C, 0x75, 0x32, 0x30, 0x32] := by decide
theorem str_esc_b : str "\\b" = [0x5C, 0x62] := by decide
theorem str_esc_f : str "\\f" = [0x5C, 0x66] := by decide
theorem str_esc_n : str "\\n" = [0x5C, 0x6E] := by decide
theorem str_esc_r : str "\\r" = [0x5C, 0x72] := by decide
theorem str_esc_t : str "\\t" = [0x5C, 0x74] := by decide

theorem parseString_escapeByte (f : Nat) (b : Byte) (tail : GoString) (hb : b.val < 0x80) :
    parseString (f + 1) (escapeByte b ++ tail) = prependTo [b] (parseString f tail) := by
  unfold escapeByte
  split_ifs with h1 h2 h3 h4 h5 h6
  · have hu : unescape b = some b := by
      unfold unescape
      rw [if_pos (by omega)]
    exact parseString_escape f b b tail hu
  · have : b = 0x08 := Fin.ext h2
    subst this
    rw [str_esc_b]
    exact parseString_escape f 0x62 0x08 tail (by decide)
  · have : b = 0x0C := Fin.ext h3
    subst this
    rw [str_esc_f]
    exact parseString_escape f 0x66 0x0C tail (by decide)
  · have : b = 0x0A := Fin.ext h4
    subst this
    rw [str_esc_n]
    exact parseString_escape f 0x6E 0x0A tail (by decide)
  · have : b = 0x0D := Fin.ext h5
    subst this
    rw [str_esc_r]
    exact parseString_escape f 0x72 0x0D tail (by decide)
  · have : b = 0x09 := Fin.ext h6
    subst this
    rw [str_esc_t]
    exact parseString_escape f 0x74 0x09 tail (by decide)
  · rw [str_u00]
    have := parseString_u f 0x30 0x30 (hexDigit (b.val / 16)) (hexDigit (b.val % 16)) tail b.val
      (getu4_00 b tail hb) (by omega)
    rw [encodeRune_ascii b hb] at this
    exact this

theorem drop_of_take_append (p0 : Byte) (rest more : GoString) (n : Nat) (h1 : 1 ≤ n)
    (h2 : n ≤ rest.length + 1) :
    ∃ tl, (p0 :: rest).take n ++ more = p0 :: tl ∧ tl.drop (n - 1) = more := by
  obtain ⟨k, rfl⟩ : ∃ k, n = k + 1 := ⟨n - 1, by omega⟩
  refine ⟨rest.take k ++ more, by simp, ?_⟩
  simp only [Nat.add_sub_cancel]
  rw [List.drop_append_eq_append_drop]
  have : (rest.take k).length = k := by simp; omega
  simp [this]

/-- Reading back the body of a string literal that `appendString` wrote gives the string
coerced to valid UTF-8, and stops after the closing quote. -/
theorem parseString_appendStringLoop : ∀ (n : Nat) (s : GoString), s.length ≤ n →
    ∀ (fuel : Nat) (rest : GoString), (appendStringLoop n s).length < fuel →
      parseString fuel (appendStringLoop n s ++ 0x22 :: rest) = some (toValidLoop n s, rest) := by
  intro n
  induction n with
  | zero =>
    intro s hs fuel rest hf
    have : s = [] := List.length_eq_zero.mp (by omega)
    subst this
    obtain ⟨f, rfl⟩ : ∃ f, fuel = f + 1 := ⟨fuel - 1, by omega⟩
    simp only [appendStringLoop, toValidLoop, List.nil_append]
    exact parseString_quote f rest
  | succ n ih =>
    intro s hs fuel rest hf
    cases s with
    | nil =>
      obtain ⟨f, rfl⟩ : ∃ f, fuel = f + 1 := ⟨fuel - 1, by omega⟩
      simp only [appendStringLoop, toValidLoop, List.nil_append]
      exact parseString_quote f rest
    | cons b t =>
      obtain ⟨f, rfl⟩ : ∃ f, fuel = f + 1 := ⟨fuel - 1, by omega⟩
      simp only [List.length_cons] at hs
      have hsize := decodeRune_size b t
      have hdrop : (t.drop ((decodeRune (b :: t)).2 - 1)).length ≤ n := by
        have := drop_size_length b t; omega
      simp only [appendStringLoop, toValidLoop] at hf ⊢
      by_cases hasc : b.val < 0x80
      · rw [if_pos hasc] at hf ⊢
        rw [decodeRune_ascii b t hasc]
        simp only [Nat.sub_self, List.drop_zero]
        rw [encodeRune_ascii b hasc]
        rw [List.length_append] at hf
        by_cases hsafe : htmlSafe b = true
        · rw [if_pos hsafe] at hf ⊢
          simp only [List.length_singleton] at hf
          have hb : 0x20 ≤ b.val ∧ b.val ≠ 0x22 ∧ b.val ≠ 0x5C := by
            simp only [htmlSafe, decide_eq_true_eq] at hsafe
            omega
          rw [List.append_assoc, List.singleton_append,
            parseString_plain f b _ hb.1 hasc hb.2.1 hb.2.2,
            ih t (by omega) f rest (by omega), prependTo_some]
        · rw [if_neg hsafe] at hf ⊢
          have hl : 1 ≤ (escapeByte b).length := by
            unfold escapeByte; split_ifs <;> simp [str_esc_b, str_esc_f, str_esc_n,
              str_esc_r, str_esc_t, str_u00]
          rw [List.append_assoc, parseString_escapeByte f b _ hasc,
            ih t (by omega) f rest (by omega), prependTo_some]
      · rw [if_neg hasc] at hf ⊢
        by_cases hbad : (decodeRune (b :: t)).1 = RuneError ∧ (decodeRune (b :: t)).2 = 1
        · rw [if_pos hbad] at hf ⊢
          rw [hbad.1]
          rw [str_ufffd] at hf ⊢
          rw [List.length_append] at hf
          simp only [List.length_cons, List.length_nil] at hf
          have := parseString_u f 0x66 0x66 0x66 0x64
            (appendStringLoop n (t.drop ((decodeRune (b :: t)).2 - 1)) ++ 0x22 :: rest) 0xFFFD
            rfl (by omega)
          simp only [List.cons_append, List.nil_append, List.append_assoc] at this ⊢
          rw [this, ih _ hdrop f rest (by omega), prependTo_some]
          rfl
        · rw [if_neg hbad] at hf ⊢
          by_cases hsep : (decodeRune (b :: t)).1 = 0x2028 ∨ (decodeRune (b :: t)).1 = 0x2029
          · rw [if_pos hsep] at hf ⊢
            rw [str_u202] at hf ⊢
            simp only [List.length_append, List.length_cons, List.length_nil] at hf
            have hg : getu4 (0x5C :: 0x75 :: 0x32 :: 0x30 :: 0x32
                :: hexDigit ((decodeRune (b :: t)).1 % 16)
                :: (appendStringLoop n (t.drop ((decodeRune (b :: t)).2 - 1)) ++ 0x22 :: rest))
                = some (decodeRune (b :: t)).1 := by
              rcases hsep with h | h <;> rw [h] <;> rfl
            have := parseString_u f 0x32 0x30 0x32 (hexDigit ((decodeRune (b :: t)).1 % 16))
              (appendStringLoop n (t.drop ((decodeRune (b :: t)).2 - 1)) ++ 0x22 :: rest)
              (decodeRune (b :: t)).1 hg (by omega)
            simp only [List.cons_append, List.nil_append, List.append_assoc] at this ⊢
            rw [this, ih _ hdrop f rest (by omega), prependTo_some]
          · rw [if_neg hsep] at hf ⊢
            rw [List.length_append] at hf
            have hstep := decodeRune_step b t
            have hdec := hstep.decode hbad
              (appendStringLoop n (t.drop ((decodeRune (b :: t)).2 - 1)) ++ 0x22 :: rest)
            obtain ⟨tl, htl, htd⟩ := drop_of_take_append b t
              (appendStringLoop n (t.drop ((decodeRune (b :: t)).2 - 1)) ++ 0x22 :: rest)
              (decodeRune (b :: t)).2 hsize.1 hsize.2
            have hlen : 1 ≤ ((b :: t).take (decodeRune (b :: t)).2).length := by
              simp only [List.length_take, List.length_cons]; omega
            rw [List.append_assoc, htl, parseString_rune f b tl (by omega), ← htl, hdec]
            simp only
            rw [htd, ih _ hdrop f rest (by omega), prependTo_some]

theorem parseString_appendString (s rest : GoString) (fuel : Nat)
    (hf : (appendStringLoop s.length s).length < fuel) :
    parseString fuel (appendStringLoop s.length s ++ 0x22 :: rest)
      = some (toValidUTF8 s, rest) :=
  parseString_appendStringLoop s.length s (le_refl _) fuel rest hf

/-! ## Reading back what `MarshalIndent` wrote -/

theorem skipSpace_cons_space (c : Byte) (r : GoString) (h : isJsonSpace c = true) :
    skipSpace (c :: r) = skipSpace r := by
  simp [skipSpace, h]

theorem skipSpace_cons_other (c : Byte) (r : GoString) (h : isJsonSpace c = false) :
    skipSpace (c :: r) = c :: r := by
  simp [skipSpace, h]

theorem appendString_append (v tail : GoString) :
    appendString v ++ tail = 0x22 :: (appendStringLoop v.length v ++ 0x22 :: tail) := by
  simp [appendString]

theorem appendString_length (v : GoString) : 2 ≤ (appendString v).length := by
  simp [appendString]

theorem parseString_name (f : Field) (fuel : Nat) (rest : GoString)
    (hf : f.name.length < fuel) :
    parseString fuel (f.name ++ 0x22 :: rest) = some (f.name, rest) := by
  have h1 : appendStringLoop f.name.length f.name = f.name := by cases f <;> decide
  have h2 : toValidUTF8 f.name = f.name := by cases f <;> decide
  have := parseString_appendString f.name rest fuel (by rw [h1]; omega)
  rwa [h1, h2] at this

theorem fieldOfKey_name (f : Field) : fieldOfKey f.name = some f := by
  cases f <;> decide

theorem parseFieldValue_string (f : Field) (e : PasswordEntry) (v tail : GoString) :
    parseFieldValue (some f) e (appendString v ++ tail)
      = some (e.set f (toValidUTF8 v), false, tail) := by
  rw [appendString_append]
  simp only [parseFieldValue]
  rw [if_pos (by decide)]
  rw [parseString_appendString v tail _ (by simp)]
  rfl

/-- One member of the object, as `MarshalIndent` writes it, read by `parseMembers`. -/
theorem parseMembers_member (fuel : Nat) (e : PasswordEntry) (f : Field) (v tail : GoString) :
    parseMembers (fuel + 1) e (0x22 :: (f.name ++ 0x22 :: 0x3A :: 0x20 :: (appendString v ++ tail)))
      = (match skipSpace tail with
          | [] => none
          | d :: rest3 =>
            if d.val = 0x2C then
              match parseMembers fuel (e.set f (toValidUTF8 v)) (skipSpace rest3) with
              | none => none
              | some (e2, bad2, rest4) => some (e2, false || bad2, rest4)
            else if d.val = 0x7D then some (e.set f (toValidUTF8 v), false, rest3)
            else none) := by
  have hlen : f.name.length
      < (f.name ++ 0x22 :: 0x3A :: 0x20 :: (appendString v ++ tail)).length := by
    simp only [List.length_append, List.length_cons]
    omega
  simp only [parseMembers]
  rw [if_neg (by decide), parseString_name f _ _ hlen]
  simp only
  rw [skipSpace_cons_other 0x3A _ (by decide)]
  simp only
  rw [if_neg (by decide), skipSpace_cons_space 0x20 _ (by decide)]
  have hq : skipSpace (appendString v ++ tail) = appendString v ++ tail := by
    rw [appendString_append]; exact skipSpace_cons_other _ _ (by decide)
  rw [hq, fieldOfKey_name, parseFieldValue_string]

/-- The text of the four members of an entry and the closing brace, from the opening
quote of the first key. -/
theorem marshalEntry_eq (e : PasswordEntry) (tail : GoString) :
    marshalEntry e ++ tail
      = 0x09 :: 0x7B :: 0x0A :: 0x09 :: 0x09 :: 0x22 :: (Field.Site.name ++ 0x22 :: 0x3A :: 0x20
        :: (appendString e.Site ++ 0x2C :: 0x0A :: 0x09 :: 0x09 :: 0x22 :: (Field.Login.name
        ++ 0x22 :: 0x3A :: 0x20 :: (appendString e.Login ++ 0x2C :: 0x0A :: 0x09 :: 0x09 :: 0x22
        :: (Field.Comment.name ++ 0x22 :: 0x3A :: 0x20 :: (appendString e.Comment ++ 0x2C :: 0x0A
        :: 0x09 :: 0x09 :: 0x22 :: (Field.Password.name ++ 0x22 :: 0x3A :: 0x20
        :: (appendString e.Password ++ 0x0A :: 0x09 :: 0x7D :: tail)))))))) := by
  have h1 : str "\t\x7b\n" = [0x09, 0x7B, 0x0A] := by decide
  have h2 : str "\t\t\"Site\": " = [0x09, 0x09, 0x22] ++ Field.Site.name ++ [0x22, 0x3A, 0x20] := by
    decide
  have h3 : str "\t\t\"Login\": " = [0x09, 0x09, 0x22] ++ Field.Login.name ++ [0x22, 0x3A, 0x20] := by
    decide
  have h4 : str "\t\t\"Comment\": "
      = [0x09, 0x09, 0x22] ++ Field.Comment.name ++ [0x22, 0x3A, 0x20] := by decide
  have h5 : str "\t\t\"Password\": "
      = [0x09, 0x09, 0x22] ++ Field.Password.name ++ [0x22, 0x3A, 0x20] := by decide
  have h6 : str ",\n" = [0x2C, 0x0A] := by decide
  have h7 : str "\n" = [0x0A] := by decide
  have h8 : str "\t\x7d" = [0x09, 0x7D] := by decide
  unfold marshalEntry
  rw [h1, h2, h3, h4, h5, h6, h7, h8]
  simp only [List.append_assoc, List.cons_append, List.nil_append]

/-- The four members of an entry, as `MarshalIndent` writes them, read by `parseMembers`. -/
theorem parseMembers_entry (fuel : Nat) (hf : 4 ≤ fuel) (e : PasswordEntry) (tail : GoString) :
    parseMembers fuel PasswordEntry.zero (0x22 :: (Field.Site.name ++ 0x22 :: 0x3A :: 0x20
        :: (appendString e.Site ++ 0x2C :: 0x0A :: 0x09 :: 0x09 :: 0x22 :: (Field.Login.name
        ++ 0x22 :: 0x3A :: 0x20 :: (appendString e.Login ++ 0x2C :: 0x0A :: 0x09 :: 0x09 :: 0x22
        :: (Field.Comment.name ++ 0x22 :: 0x3A :: 0x20 :: (appendString e.Comment ++ 0x2C :: 0x0A
        :: 0x09 :: 0x09 :: 0x22 :: (Field.Password.name ++ 0x22 :: 0x3A :: 0x20
        :: (appendString e.Password ++ 0x0A :: 0x09 :: 0x7D :: tail)))))))))
      = some (e.toValid, false, tail) := by
  obtain ⟨k, rfl⟩ : ∃ k, fuel = k + 4 := ⟨fuel - 4, by omega⟩
  rw [parseMembers_member, skipSpace_cons_other 0x2C _ (by decide)]
  simp only
  rw [if_pos (by decide), skipSpace_cons_space 0x0A _ (by decide),
    skipSpace_cons_space 0x09 _ (by decide), skipSpace_cons_space 0x09 _ (by decide),
    skipSpace_cons_other 0x22 _ (by decide)]
  rw [parseMembers_member, skipSpace_cons_other 0x2C _ (by decide)]
  simp only
  rw [if_pos (by decide), skipSpace_cons_space 0x0A _ (by decide),
    skipSpace_cons_space 0x09 _ (by decide), skipSpace_cons_space 0x09 _ (by decide),
    skipSpace_cons_other 0x22 _ (by decide)]
  rw [parseMembers_member, skipSpace_cons_other 0x2C _ (by decide)]
  simp only
  rw [if_pos (by decide), skipSpace_cons_space 0x0A _ (by decide),
    skipSpace_cons_space 0x09 _ (by decide), skipSpace_cons_space 0x09 _ (by decide),
    skipSpace_cons_other 0x22 _ (by decide)]
  rw [parseMembers_member, skipSpace_cons_space 0x0A _ (by decide),
    skipSpace_cons_space 0x09 _ (by decide), skipSpace_cons_other 0x7D _ (by decide)]
  simp only
  rw [if_neg (by decide), if_pos (by decide)]
  rfl

/-- One element of the array, as `MarshalIndent` writes it, read by `parseElement`. -/
theorem parseElement_marshalEntry (e : PasswordEntry) (tail : GoString) :
    parseElement (skipSpace (marshalEntry e ++ tail)) = some (e.toValid, false, tail) := by
  rw [marshalEntry_eq, skipSpace_cons_space 0x09 _ (by decide),
    skipSpace_cons_other 0x7B _ (by decide)]
  simp only [parseElement]
  rw [if_pos (by decide), skipSpace_cons_space 0x0A _ (by decide),
    skipSpace_cons_space 0x09 _ (by decide), skipSpace_cons_space 0x09 _ (by decide),
    skipSpace_cons_other 0x22 _ (by decide)]
  simp only
  rw [if_neg (by decide)]
  apply parseMembers_entry
  simp only [List.length_cons, List.length_append]
  omega

theorem marshalEntry_length (e : PasswordEntry) : 2 ≤ (marshalEntry e).length := by
  have := congrArg List.length (marshalEntry_eq e [])
  simp only [List.append_nil, List.length_cons] at this
  omega

theorem marshalEntries_length : ∀ es : List PasswordEntry,
    2 * es.length ≤ (marshalEntries es).length := by
  intro es
  induction es with
  | nil => simp [marshalEntries]
  | cons e rest ih =>
    cases rest with
    | nil => simpa [marshalEntries] using marshalEntry_length e
    | cons e2 rest2 =>
      have := marshalEntry_length e
      simp only [marshalEntries, List.length_append, List.length_cons] at ih ⊢
      omega

theorem skipSpace_marshalEntry (e : PasswordEntry) (tail : GoString) :
    ∃ r, skipSpace (marshalEntry e ++ tail) = 0x7B :: r
      ∧ r.length + 2 = (marshalEntry e ++ tail).length := by
  rw [marshalEntry_eq, skipSpace_cons_space 0x09 _ (by decide),
    skipSpace_cons_other 0x7B _ (by decide)]
  exact ⟨_, rfl, by simp only [List.length_cons]⟩

theorem skipSpace_marshalEntries (e : PasswordEntry) (es : List PasswordEntry)
    (tail : GoString) :
    ∃ r, skipSpace (marshalEntries (e :: es) ++ tail) = 0x7B :: r
      ∧ r.length + 2 = (marshalEntries (e :: es) ++ tail).length := by
  cases es with
  | nil => simpa [marshalEntries] using skipSpace_marshalEntry e tail
  | cons e2 rest =>
    simp only [marshalEntries, List.append_assoc]
    exact skipSpace_marshalEntry e _

/-- The elements of the array, as `MarshalIndent` writes them, read by `parseElems`. -/
theorem parseElems_marshalEntries : ∀ (es : List PasswordEntry) (e : PasswordEntry)
    (fuel : Nat) (tail : GoString), es.length < fuel →
    parseElems fuel (skipSpace (marshalEntries (e :: es) ++ 0x0A :: 0x5D :: tail))
      = some ((e :: es).map PasswordEntry.toValid, false, tail) := by
  intro es
  induction es with
  | nil =>
    intro e fuel tail hf
    obtain ⟨f, rfl⟩ : ∃ f, fuel = f + 1 := ⟨fuel - 1, by omega⟩
    simp only [marshalEntries, parseElems]
    rw [parseElement_marshalEntry]
    simp only
    rw [skipSpace_cons_space 0x0A _ (by decide), skipSpace_cons_other 0x5D _ (by decide)]
    simp only
    rw [if_neg (by decide), if_pos (by decide)]
    rfl
  | cons e2 rest ih =>
    intro e fuel tail hf
    obtain ⟨f, rfl⟩ : ∃ f, fuel = f + 1 := ⟨fuel - 1, by omega⟩
    have hsep : str ",\n" = [0x2C, 0x0A] := by decide
    simp only [List.length_cons] at hf
    simp only [marshalEntries, parseElems, hsep, List.append_assoc, List.cons_append,
      List.nil_append]
    rw [parseElement_marshalEntry]
    simp only
    rw [skipSpace_cons_other 0x2C _ (by decide)]
    simp only
    rw [if_pos (by decide), skipSpace_cons_space 0x0A _ (by decide)]
    have := ih e2 f tail (by omega)
    simp only [marshalEntries, hsep, List.append_assoc, List.cons_append,
      List.nil_append] at this
    rw [this]
    rfl

/-- Reading back with `Unmarshal` what `MarshalIndent` wrote gives the slice, every field
coerced to valid UTF-8; a nil slice comes back nil. -/
theorem Unmarshal_MarshalIndent (v : Slice) :
    Unmarshal (MarshalIndent v) = .ok v.toValid := by
  cases v with
  | none => decide
  | some es =>
    cases es with
    | nil => decide
    | cons e rest =>
      have h1 : str "[\n" = [0x5B, 0x0A] := by decide
      have h2 : str "\n]" = [0x0A, 0x5D] := by decide
      simp only [MarshalIndent, Unmarshal, h1, h2, List.cons_append, List.nil_append]
      rw [skipSpace_cons_other 0x5B _ (by decide)]
      simp only [parseTop]
      rw [if_pos (by decide), skipSpace_cons_space 0x0A _ (by decide)]
      obtain ⟨r, hr, hlen⟩ := skipSpace_marshalEntries e rest [0x0A, 0x5D]
      have hl := marshalEntries_length (e :: rest)
      rw [hr]
      simp only
      rw [if_neg (by decide), ← hr, parseElems_marshalEntries rest e _ []
        (by rw [hr]; simp only [List.length_append, List.length_cons, List.length_nil] at hlen hl ⊢
            omega)]
      rfl

theorem PasswordEntry.toValid_eq_self (e : PasswordEntry) (h : e.valid = true) :
    e.toValid = e := by
  simp only [PasswordEntry.valid, Bool.and_eq_true] at h
  obtain ⟨⟨⟨h1, h2⟩, h3⟩, h4⟩ := h
  cases e
  simp only [PasswordEntry.toValid, PasswordEntry.mk.injEq]
  exact ⟨toValidUTF8_valid _ h1, toValidUTF8_valid _ h2, toValidUTF8_valid _ h3,
    toValidUTF8_valid _ h4⟩

theorem Slice.toValid_eq_of_valid (v : Slice) (h : v.valid = true) : v.toValid = v := by
  cases v with
  | none => rfl
  | some es =>
    simp only [Slice.valid, Slice.elems, Option.getD_some, List.all_eq_true] at h
    simp only [Slice.toValid, Option.map_some', Option.some.injEq]
    conv_rhs => rw [← List.map_id es]
    exact List.map_congr_left (fun e he => PasswordEntry.toValid_eq_self e (h e he))

/-! ## What `Unmarshal` returns is valid UTF-8 -/

theorem PasswordEntry.valid_set (e : PasswordEntry) (f : Field) (v : GoString)
    (he : e.valid = true) (hv : validString v = true) : (e.set f v).valid = true := by
  simp only [PasswordEntry.valid, Bool.and_eq_true] at he ⊢
  cases f <;> simp [PasswordEntry.set, he, hv]

theorem PasswordEntry.valid_zero : PasswordEntry.zero.valid = true := by decide

theorem parseFieldValue_valid (fld : Option Field) (e e1 : PasswordEntry) (s rest : GoString)
    (bad : Bool) (h : parseFieldValue fld e s = some (e1, bad, rest)) (he : e.valid = true) :
    e1.valid = true := by
  cases fld with
  | none =>
    simp only [parseFieldValue, Option.map_eq_some'] at h
    obtain ⟨_, _, h2⟩ := h
    simp only [Prod.mk.injEq] at h2
    rw [← h2.1]; exact he
  | some f =>
    cases s with
    | nil => simp [parseFieldValue] at h
    | cons c tl =>
      simp only [parseFieldValue] at h
      split_ifs at h
      · simp only [Option.map_eq_some'] at h
        obtain ⟨⟨v, r⟩, hp, h2⟩ := h
        simp only [Prod.mk.injEq] at h2
        rw [← h2.1]
        exact PasswordEntry.valid_set e f v he (parseString_valid _ _ _ _ hp)
      · simp only [Option.map_eq_some'] at h
        obtain ⟨_, _, h2⟩ := h
        simp only [Prod.mk.injEq] at h2
        rw [← h2.1]; exact he
      · simp only [Option.map_eq_some'] at h
        obtain ⟨_, _, h2⟩ := h
        simp only [Prod.mk.injEq] at h2
        rw [← h2.1]; exact he

theorem parseMembers_valid : ∀ (fuel : Nat) (e e2 : PasswordEntry) (s rest : GoString)
    (bad : Bool), parseMembers fuel e s = some (e2, bad, rest) → e.valid = true →
    e2.valid = true := by
  intro fuel
  induction fuel with
  | zero => intro e e2 s rest bad h; simp [parseMembers] at h
  | succ f ih =>
    intro e e2 s rest bad h he
    cases s with
    | nil => simp [parseMembers] at h
    | cons q s =>
      simp only [parseMembers] at h
      split_ifs at h
      split at h
      · simp at h
      · split at h
        · simp at h
        · split_ifs at h
          split at h
          · simp at h
          · rename_i e1 bad1 rest2 hfv
            have he1 := parseFieldValue_valid _ _ _ _ _ _ hfv he
            split at h
            · simp at h
            · split_ifs at h
              · split at h
                · simp at h
                · rename_i e3 bad3 rest4 hrec
                  simp only [Option.some.injEq, Prod.mk.injEq] at h
                  rw [← h.1]
                  exact ih _ _ _ _ _ hrec he1
              · simp only [Option.some.injEq, Prod.mk.injEq] at h
                rw [← h.1]; exact he1

theorem parseElement_valid (s rest : GoString) (e : PasswordEntry) (bad : Bool)
    (h : parseElement s = some (e, bad, rest)) : e.valid = true := by
  cases s with
  | nil => simp [parseElement] at h
  | cons c tl =>
    simp only [parseElement] at h
    split_ifs at h
    · split at h
      · simp at h
      · split_ifs at h
        · simp only [Option.some.injEq, Prod.mk.injEq] at h
          rw [← h.1]; exact PasswordEntry.valid_zero
        · exact parseMembers_valid _ _ _ _ _ _ h PasswordEntry.valid_zero
    · simp only [Option.map_eq_some'] at h
      obtain ⟨_, _, h2⟩ := h
      simp only [Prod.mk.injEq] at h2
      rw [← h2.1]; exact PasswordEntry.valid_zero
    · simp only [Option.map_eq_some'] at h
      obtain ⟨_, _, h2⟩ := h
      simp only [Prod.mk.injEq] at h2
      rw [← h2.1]; exact PasswordEntry.valid_zero

theorem parseElems_valid : ∀ (fuel : Nat) (s rest : GoString) (es : List PasswordEntry)
    (bad : Bool), parseElems fuel s = some (es, bad, rest) →
    es.all PasswordEntry.valid = true := by
  intro fuel
  induction fuel with
  | zero => intro s rest es bad h; simp [parseElems] at h
  | succ f ih =>
    intro s rest es bad h
    simp only [parseElems] at h
    split at h
    · simp at h
    · rename_i e bad1 rest1 hel
      have he := parseElement_valid _ _ _ _ hel
      split at h
      · simp at h
      · split_ifs at h
        · split at h
          · simp at h
          · rename_i es2 bad2 rest2 hrec
            simp only [Option.some.injEq, Prod.mk.injEq] at h
            rw [← h.1]
            simp only [List.all_cons, Bool.and_eq_true]
            exact ⟨he, ih _ _ _ _ hrec⟩
        · simp only [Option.some.injEq, Prod.mk.injEq] at h
          rw [← h.1]
          simp [he]

/-- Every field that `Unmarshal` returns is valid UTF-8. -/
theorem Unmarshal_valid (data : GoString) (v : Slice) (h : Unmarshal data = .ok v) :
    v.valid = true := by
  unfold Unmarshal at h
  split at h
  · simp at h
  · rename_i v1 bad rest htop
    split_ifs at h
    simp only [Except.ok.injEq] at h
    subst h
    cases hs : skipSpace data with
    | nil => rw [hs] at htop; simp [parseTop] at htop
    | cons c tl =>
      rw [hs] at htop
      simp only [parseTop] at htop
      split_ifs at htop
      · split at htop
        · simp at htop
        · split_ifs at htop
          · simp only [Option.some.injEq, Prod.mk.injEq] at htop
            rw [← htop.1]; rfl
          · simp only [Option.map_eq_some'] at htop
            obtain ⟨⟨es, b2, r2⟩, hp, h2⟩ := htop
            simp only [Prod.mk.injEq] at h2
            rw [← h2.1]
            exact parseElems_valid _ _ _ _ _ hp
      · simp only [Option.map_eq_some'] at htop
        obtain ⟨_, _, h2⟩ := htop
        simp only [Prod.mk.injEq] at h2
        rw [← h2.1]; rfl
      · simp only [Option.map_eq_some'] at htop
        obtain ⟨_, _, h2⟩ := htop
        simp only [Prod.mk.injEq] at h2
        rw [← h2.1]; rfl

/-! ## base64 -/

theorem decodeMap_encodeChar_fin : ∀ v : Fin 64, decodeMap (encodeChar v.val) = some v.val := by
  decide

theorem decodeMap_encodeChar (v : Nat) (h : v < 64) : decodeMap (encodeChar v) = some v :=
  decodeMap_encodeChar_fin ⟨v, h⟩

theorem decodeMap_padChar : decodeMap padChar = none := by decide

theorem decodeLoop_quantum (v0 v1 v2 v3 : Nat) (h0 : v0 < 64) (h1 : v1 < 64) (h2 : v2 < 64)
    (h3 : v3 < 64) (rest : GoString) (si : Nat) :
    decodeLoop [] (encodeChar v0 :: encodeChar v1 :: encodeChar v2 :: encodeChar v3 :: rest) si
      = (match decodeLoop [] rest (si + 1 + 1 + 1 + 1) with
          | .error e => .error e
          | .ok bytes => .ok (quantumBytes [v0, v1, v2, v3] ++ bytes)) := by
  simp only [decodeLoop, decodeMap_encodeChar _ h0, decodeMap_encodeChar _ h1,
    decodeMap_encodeChar _ h2, decodeMap_encodeChar _ h3, List.length_nil, List.nil_append,
    List.length_cons, List.cons_append]
  rfl

theorem quantumBytes_three (a b c : Byte) :
    quantumBytes [(a.val * 65536 + b.val * 256 + c.val) / 262144 % 64,
      (a.val * 65536 + b.val * 256 + c.val) / 4096 % 64,
      (a.val * 65536 + b.val * 256 + c.val) / 64 % 64,
      (a.val * 65536 + b.val * 256 + c.val) % 64] = [a, b, c] := by
  simp only [quantumBytes, List.getD_cons_zero, List.getD_cons_succ, List.length_cons,
    List.length_nil, List.take_succ_cons, List.take_zero, Nat.reduceAdd, Nat.reduceSub]
  congr 1
  · apply Fin.ext; simp only; omega
  · congr 1
    · apply Fin.ext; simp only; omega
    · congr 1; apply Fin.ext; simp only; omega

theorem quantumBytes_two (a b : Byte) :
    quantumBytes [(a.val * 65536 + b.val * 256) / 262144 % 64,
      (a.val * 65536 + b.val * 256) / 4096 % 64,
      (a.val * 65536 + b.val * 256) / 64 % 64] = [a, b] := by
  simp only [quantumBytes, List.getD_cons_zero, List.getD_cons_succ, List.length_cons,
    List.length_nil, List.take_succ_cons, List.take_zero, Nat.reduceAdd, Nat.reduceSub,
    List.getD_nil]
  congr 1
  · apply Fin.ext; simp only; omega
  · congr 1; apply Fin.ext; simp only; omega

theorem quantumBytes_one (a : Byte) :
    quantumBytes [(a.val * 65536) / 262144 % 64, (a.val * 65536) / 4096 % 64] = [a] := by
  simp only [quantumBytes, List.getD_cons_zero, List.getD_cons_succ, List.length_cons,
    List.length_nil, List.take_succ_cons, List.take_zero, Nat.reduceAdd, Nat.reduceSub,
    List.getD_nil]
  congr 1
  apply Fin.ext; simp only; omega

theorem decodeLoop_EncodeToString : ∀ (n : Nat) (s : GoString), s.length ≤ n → ∀ si : Nat,
    decodeLoop [] (EncodeToString s) si = .ok s := by
  intro n
  induction n using Nat.strong_induction_on with
  | _ n ih =>
    intro s hs si
    match s, hs with
    | [], _ => simp [EncodeToString, decodeLoop]
    | [a], _ =>
      have hm (x : Nat) : x % 64 < 64 := Nat.mod_lt _ (by decide)
      simp only [EncodeToString, decodeLoop, decodeMap_encodeChar _ (hm _), decodeMap_padChar,
        List.length_nil, List.nil_append, List.length_cons, List.cons_append]
      rw [if_neg (by decide), if_neg (by decide), if_neg (by decide), if_neg (by decide)]
      simp only [decodePadding, List.length_cons, List.length_nil, skipNewlines]
      rw [if_neg (by decide), if_pos (by decide), if_neg (by decide)]
      simp only [skipNewlines, ne_eq, not_true_eq_false, ↓reduceIte, quantumBytes_one]
    | [a, b], _ =>
      have hm (x : Nat) : x % 64 < 64 := Nat.mod_lt _ (by decide)
      simp only [EncodeToString, decodeLoop, decodeMap_encodeChar _ (hm _), decodeMap_padChar,
        List.length_nil, List.nil_append, List.length_cons, List.cons_append]
      rw [if_neg (by decide), if_neg (by decide), if_neg (by decide), if_neg (by decide),
        if_neg (by decide)]
      simp only [decodePadding, List.length_cons, List.length_nil, skipNewlines]
      rw [if_neg (by decide), if_neg (by decide)]
      simp only [skipNewlines, ne_eq, not_true_eq_false, ↓reduceIte, quantumBytes_two]
    | a :: b :: c :: rest, hs =>
      have hm (x : Nat) : x % 64 < 64 := Nat.mod_lt _ (by decide)
      simp only [List.length_cons] at hs
      simp only [EncodeToString, List.cons_append, List.nil_append]
      rw [decodeLoop_quantum _ _ _ _ (hm _) (hm _) (hm _) (hm _),
        ih (n - 3) (by omega) rest (by omega)]
      simp only
      rw [quantumBytes_three]
      rfl

/-! ## The file -/

theorem readPasswords_ok {w : World} {S : Slice} (h : readPasswords w = .ok S) :
    ∃ data, w.file = some data ∧ Unmarshal data = .ok S := by
  unfold readPasswords ReadFile at h
  cases hf : w.file with
  | none => rw [hf] at h; simp at h
  | some data =>
    rw [hf] at h
    simp only at h
    cases hU : Unmarshal data with
    | error e => rw [hU] at h; simp at h
    | ok v =>
      rw [hU] at h
      simp only [Except.ok.injEq] at h
      exact ⟨data, rfl, by rw [← h, hU]⟩

theorem readPasswords_valid {w : World} {S : Slice} (h : readPasswords w = .ok S) :
    S.valid = true := by
  obtain ⟨data, _, hU⟩ := readPasswords_ok h
  exact Unmarshal_valid data S hU

theorem readPasswords_of_file (w : World) (v : Slice) (h : w.file = some (MarshalIndent v)) :
    readPasswords w = .ok v.toValid := by
  unfold readPasswords ReadFile
  rw [h]
  simp only
  rw [Unmarshal_MarshalIndent]

theorem readPasswords_of_file_valid (w : World) (v : Slice)
    (h : w.file = some (MarshalIndent v)) (hv : v.valid = true) :
    readPasswords w = .ok v := by
  rw [readPasswords_of_file w v h, Slice.toValid_eq_of_valid v hv]

theorem valid_eraseIdx (es : List PasswordEntry) (i : Nat)
    (h : es.all PasswordEntry.valid = true) :
    (es.eraseIdx i).all PasswordEntry.valid = true := by
  rw [List.all_eq_true] at h ⊢
  intro e he
  exact h e (List.mem_of_mem_eraseIdx he)

/-! ## `remove` and `get` -/

theorem writePasswords_ok (v : Slice) (w : World)
    (hopen : w.openErr = none) (hwrite : w.writeErr = none) :
    writePasswords v w
      = (none, { w with file := some (MarshalIndent v), writes := w.writes + 1 }) := by
  simp [writePasswords, hopen, hwrite]

theorem writePasswords_open_error (v : Slice) (w : World) (err : GoString)
    (hopen : w.openErr = some err) :
    writePasswords v w = (some (.errorf (str "os.OpenFile(): " ++ err)), w) := by
  simp [writePasswords, hopen]

theorem writePasswords_write_error (v : Slice) (w : World) (n : Nat) (err : GoString)
    (hopen : w.openErr = none) (hwrite : w.writeErr = some (n, err)) :
    writePasswords v w
      = (some (.errorf (str "(os.File) os.Write(): " ++ err)),
          { w with file := some ((MarshalIndent v).take n), writes := w.writes + 1 }) := by
  simp [writePasswords, hopen, hwrite]

/-- The function `writePasswords` returns no error only when the file opens and the write
goes through. -/
theorem writePasswords_none (v : Slice) (w : World) (h : (writePasswords v w).1 = none) :
    w.openErr = none ∧ w.writeErr = none := by
  cases ho : w.openErr with
  | some err => rw [writePasswords_open_error v w err ho] at h; simp at h
  | none =>
    cases hw : w.writeErr with
    | some ne => rw [writePasswords_write_error v w ne.1 ne.2 ho hw] at h; simp at h
    | none => exact ⟨rfl, rfl⟩

/-- With one matching entry, at index `i`, `remove` writes the store without it and
returns what `writePasswords` returns, wrapped when it is an error. -/
theorem remove_unique_step (re : RegexpPkg) (pattern : GoString) (m : GoString → Bool)
    (w : World) (S : Slice) (i : Nat) (hi : i < S.elems.length)
    (hread : readPasswords w = .ok S) (hc : re.Compile pattern = .ok m)
    (hmatch : ∀ j (hj : j < S.elems.length), m (S.elems[j]).Site = true ↔ j = i) :
    remove re [pattern] w
      = ((writePasswords (some (S.elems.eraseIdx i)) w).1.map
            (fun err => .errorf (str "writePasswords(): " ++ err.Error)),
          (writePasswords (some (S.elems.eraseIdx i)) w).2) := by
  simp only [remove, hread, removeLoop_unique hc S.elems i hi 0 [] (-1) hmatch,
    List.nil_append, List.length_singleton]
  have he : List.take (Int.toNat ((0 + i : Nat) : Int)) S.elems
      ++ List.drop (Int.toNat ((0 + i : Nat) : Int) + 1) S.elems = S.elems.eraseIdx i := by
    simp [List.eraseIdx_eq_take_drop_succ]
  rw [he, if_neg (by decide), if_pos trivial]
  cases hw : writePasswords (some (S.elems.eraseIdx i)) w with
  | mk e w2 =>
    cases e with
    | none => simp
    | some err => simp

theorem remove_unique_aux (re : RegexpPkg) (pattern : GoString) (m : GoString → Bool)
    (w : World) (S : Slice) (i : Nat) (hi : i < S.elems.length)
    (hread : readPasswords w = .ok S) (hc : re.Compile pattern = .ok m)
    (hmatch : ∀ j (hj : j < S.elems.length), m (S.elems[j]).Site = true ↔ j = i)
    (hopen : w.openErr = none) (hwrite : w.writeErr = none) :
    remove re [pattern] w
      = (none, { w with file := some (MarshalIndent (some (S.elems.eraseIdx i))),
                        writes := w.writes + 1 }) := by
  rw [remove_unique_step re pattern m w S i hi hread hc hmatch,
    writePasswords_ok _ w hopen hwrite]
  rfl

/-- With one matching entry and a file that cannot be opened for writing, `remove` fails
and changes nothing. -/
theorem remove_unique_open_error (re : RegexpPkg) (pattern : GoString) (m : GoString → Bool)
    (w : World) (S : Slice) (i : Nat) (hi : i < S.elems.length)
    (hread : readPasswords w = .ok S) (hc : re.Compile pattern = .ok m)
    (hmatch : ∀ j (hj : j < S.elems.length), m (S.elems[j]).Site = true ↔ j = i)
    (err : GoString) (hopen : w.openErr = some err) :
    remove re [pattern] w
      = (some (.errorf (str "writePasswords(): " ++ (str "os.OpenFile(): " ++ err))), w) := by
  rw [remove_unique_step re pattern m w S i hi hread hc hmatch,
    writePasswords_open_error _ w err hopen]
  rfl

theorem read_after_remove (w : World) (S : Slice) (i : Nat)
    (hread : readPasswords w = .ok S) :
    readPasswords { w with file := some (MarshalIndent (some (S.elems.eraseIdx i))),
                           writes := w.writes + 1 } = .ok (some (S.elems.eraseIdx i)) := by
  apply readPasswords_of_file_valid _ _ rfl
  have := readPasswords_valid hread
  exact valid_eraseIdx _ _ this

theorem remove_many_aux (re : RegexpPkg) (pattern : GoString) (m : GoString → Bool)
    (w : World) (S : Slice)
    (hread : readPasswords w = .ok S) (hc : re.Compile pattern = .ok m)
    (hmany : 2 ≤ (S.elems.filter (fun e => m e.Site)).length) :
    remove re [pattern] w
      = (some (.errorf (str "Multiple matches:\n"
          ++ ((S.elems.filter (fun e => m e.Site)).map
                (fun e => str "  " ++ e.Site ++ str "\n")).flatten)), w) := by
  obtain ⟨last, hl⟩ := removeLoop_matched hc S.elems 0 [] (-1)
  simp only [remove, hread, hl, List.nil_append]
  rw [if_neg (by omega), if_neg (by omega), multipleMatches_eq]

theorem get_many_aux (re : RegexpPkg) (pattern : GoString) (m : GoString → Bool)
    (w : World) (S : Slice)
    (hread : readPasswords w = .ok S) (hc : re.Compile pattern = .ok m)
    (hmany : 2 ≤ (S.elems.filter (fun e => m e.Site)).length) :
    get re [pattern] w
      = (some (.errorf (str "Multiple matches:\n"
          ++ ((S.elems.filter (fun e => m e.Site)).map
                (fun e => str "  " ++ e.Site ++ str "\n")).flatten)), w) := by
  simp only [get, hread, getLoop_matched hc, List.nil_append]
  rw [if_neg (by omega), dif_neg (by omega), multipleMatches_eq]

theorem remove_none_aux (re : RegexpPkg) (pattern : GoString) (w : World) (S : Slice)
    (hread : readPasswords w = .ok S)
    (hnone : ∀ e ∈ S.elems, re.MatchString pattern e.Site = .ok false) :
    remove re [pattern] w = (some (.errorf (str "Site not found")), w) := by
  simp [remove, hread, removeLoop_none S.elems 0 [] (-1) hnone]

theorem get_none_aux (re : RegexpPkg) (pattern : GoString) (w : World) (S : Slice)
    (hread : readPasswords w = .ok S)
    (hnone : ∀ e ∈ S.elems, re.MatchString pattern e.Site = .ok false) :
    get re [pattern] w = (some (.errorf (str "Site not found")), w) := by
  simp [get, hread, getLoop_none S.elems [] hnone]

theorem remove_invalid_aux (re : RegexpPkg) (pattern err : GoString) (w : World) (S : Slice)
    (hread : readPasswords w = .ok S) (hc : re.Compile pattern = .error err)
    (hne : S.elems ≠ []) :
    remove re [pattern] w = (some (.errorf (str "regexp.MatchString(): " ++ err)), w) := by
  cases hS : S.elems with
  | nil => exact absurd hS hne
  | cons e rest => simp [remove, hread, hS, removeLoop_error hc]

theorem get_invalid_aux (re : RegexpPkg) (pattern err : GoString) (w : World) (S : Slice)
    (hread : readPasswords w = .ok S) (hc : re.Compile pattern = .error err)
    (hne : S.elems ≠ []) :
    get re [pattern] w = (some (.errorf (str "regexp.MatchString(): " ++ err)), w) := by
  cases hS : S.elems with
  | nil => exact absurd hS hne
  | cons e rest => simp [get, hread, hS, getLoop_error hc]

/-- Without the file there is no store to search: `remove` and `get` fail with the error
of `readPasswords`, and nothing is created. -/
theorem remove_get_without_file (re : RegexpPkg) (pattern : GoString) (w : World)
    (h : w.file = none) :
    remove re [pattern] w
        = (some (.errorf (str "readPasswords(): " ++ (str "ioutil.ReadFile(): "
            ++ (str "open " ++ w.filePath ++ str ": no such file or directory")))), w)
      ∧ get re [pattern] w
        = (some (.errorf (str "readPasswords(): " ++ (str "ioutil.ReadFile(): "
            ++ (str "open " ++ w.filePath ++ str ": no such file or directory")))), w) := by
  simp [remove, get, readPasswords, ReadFile, h, GoError.Error]

theorem get_unique_ok_aux (re : RegexpPkg) (pattern : GoString) (m : GoString → Bool)
    (w : World) (S : Slice) (i : Nat) (hi : i < S.elems.length)
    (hread : readPasswords w = .ok S) (hc : re.Compile pattern = .ok m)
    (hmatch : ∀ j (hj : j < S.elems.length), m (S.elems[j]).Site = true ↔ j = i)
    (pw : GoString) (hpw : DecodeString (S.elems[i]).Password = .ok pw) :
    get re [pattern] w = (none, { w with stdout := w.stdout ++ getOutput S.elems[i] pw }) := by
  simp only [get, hread, getLoop_matched hc, List.nil_append, filter_unique S.elems i hi hmatch,
    List.length_singleton, List.getElem_cons_zero, hpw, Printf, getOutput, List.append_assoc]
  simp

theorem get_unique_err_aux (re : RegexpPkg) (pattern : GoString) (m : GoString → Bool)
    (w : World) (S : Slice) (i : Nat) (hi : i < S.elems.length)
    (hread : readPasswords w = .ok S) (hc : re.Compile pattern = .ok m)
    (hmatch : ∀ j (hj : j < S.elems.length), m (S.elems[j]).Site = true ↔ j = i)
    (err : GoString) (hpw : DecodeString (S.elems[i]).Password = .error err) :
    get re [pattern] w = (some (.errorf (str "base64.DecodeString(): " ++ err)), w) := by
  simp only [get, hread, getLoop_matched hc, List.nil_append, filter_unique S.elems i hi hmatch,
    List.length_singleton, List.getElem_cons_zero, hpw]
  simp

/-! ## `add` -/

theorem encodeChar_ascii (v : Nat) : (encodeChar v).val < 0x80 := by
  by_cases h : v < 64
  · have : ∀ x : Fin 64, (encodeChar x.val).val < 0x80 := by decide
    exact this ⟨v, h⟩
  · unfold encodeChar
    rw [List.getD_eq_default _ _ (by
      have : encodeStd.length = 64 := by decide
      omega)]
    decide

theorem EncodeToString_ascii : ∀ (n : Nat) (s : GoString), s.length ≤ n →
    ∀ b ∈ EncodeToString s, b.val < 0x80 := by
  intro n
  induction n using Nat.strong_induction_on with
  | _ n ih =>
    intro s hs b hb
    match s, hs with
    | [], _ => simp [EncodeToString] at hb
    | [a], _ =>
      simp only [EncodeToString, List.mem_cons, List.mem_singleton, List.not_mem_nil,
        or_false] at hb
      rcases hb with h | h | h | h <;> rw [h] <;> first | exact encodeChar_ascii _ | decide
    | [a, c], _ =>
      simp only [EncodeToString, List.mem_cons, List.mem_singleton, List.not_mem_nil,
        or_false] at hb
      rcases hb with h | h | h | h <;> rw [h] <;> first | exact encodeChar_ascii _ | decide
    | a :: c :: d :: rest, hs =>
      simp only [List.length_cons] at hs
      simp only [EncodeToString, List.cons_append, List.nil_append, List.mem_cons] at hb
      rcases hb with h | h | h | h | h
      · rw [h]; exact encodeChar_ascii _
      · rw [h]; exact encodeChar_ascii _
      · rw [h]; exact encodeChar_ascii _
      · rw [h]; exact encodeChar_ascii _
      · exact ih (n - 3) (by omega) rest (by omega) b h

theorem validString_EncodeToString (s : GoString) : validString (EncodeToString s) = true :=
  validString_of_ascii _ (EncodeToString_ascii s.length s (le_refl _))

/-! ### Trimming -/

theorem asciiSpace_lt (b : Byte) (h : asciiSpace b = true) : b.val < 0x80 := by
  simp only [asciiSpace, decide_eq_true_eq] at h
  omega

theorem trimSpaceRight_spaces : ∀ (post core : GoString),
    (∀ b ∈ post, asciiSpace b = true) →
    (∀ c ∈ core.head?, c.val < 0x80 ∧ asciiSpace c = false) →
    trimSpaceRight (post ++ core) = core.reverse := by
  intro post
  induction post with
  | nil =>
    intro core _ hcore
    cases core with
    | nil => rfl
    | cons c rest =>
      have hc := hcore c (by simp)
      simp only [List.nil_append, trimSpaceRight]
      rw [if_neg (by omega), hc.2]
      simp
  | cons b post ih =>
    intro core hpost hcore
    have hb : asciiSpace b = true := hpost b (by simp)
    have hlt := asciiSpace_lt b hb
    simp only [List.cons_append, trimSpaceRight]
    rw [if_neg (by omega), hb]
    simp only [if_true]
    exact ih core (fun x hx => hpost x (by simp [hx])) hcore

/-- What `strings.TrimSpace` returns for a text between ASCII spaces: `core` when it
starts and ends with ASCII bytes that are not spaces (or is empty). -/
theorem TrimSpace_spaces : ∀ (pre core post : GoString),
    (∀ b ∈ pre, asciiSpace b = true) → (∀ b ∈ post, asciiSpace b = true) →
    (∀ c ∈ core.head?, c.val < 0x80 ∧ asciiSpace c = false) →
    (∀ c ∈ core.getLast?, c.val < 0x80 ∧ asciiSpace c = false) →
    TrimSpace (pre ++ core ++ post) = core := by
  intro pre
  induction pre with
  | nil =>
    intro core post _ hpost hhead hlast
    cases core with
    | nil =>
      simp only [List.nil_append]
      clear hhead hlast
      induction post with
      | nil => rfl
      | cons b post ih =>
        have hb : asciiSpace b = true := hpost b (by simp)
        have hlt := asciiSpace_lt b hb
        simp only [TrimSpace]
        rw [if_neg (by omega), hb]
        simp only [if_true]
        exact ih (fun x hx => hpost x (by simp [hx]))
    | cons c rest =>
      have hc := hhead c (by simp)
      simp only [List.nil_append, List.cons_append, TrimSpace]
      rw [if_neg (by omega), hc.2]
      simp only [Bool.false_eq_true, if_false, List.append_eq]
      have hrev : (c :: (rest ++ post)).reverse = post.reverse ++ (c :: rest).reverse := by
        simp
      rw [hrev, trimSpaceRight_spaces post.reverse (c :: rest).reverse
        (fun x hx => hpost x (by simpa using hx))
        (by rw [List.head?_reverse]; exact hlast)]
      simp
  | cons b pre ih =>
    intro core post hpre hpost hhead hlast
    have hb : asciiSpace b = true := hpre b (by simp)
    have hlt := asciiSpace_lt b hb
    simp only [List.cons_append, TrimSpace]
    rw [if_neg (by omega), hb]
    simp only [if_true]
    exact ih core post (fun x hx => hpre x (by simp [hx])) hpost hhead hlast

/-! ### Reading a line -/

theorem indexLine_line : ∀ (text : GoString) (n : Nat) (rest : GoString),
    (0x0A : Byte) ∉ text → text.length < n →
    indexLine n (text ++ 0x0A :: rest) = some (text ++ [0x0A], rest) := by
  intro text
  induction text with
  | nil =>
    intro n rest _ hn
    cases n with
    | zero => simp at hn
    | succ n => simp [indexLine]
  | cons c text ih =>
    intro n rest hmem hn
    cases n with
    | zero => simp at hn
    | succ n =>
      have hc : c ≠ 0x0A := by intro h; apply hmem; simp [h]
      have hmem2 : (0x0A : Byte) ∉ text := by intro h; apply hmem; simp [h]
      simp only [List.cons_append, indexLine, if_neg hc, List.append_eq]
      rw [ih n rest hmem2 (by simpa using hn)]

theorem indexLine_none : ∀ (n : Nat) (s : GoString),
    (0x0A : Byte) ∉ s.take n → indexLine n s = none := by
  intro n
  induction n with
  | zero => intro s _; simp [indexLine]
  | succ n ih =>
    intro s hmem
    cases s with
    | nil => simp [indexLine]
    | cons c s =>
      have hc : c ≠ 0x0A := by intro h; apply hmem; simp [h]
      have hmem2 : (0x0A : Byte) ∉ s.take n := by intro h; apply hmem; simp [h]
      simp only [indexLine, if_neg hc, ih s hmem2]

theorem getD_append_length {α : Type} (l : List α) (a : α) (r : List α) (d : α) :
    (l ++ a :: r).getD l.length d = a := by
  induction l with
  | nil => rfl
  | cons b l ih => simpa using ih

theorem take_length_append {α : Type} (l r : List α) (n : Nat) (h : n = l.length) :
    (l ++ r).take n = l := by
  subst h
  simp

/-- A line that fits the buffer is returned whole, without its end. -/
theorem ReadLine_line (w : World) (text eol rest : GoString)
    (hstdin : w.stdin = text ++ eol ++ rest) (hl : isLine text eol = true) :
    ReadLine w = ((text, false, none), { w with stdin := rest }) := by
  simp only [isLine, decide_eq_true_eq] at hl
  obtain ⟨hmem, hlen, heol⟩ := hl
  rcases heol with heol | ⟨heol, hcr⟩
  · subst heol
    have hi : indexLine defaultBufSize w.stdin = some ((text ++ [0x0D]) ++ [0x0A], rest) := by
      rw [hstdin]
      have h13 : (0x0A : Byte) ∉ text ++ [0x0D] := by
        simp only [List.mem_append, List.mem_singleton, not_or]
        exact ⟨hmem, by decide⟩
      have := indexLine_line (text ++ [0x0D]) defaultBufSize rest h13
        (by simp only [List.length_append, List.length_cons, List.length_nil] at hlen ⊢; omega)
      simpa using this
    simp only [ReadLine, ReadSlice, hi]
    have hd : 1 < (text ++ [0x0D] ++ [0x0A]).length
        ∧ List.getD (text ++ [0x0D] ++ [0x0A]) ((text ++ [0x0D] ++ [0x0A]).length - 2) 0
            = 0x0D := by
      refine ⟨by simp, ?_⟩
      have h2 : (text ++ [0x0D] ++ [0x0A]).length - 2 = text.length := by simp
      rw [h2, List.append_assoc]
      exact getD_append_length text 0x0D [0x0A] 0
    rw [if_neg (by simp), if_neg (by simp), if_pos (by simp), if_pos hd,
      List.append_assoc, take_length_append _ _ _ (by simp)]
  · subst heol
    have hi : indexLine defaultBufSize w.stdin = some (text ++ [0x0A], rest) := by
      rw [hstdin]
      have := indexLine_line text defaultBufSize rest hmem
        (by simp only [List.length_cons, List.length_nil] at hlen ⊢; omega)
      simpa using this
    simp only [ReadLine, ReadSlice, hi]
    have hd : ¬ (1 < (text ++ [0x0A]).length
        ∧ List.getD (text ++ [0x0A]) ((text ++ [0x0A]).length - 2) 0 = 0x0D) := by
      rintro ⟨h1, h2⟩
      rcases List.eq_nil_or_concat text with h | ⟨L, b, h⟩
      · subst h; simp at h1
      · rw [List.concat_eq_append] at h
        subst h
        have h3 : (L ++ [b] ++ [0x0A]).length - 2 = L.length := by simp
        rw [h3, List.append_assoc] at h2
        have h4 : (L ++ ([b] ++ [0x0A])).getD L.length 0 = b :=
          getD_append_length L b [0x0A] 0
        rw [h4] at h2
        apply hcr
        simp [h2]
    rw [if_neg (by simp), if_neg (by simp), if_pos (by simp), if_neg hd,
      take_length_append _ _ _ (by simp)]

/-- A full buffer without a line feed is returned as a piece of the line; the rest of the
line is left for the next call. -/
theorem ReadLine_full (w : World) (chunk rest : GoString)
    (hstdin : w.stdin = chunk ++ rest) (hlen : chunk.length = defaultBufSize)
    (hmem : (0x0A : Byte) ∉ chunk) (hcr : chunk.getLast? ≠ some 0x0D) :
    ReadLine w = ((chunk, true, none), { w with stdin := rest }) := by
  have htake : w.stdin.take defaultBufSize = chunk := by
    rw [hstdin]
    exact take_length_append _ _ _ hlen.symm
  have hdrop : w.stdin.drop defaultBufSize = rest := by
    rw [hstdin, ← hlen]
    simp
  have hi : indexLine defaultBufSize w.stdin = none :=
    indexLine_none _ _ (by rw [htake]; exact hmem)
  have hlong : ¬ w.stdin.length < defaultBufSize := by
    rw [hstdin, List.length_append, hlen]
    omega
  simp only [ReadLine, ReadSlice, hi, if_neg hlong, htake, hdrop]
  rw [if_pos trivial, if_neg hcr]

/-! ### The steps of `add` -/

/-- The entry that `add` appends. -/
theorem add_step (args : List GoString) (p : GoString) (w : World) (S : Slice)
    (site login comment : GoString) (pf1 pf2 pf3 : Bool) (w1 w2 w3 : World)
    (hS : (w.file = none ∧ S.elems = []) ∨ readPasswords w = .ok S)
    (h1 : ReadLine (Printf (str "Site: ") w) = ((site, pf1, none), w1))
    (h2 : ReadLine (Printf (str "Login: ") w1) = ((login, pf2, none), w2))
    (h3 : ReadLine (Printf (str "Comment: ") w2) = ((comment, pf3, none), w3)) :
    add args (.ok p) w
      = ((writePasswords (some (S.elems ++
            [{ Site := site, Login := login, Comment := comment,
               Password := EncodeToString (TrimSpace p) }])) w3).1.map
            (fun err => .errorf (str "writePasswords(): " ++ err.Error)),
         (writePasswords (some (S.elems ++
            [{ Site := site, Login := login, Comment := comment,
               Password := EncodeToString (TrimSpace p) }])) w3).2) := by
  have hload : (if w.file = none then (.ok (some []) : Except GoError Slice)
      else readPasswords w) = .ok (some S.elems) ∨
      (if w.file = none then (.ok (some []) : Except GoError Slice)
      else readPasswords w) = .ok S := by
    rcases hS with ⟨hf, hS⟩ | hr
    · left; rw [if_pos hf, hS]
    · right
      obtain ⟨data, hd, _⟩ := readPasswords_ok hr
      rw [if_neg (by rw [hd]; simp), hr]
  rcases hload with hl | hl
  · simp only [add, hl, h1, h2, h3]
    cases hw : writePasswords (some (Slice.elems (some S.elems) ++
            [{ Site := site, Login := login, Comment := comment,
               Password := EncodeToString (TrimSpace p) }])) w3 with
    | mk e w4 =>
      have hw2 : writePasswords (some (S.elems ++
            [{ Site := site, Login := login, Comment := comment,
               Password := EncodeToString (TrimSpace p) }])) w3 = (e, w4) := hw
      rw [hw2]
      cases e with
      | none => simp
      | some err => simp
  · simp only [add, hl, h1, h2, h3]
    cases hw : writePasswords (some (S.elems ++
            [{ Site := site, Login := login, Comment := comment,
               Password := EncodeToString (TrimSpace p) }])) w3 with
    | mk e w4 =>
      cases e with
      | none => simp
      | some err => simp

/-- The three lines that `add` reads when each fits the buffer of the reader. -/
theorem add_lines (args : List GoString) (p : GoString) (w : World) (S : Slice)
    (site login comment eol1 eol2 eol3 more : GoString)
    (hS : (w.file = none ∧ S.elems = []) ∨ readPasswords w = .ok S)
    (hstdin : w.stdin = site ++ eol1 ++ (login ++ eol2 ++ (comment ++ eol3 ++ more)))
    (hl1 : isLine site eol1 = true) (hl2 : isLine login eol2 = true)
    (hl3 : isLine comment eol3 = true) :
    add args (.ok p) w
      = ((writePasswords (some (S.elems ++
            [{ Site := site, Login := login, Comment := comment,
               Password := EncodeToString (TrimSpace p) }]))
            { w with stdin := more,
                     stdout := w.stdout ++ str "Site: " ++ str "Login: " ++ str "Comment: " }).1.map
            (fun err => .errorf (str "writePasswords(): " ++ err.Error)),
         (writePasswords (some (S.elems ++
            [{ Site := site, Login := login, Comment := comment,
               Password := EncodeToString (TrimSpace p) }]))
            { w with stdin := more,
                     stdout := w.stdout ++ str "Site: " ++ str "Login: " ++ str "Comment: " }).2) := by
  exact add_step args p w S site login comment false false false _ _ _ hS
    (ReadLine_line _ site eol1 _ hstdin hl1)
    (ReadLine_line _ login eol2 _ rfl hl2)
    (ReadLine_line _ comment eol3 _ rfl hl3)

theorem add_aux (args : List GoString) (p : GoString) (w : World) (S : Slice)
    (site login comment eol1 eol2 eol3 more : GoString)
    (hS : (w.file = none ∧ S.elems = []) ∨ readPasswords w = .ok S)
    (hstdin : w.stdin = site ++ eol1 ++ (login ++ eol2 ++ (comment ++ eol3 ++ more)))
    (hl1 : isLine site eol1 = true) (hl2 : isLine login eol2 = true)
    (hl3 : isLine comment eol3 = true)
    (hopen : w.openErr = none) (hwrite : w.writeErr = none) :
    add args (.ok p) w
      = (none,
         { w with
           file := some (MarshalIndent (some (S.elems ++
             [{ Site := site, Login := login, Comment := comment,
                Password := EncodeToString (TrimSpace p) }]))),
           writes := w.writes + 1,
           stdin := more,
           stdout := w.stdout ++ str "Site: " ++ str "Login: " ++ str "Comment: " }) := by
  rw [add_lines args p w S site login comment eol1 eol2 eol3 more hS hstdin hl1 hl2 hl3]
  have hw := writePasswords_ok (some (S.elems ++
             [{ Site := site, Login := login, Comment := comment,
                Password := EncodeToString (TrimSpace p) }]))
    { w with stdin := more,
             stdout := w.stdout ++ str "Site: " ++ str "Login: " ++ str "Comment: " }
    hopen hwrite
  rw [hw]
  rfl

theorem valid_append_entry (S : Slice) (e : PasswordEntry) (hS : S.valid = true)
    (he : e.valid = true) : Slice.valid (some (S.elems ++ [e])) = true := by
  simp only [Slice.valid, Slice.elems, Option.getD_some, List.all_append, Bool.and_eq_true,
    List.all_cons, List.all_nil, Bool.and_true] at hS ⊢
  exact ⟨hS, he⟩

/-! ## After a successful `remove` -/

theorem filter_length_one {p : PasswordEntry → Bool} : ∀ (es : List PasswordEntry),
    (es.filter p).length = 1 →
    ∃ i, ∃ _ : i < es.length, ∀ j (hj : j < es.length), p (es[j]) = true ↔ j = i := by
  intro es
  induction es with
  | nil => intro h; simp at h
  | cons e rest ih =>
    intro h
    by_cases hp : p e = true
    · rw [List.filter_cons_of_pos hp] at h
      simp only [List.length_cons, Nat.add_left_eq_self, List.length_eq_zero] at h
      rw [List.filter_eq_nil_iff] at h
      refine ⟨0, by simp, ?_⟩
      intro j hj
      cases j with
      | zero => simp [hp]
      | succ j =>
        simp only [List.getElem_cons_succ]
        have hj2 : j < rest.length := by simpa using hj
        have := h rest[j] (List.getElem_mem _)
        simp [this]
    · rw [List.filter_cons_of_neg hp] at h
      obtain ⟨i, hi, hiff⟩ := ih h
      refine ⟨i + 1, by simpa using hi, ?_⟩
      intro j hj
      cases j with
      | zero => simp [hp]
      | succ j =>
        simp only [List.getElem_cons_succ]
        rw [hiff j (by simpa using hj)]
        omega

theorem remove_ok_unique (re : RegexpPkg) (pattern : GoString) (w : World) (S : Slice)
    (hread : readPasswords w = .ok S) (hok : (remove re [pattern] w).1 = none) :
    ∃ m i, ∃ _ : i < S.elems.length, re.Compile pattern = .ok m
      ∧ (∀ j (hj : j < S.elems.length), m (S.elems[j]).Site = true ↔ j = i)
      ∧ w.openErr = none ∧ w.writeErr = none := by
  cases hc : re.Compile pattern with
  | error err =>
    by_cases hne : S.elems = []
    · rw [remove_none_aux re pattern w S hread (by rw [hne]; intro e he; cases he)] at hok
      simp at hok
    · rw [remove_invalid_aux re pattern err w S hread hc hne] at hok
      simp at hok
  | ok m =>
    refine ⟨m, ?_⟩
    rcases Nat.lt_or_ge (S.elems.filter (fun e => m e.Site)).length 1 with h0 | h1
    · have hnone : ∀ e ∈ S.elems, re.MatchString pattern e.Site = .ok false := by
        intro e he
        rw [MatchString_of_compile hc]
        have : S.elems.filter (fun e => m e.Site) = [] := List.length_eq_zero.mp (Nat.lt_one_iff.mp h0)
        rw [List.filter_eq_nil_iff] at this
        simpa using this e he
      rw [remove_none_aux re pattern w S hread hnone] at hok
      simp at hok
    · rcases Nat.lt_or_ge 1 (S.elems.filter (fun e => m e.Site)).length with h2 | h2
      · rw [remove_many_aux re pattern m w S hread hc h2] at hok
        simp at hok
      · have h3 : (S.elems.filter (fun e => m e.Site)).length = 1 := by omega
        obtain ⟨i, hi, hiff⟩ := filter_length_one S.elems h3
        rw [remove_unique_step re pattern m w S i hi hread hc hiff] at hok
        simp only [Option.map_eq_none'] at hok
        exact ⟨i, hi, rfl, hiff, writePasswords_none _ w hok⟩

theorem eraseIdx_no_match (es : List PasswordEntry) (m : GoString → Bool) (i : Nat)
    (hmatch : ∀ j (hj : j < es.length), m (es[j]).Site = true ↔ j = i) :
    ∀ e ∈ es.eraseIdx i, m e.Site = false := by
  intro e he
  rw [List.mem_eraseIdx_iff_getElem] at he
  obtain ⟨j, hj, hne, rfl⟩ := he
  cases hm : m (es[j]).Site with
  | false => rfl
  | true => exact absurd ((hmatch j hj).1 hm) hne

/-! ## The concrete inputs -/

theorem readPasswords_worldABC : readPasswords worldABC = .ok (some storeABC) :=
  readPasswords_of_file_valid worldABC (some storeABC) rfl (by decide)

theorem compile_literal_y :
    literalRegexp.Compile (str "y") = .ok (fun s => hasSubstr s (str "y")) := rfl

theorem compile_literal_x :
    literalRegexp.Compile (str "x") = .ok (fun s => hasSubstr s (str "x")) := rfl

theorem compile_paren :
    literalRegexp.Compile (str "(")
      = .error (str "error parsing regexp: missing closing ): " ++ [0x60] ++ str "(" ++ [0x60]) :=
  rfl

theorem unique_y : ∀ j (hj : j < storeABC.length),
    (fun s => hasSubstr s (str "y")) ((storeABC[j]).Site) = true ↔ j = 1 := by
  decide

/-! ## The claims -/

/-- Counterexample to C1: the store with the sites `x`, `y`, `x2` is read and the pattern
`y` matches exactly the record at index 1, yet `remove` fails.  When the file may not be
opened for writing it fails with the error of `os.OpenFile` and changes nothing; when
`Write` fails it fails with that error and leaves the file truncated. -/
theorem remove_unwritable_file :
    readPasswords worldReadOnly = .ok (some storeABC)
      ∧ (∀ j (hj : j < storeABC.length), hasSubstr (storeABC[j]).Site (str "y") = true ↔ j = 1)
      ∧ remove literalRegexp [str "y"] worldReadOnly
          = (some (.errorf (str
              "writePasswords(): os.OpenFile(): open passwords.json: permission denied")),
             worldReadOnly)
      ∧ readPasswords worldWriteError = .ok (some storeABC)
      ∧ remove literalRegexp [str "y"] worldWriteError
          = (some (.errorf (str
              "writePasswords(): (os.File) os.Write(): write passwords.json: input/output error")),
             { worldWriteError with file := some [], writes := 1 }) := by
  have hr1 : readPasswords worldReadOnly = .ok (some storeABC) :=
    readPasswords_of_file_valid worldReadOnly (some storeABC) rfl (by decide)
  have hr2 : readPasswords worldWriteError = .ok (some storeABC) :=
    readPasswords_of_file_valid worldWriteError (some storeABC) rfl (by decide)
  refine ⟨hr1, unique_y, ?_, hr2, ?_⟩
  · rw [remove_unique_open_error literalRegexp (str "y") (fun s => hasSubstr s (str "y"))
      worldReadOnly (some storeABC) 1 (by decide) hr1 compile_literal_y unique_y
      (str "open passwords.json: permission denied") rfl]
    rfl
  · rw [remove_unique_step literalRegexp (str "y") (fun s => hasSubstr s (str "y"))
      worldWriteError (some storeABC) 1 (by decide) hr2 compile_literal_y unique_y,
      writePasswords_write_error _ worldWriteError 0
        (str "write passwords.json: input/output error") rfl rfl]
    rfl

/-- C1, amended. Removing with a pattern that matches the site of exactly one record, the
record at index `i`, when the file can be written (`os.OpenFile` opens it and `Write`
writes all of the text): `remove` returns no error, it writes the file once, the file
holds the original list without the record at index `i`, and loading the file gives
exactly that list, every other record unchanged and in its original order. -/
theorem remove_unique_match (re : RegexpPkg) (pattern : GoString) (m : GoString → Bool)
    (w : World) (S : Slice) (i : Nat) (hi : i < S.elems.length)
    (hread : readPasswords w = .ok S) (hc : re.Compile pattern = .ok m)
    (hmatch : ∀ j (hj : j < S.elems.length), m (S.elems[j]).Site = true ↔ j = i)
    (hopen : w.openErr = none) (hwrite : w.writeErr = none) :
    remove re [pattern] w
        = (none, { w with file := some (MarshalIndent (some (S.elems.eraseIdx i))),
                          writes := w.writes + 1 })
      ∧ readPasswords (remove re [pattern] w).2 = .ok (some (S.elems.eraseIdx i))
      ∧ S.elems.eraseIdx i = S.elems.take i ++ S.elems.drop (i + 1) := by
  have h1 := remove_unique_aux re pattern m w S i hi hread hc hmatch hopen hwrite
  refine ⟨h1, ?_, List.eraseIdx_eq_take_drop_succ _ _⟩
  rw [h1]
  exact read_after_remove w S i hread

/-- Witness of C1, amended: removing `y` from the store with the sites `x`, `y`, `x2`. -/
theorem remove_unique_match_witness :
    readPasswords worldABC = .ok (some storeABC)
      ∧ worldABC.openErr = none ∧ worldABC.writeErr = none
      ∧ remove literalRegexp [str "y"] worldABC
        = (none, { worldABC with
            file := some (MarshalIndent (some (storeABC.eraseIdx 1))),
            writes := worldABC.writes + 1 })
      ∧ readPasswords (remove literalRegexp [str "y"] worldABC).2
        = .ok (some (storeABC.eraseIdx 1))
      ∧ storeABC.eraseIdx 1
        = storeABC.take 1 ++ storeABC.drop (1 + 1) :=
  ⟨readPasswords_worldABC, rfl, rfl,
    remove_unique_match literalRegexp (str "y") (fun s => hasSubstr s (str "y")) worldABC
      (some storeABC) 1 (by decide) readPasswords_worldABC compile_literal_y unique_y rfl rfl⟩

/-- C2. With a pattern that matches the sites of two or more records, `remove` and `get`
both fail with the error whose message is `Multiple matches:` followed by the site of
every matched record, in store order, each on a line of its own after two spaces; the
world is unchanged, so nothing was written or printed. -/
theorem ambiguous_match_fails (re : RegexpPkg) (pattern : GoString) (m : GoString → Bool)
    (w : World) (S : Slice)
    (hread : readPasswords w = .ok S) (hc : re.Compile pattern = .ok m)
    (hmany : 2 ≤ (S.elems.filter (fun e => m e.Site)).length) :
    remove re [pattern] w
        = (some (.errorf (str "Multiple matches:\n"
            ++ ((S.elems.filter (fun e => m e.Site)).map
                  (fun e => str "  " ++ e.Site ++ str "\n")).flatten)), w)
      ∧ get re [pattern] w
        = (some (.errorf (str "Multiple matches:\n"
            ++ ((S.elems.filter (fun e => m e.Site)).map
                  (fun e => str "  " ++ e.Site ++ str "\n")).flatten)), w) :=
  ⟨remove_many_aux re pattern m w S hread hc hmany, get_many_aux re pattern m w S hread hc hmany⟩

/-- Witness of C2: the pattern `x` on the store with the sites `x`, `y`, `x2` matches both
`x` and `x2`. -/
theorem ambiguous_match_fails_witness :
    2 ≤ (storeABC.filter
          (fun e => (fun s => hasSubstr s (str "x")) e.Site)).length
      ∧ (remove literalRegexp [str "x"] worldABC
          = (some (.errorf (str "Multiple matches:\n"
              ++ ((storeABC.filter
                    (fun e => (fun s => hasSubstr s (str "x")) e.Site)).map
                    (fun e => str "  " ++ e.Site ++ str "\n")).flatten)), worldABC)
        ∧ get literalRegexp [str "x"] worldABC
          = (some (.errorf (str "Multiple matches:\n"
              ++ ((storeABC.filter
                    (fun e => (fun s => hasSubstr s (str "x")) e.Site)).map
                    (fun e => str "  " ++ e.Site ++ str "\n")).flatten)), worldABC)) :=
  ⟨by decide,
    ambiguous_match_fails literalRegexp (str "x") (fun s => hasSubstr s (str "x")) worldABC
      (some storeABC) readPasswords_worldABC compile_literal_x (by decide)⟩

/-- C3. When no record's site matches the pattern (in particular when the store is empty,
whatever the pattern), `remove` and `get` both fail with `Site not found` and leave
the world unchanged: nothing is written. -/
theorem no_match_not_found (re : RegexpPkg) (pattern : GoString) (w : World) (S : Slice)
    (hread : readPasswords w = .ok S)
    (hnone : ∀ e ∈ S.elems, re.MatchString pattern e.Site = .ok false) :
    remove re [pattern] w = (some (.errorf (str "Site not found")), w)
      ∧ get re [pattern] w = (some (.errorf (str "Site not found")), w) :=
  ⟨remove_none_aux re pattern w S hread hnone, get_none_aux re pattern w S hread hnone⟩

/-- Witness of C3: the pattern `nomatch` on the store with the sites `x`, `y`, `x2`. -/
theorem no_match_not_found_witness :
    (∀ e ∈ storeABC,
        literalRegexp.MatchString (str "nomatch") e.Site = .ok false)
      ∧ remove literalRegexp [str "nomatch"] worldABC
        = (some (.errorf (str "Site not found")), worldABC)
      ∧ get literalRegexp [str "nomatch"] worldABC
        = (some (.errorf (str "Site not found")), worldABC) :=
  ⟨by decide,
    no_match_not_found literalRegexp (str "nomatch") worldABC (some storeABC)
      readPasswords_worldABC (by decide)⟩

theorem mem_replicate_byte (n : Nat) (a b : Byte) (h : b ≠ a) : b ∉ List.replicate n a := by
  intro hm
  exact h (List.mem_replicate.mp hm).2

/-- The function `add` in the world `worldLong`: the reader cuts the site of 4097 bytes
after 4096 bytes, and the rest of it is taken for the login. -/
theorem add_worldLong :
    add [] (.ok scenarioSecret) worldLong
      = (none,
         { worldLong with
           file := some (MarshalIndent (some
             [{ Site := List.replicate defaultBufSize 0x61, Login := [0x61],
                Comment := str "alice", Password := EncodeToString (TrimSpace scenarioSecret) }])),
           writes := 1,
           stdin := str "\n",
           stdout := str "Site: Login: Comment: " }) := by
  have h1 : ReadLine (Printf (str "Site: ") worldLong)
      = ((List.replicate defaultBufSize 0x61, true, none),
         { Printf (str "Site: ") worldLong with stdin := [0x61] ++ str "\nalice\n\n" }) :=
    ReadLine_full _ (List.replicate defaultBufSize 0x61) ([0x61] ++ str "\nalice\n\n")
      (by
        show longSite ++ str "\nalice\n\n" = _
        unfold longSite
        rw [List.append_assoc])
      (List.length_replicate _ _)
      (mem_replicate_byte _ _ _ (by decide))
      (fun h => mem_replicate_byte _ 0x61 0x0D (by decide) (List.mem_of_getLast?_eq_some h))
  have h2 := ReadLine_line
    (Printf (str "Login: ")
      { Printf (str "Site: ") worldLong with stdin := [0x61] ++ str "\nalice\n\n" })
    [0x61] [0x0A] (str "alice\n\n") rfl (by decide)
  have h3 := ReadLine_line
    (Printf (str "Comment: ")
      { Printf (str "Login: ")
          { Printf (str "Site: ") worldLong with stdin := [0x61] ++ str "\nalice\n\n" }
        with stdin := str "alice\n\n" })
    (str "alice") [0x0A] (str "\n") rfl (by decide)
  rw [add_step [] scenarioSecret worldLong (some []) _ _ _ _ _ _ _ _ _ (Or.inl ⟨rfl, rfl⟩)
    h1 h2 h3, writePasswords_ok _ _ rfl rfl]
  rfl

set_option maxRecDepth 100000 in
/-- Counterexample to C4, four runs of `add` on an absent file, the generator printing
`scenarioSecret`.  The site typed is the byte 0xFF, not valid UTF-8: `add` succeeds and
the store read back holds the three bytes of U+FFFD as the site.  The site typed is
`longSite`, 4097 bytes, the login `alice`, the comment empty: `add` succeeds and the
record written, and read back, holds the first 4096 bytes as the site, the last byte as
the login and `alice` as the comment.  The directory of the file does not exist: `add` fails with the error of
`os.OpenFile` and there is no store.  The disk fails: `add` fails with the error of
`Write` and leaves an empty file, which `readPasswords` does not load. -/
theorem add_entered_not_stored :
    ((add [] (.ok scenarioSecret) worldBadSite).1 = none
        ∧ readPasswords (add [] (.ok scenarioSecret) worldBadSite).2
          = .ok (some [{ Site := [0xEF, 0xBF, 0xBD], Login := str "alice", Comment := str "",
                         Password := EncodeToString scenarioSecret }]))
      ∧ ((add [] (.ok scenarioSecret) worldLong).1 = none
        ∧ (add [] (.ok scenarioSecret) worldLong).2.file
          = some (MarshalIndent (some
              [{ Site := List.replicate defaultBufSize 0x61, Login := [0x61],
                 Comment := str "alice",
                 Password := EncodeToString (TrimSpace scenarioSecret) }]))
        ∧ readPasswords (add [] (.ok scenarioSecret) worldLong).2
          = .ok (some
              [{ Site := List.replicate defaultBufSize 0x61, Login := [0x61],
                 Comment := str "alice",
                 Password := EncodeToString (TrimSpace scenarioSecret) }])
        ∧ List.replicate defaultBufSize 0x61 ≠ longSite)
      ∧ (add [] (.ok scenarioSecret) worldNoDir
          = (some (.errorf (str ("writePasswords(): os.OpenFile(): "
              ++ "open nodir/passwords.json: no such file or directory"))),
             { worldNoDir with stdin := [], stdout := str "Site: Login: Comment: " })
        ∧ (add [] (.ok scenarioSecret) worldNoDir).2.file = none)
      ∧ (add [] (.ok scenarioSecret) worldFreshWriteError
          = (some (.errorf (str ("writePasswords(): (os.File) os.Write(): "
              ++ "write passwords.json: input/output error"))),
             { worldFreshWriteError with
               file := some [], writes := 1, stdin := [],
               stdout := str "Site: Login: Comment: " })
        ∧ (readPasswords (add [] (.ok scenarioSecret) worldFreshWriteError).2).toOption
          = none) := by
  refine ⟨⟨by decide, by decide⟩, ⟨?_, ?_, ?_, ?_⟩, ⟨by decide, by decide⟩,
    ⟨by decide, by decide⟩⟩
  · rw [add_worldLong]
  · rw [add_worldLong]
  · rw [add_worldLong]
    apply readPasswords_of_file_valid _ _ rfl
    have hsite : validString (List.replicate defaultBufSize (0x61 : Byte)) = true :=
      validString_of_ascii _ (fun b hb => by
        rw [(List.mem_replicate.mp hb).2]
        decide)
    simp only [Slice.valid, Slice.elems, Option.getD_some, List.all_cons, List.all_nil,
      Bool.and_true, PasswordEntry.valid, Bool.and_eq_true]
    exact ⟨⟨⟨hsite, by decide⟩, by decide⟩, validString_EncodeToString _⟩
  · intro h
    have h2 := congrArg List.length h
    simp [longSite] at h2

/-- C4, amended. `add` on a store `S` (empty when the file does not exist), when the site,
the login and the comment are entered as three lines that each fit the buffer of the
reader (`isLine`) and are valid UTF-8, the generator printed `p`, and the file can be
written (`os.OpenFile` opens it and `Write` writes all of the text): `add` returns no
error and writes the file once; the file holds `S` followed by the one new record, and
loading it gives exactly that, so nothing else of `S` changes; the record holds the
entered site, login and comment, and its password is the base64 text of `p` trimmed of
white space, which decodes back to it.  The trimmed text is `p` without the ASCII white
space before and after it, when what is left starts and ends with ASCII bytes. -/
theorem add_appends_record (args : List GoString) (p : GoString) (w : World) (S : Slice)
    (site login comment eol1 eol2 eol3 more : GoString)
    (hS : (w.file = none ∧ S.elems = []) ∨ readPasswords w = .ok S)
    (hstdin : w.stdin = site ++ eol1 ++ (login ++ eol2 ++ (comment ++ eol3 ++ more)))
    (hl1 : isLine site eol1 = true) (hl2 : isLine login eol2 = true)
    (hl3 : isLine comment eol3 = true)
    (hv1 : validString site = true) (hv2 : validString login = true)
    (hv3 : validString comment = true)
    (hopen : w.openErr = none) (hwrite : w.writeErr = none) :
    add args (.ok p) w
        = (none,
           { w with
             file := some (MarshalIndent (some (S.elems ++
               [{ Site := site, Login := login, Comment := comment,
                  Password := EncodeToString (TrimSpace p) }]))),
             writes := w.writes + 1,
             stdin := more,
             stdout := w.stdout ++ str "Site: " ++ str "Login: " ++ str "Comment: " })
      ∧ readPasswords (add args (.ok p) w).2
          = .ok (some (S.elems ++
              [{ Site := site, Login := login, Comment := comment,
                 Password := EncodeToString (TrimSpace p) }]))
      ∧ DecodeString (EncodeToString (TrimSpace p)) = .ok (TrimSpace p)
      ∧ (∀ pre core post : GoString, p = pre ++ core ++ post →
          (∀ b ∈ pre, asciiSpace b = true) → (∀ b ∈ post, asciiSpace b = true) →
          (∀ c ∈ core.head?, c.val < 0x80 ∧ asciiSpace c = false) →
          (∀ c ∈ core.getLast?, c.val < 0x80 ∧ asciiSpace c = false) →
          TrimSpace p = core) := by
  have h1 := add_aux args p w S site login comment eol1 eol2 eol3 more hS hstdin hl1 hl2 hl3
    hopen hwrite
  refine ⟨h1, ?_, decodeLoop_EncodeToString _ _ (le_refl _) 0, ?_⟩
  · rw [h1]
    apply readPasswords_of_file_valid _ _ rfl
    apply valid_append_entry
    · rcases hS with ⟨_, hS⟩ | hr
      · simp [Slice.valid, hS]
      · exact readPasswords_valid hr
    · simp [PasswordEntry.valid, hv1, hv2, hv3, validString_EncodeToString]
  · intro pre core post hp hpre hpost hhead hlast
    rw [hp]
    exact TrimSpace_spaces pre core post hpre hpost hhead hlast

set_option maxRecDepth 100000 in
/-- Witness of C4, amended: `add` when the file does not exist yet, the generator printing
the secret and a line feed; the password stored is the base64 text of the secret without
the line feed. -/
theorem add_appends_record_witness :
    ((worldFresh.file = none ∧ Slice.elems (some []) = [])
        ∨ readPasswords worldFresh = .ok (some []))
      ∧ worldFresh.stdin
          = str "example.com" ++ [0x0A] ++ (str "alice" ++ [0x0A] ++ (str "" ++ [0x0A] ++ []))
      ∧ isLine (str "example.com") [0x0A] = true
      ∧ isLine (str "alice") [0x0A] = true
      ∧ isLine (str "") [0x0A] = true
      ∧ validString (str "example.com") = true
      ∧ validString (str "alice") = true
      ∧ validString (str "") = true
      ∧ worldFresh.openErr = none
      ∧ worldFresh.writeErr = none
      ∧ add [] (.ok (str "Ab12Cd34Ef56Gh78Ij90Kl12\n")) worldFresh
        = (none,
           { worldFresh with
             file := some (MarshalIndent (some (Slice.elems (some []) ++
               [{ Site := str "example.com", Login := str "alice", Comment := str "",
                  Password := EncodeToString (TrimSpace (str "Ab12Cd34Ef56Gh78Ij90Kl12\n")) }]))),
             writes := worldFresh.writes + 1,
             stdin := [],
             stdout := worldFresh.stdout ++ str "Site: " ++ str "Login: " ++ str "Comment: " })
      ∧ readPasswords (add [] (.ok (str "Ab12Cd34Ef56Gh78Ij90Kl12\n")) worldFresh).2
        = .ok (some (Slice.elems (some []) ++
            [{ Site := str "example.com", Login := str "alice", Comment := str "",
               Password := EncodeToString (TrimSpace (str "Ab12Cd34Ef56Gh78Ij90Kl12\n")) }]))
      ∧ TrimSpace (str "Ab12Cd34Ef56Gh78Ij90Kl12\n") = str "Ab12Cd34Ef56Gh78Ij90Kl12"
      ∧ EncodeToString (str "Ab12Cd34Ef56Gh78Ij90Kl12") = str "QWIxMkNkMzRFZjU2R2g3OElqOTBLbDEy" :=
  ⟨Or.inl ⟨rfl, rfl⟩, by decide, by decide, by decide, by decide, by decide, by decide,
    by decide, rfl, rfl,
    (add_appends_record [] (str "Ab12Cd34Ef56Gh78Ij90Kl12\n") worldFresh (some [])
      (str "example.com") (str "alice") (str "") [0x0A] [0x0A] [0x0A] [] (Or.inl ⟨rfl, rfl⟩)
      (by decide) (by decide) (by decide) (by decide) (by decide) (by decide) (by decide)
      rfl rfl).1,
    (add_appends_record [] (str "Ab12Cd34Ef56Gh78Ij90Kl12\n") worldFresh (some [])
      (str "example.com") (str "alice") (str "") [0x0A] [0x0A] [0x0A] [] (Or.inl ⟨rfl, rfl⟩)
      (by decide) (by decide) (by decide) (by decide) (by decide) (by decide) (by decide)
      rfl rfl).2.1,
    (add_appends_record [] (str "Ab12Cd34Ef56Gh78Ij90Kl12\n") worldFresh (some [])
      (str "example.com") (str "alice") (str "") [0x0A] [0x0A] [0x0A] [] (Or.inl ⟨rfl, rfl⟩)
      (by decide) (by decide) (by decide) (by decide) (by decide) (by decide) (by decide)
      rfl rfl).2.2.2 [] (str "Ab12Cd34Ef56Gh78Ij90Kl12") (str "\n") (by decide) (by decide)
      (by decide) (by decide) (by decide),
    by decide⟩

/-- Counterexample to C5: on the empty store the pattern `(`, which does not compile, is
never compiled, and `get` and `remove` fail with `Site not found`, not with the error of
the pattern. -/
theorem invalid_pattern_empty_store :
    literalRegexp.Compile (str "(")
        = .error (str "error parsing regexp: missing closing ): " ++ [0x60] ++ str "(" ++ [0x60])
      ∧ readPasswords worldEmpty = .ok (some [])
      ∧ get literalRegexp [str "("] worldEmpty
          = (some (.errorf (str "Site not found")), worldEmpty)
      ∧ remove literalRegexp [str "("] worldEmpty
          = (some (.errorf (str "Site not found")), worldEmpty) :=
  ⟨rfl, by decide, by decide, by decide⟩

/-- C5, amended. With a pattern that does not compile, on a store that is not empty,
`remove` and `get` both fail with the error of `regexp.MatchString`, raised at the first
record before any site is matched, and leave the world unchanged; so they fail with
neither `Site not found` nor `Multiple matches`.  On an empty store they fail with
`Site not found`. -/
theorem invalid_pattern_rejected (re : RegexpPkg) (pattern err : GoString) (w : World)
    (S : Slice) (hread : readPasswords w = .ok S) (hc : re.Compile pattern = .error err) :
    (S.elems ≠ [] →
        remove re [pattern] w = (some (.errorf (str "regexp.MatchString(): " ++ err)), w)
        ∧ get re [pattern] w = (some (.errorf (str "regexp.MatchString(): " ++ err)), w))
      ∧ (S.elems = [] →
        remove re [pattern] w = (some (.errorf (str "Site not found")), w)
        ∧ get re [pattern] w = (some (.errorf (str "Site not found")), w)) := by
  refine ⟨fun hne => ⟨remove_invalid_aux re pattern err w S hread hc hne,
    get_invalid_aux re pattern err w S hread hc hne⟩, fun he => ?_⟩
  have hnone : ∀ e ∈ S.elems, re.MatchString pattern e.Site = .ok false := by
    rw [he]; intro e h; cases h
  exact ⟨remove_none_aux re pattern w S hread hnone, get_none_aux re pattern w S hread hnone⟩

/-- Witness of C5, amended: the pattern `(` on the store with the sites `x`, `y`, `x2`. -/
theorem invalid_pattern_rejected_witness :
    readPasswords worldABC = .ok (some storeABC)
      ∧ storeABC ≠ []
      ∧ remove literalRegexp [str "("] worldABC
          = (some (.errorf (str "regexp.MatchString(): "
              ++ (str "error parsing regexp: missing closing ): " ++ [0x60] ++ str "("
                ++ [0x60]))), worldABC)
      ∧ get literalRegexp [str "("] worldABC
          = (some (.errorf (str "regexp.MatchString(): "
              ++ (str "error parsing regexp: missing closing ): " ++ [0x60] ++ str "("
                ++ [0x60]))), worldABC) :=
  ⟨readPasswords_worldABC, by decide,
    (invalid_pattern_rejected literalRegexp (str "(") _ worldABC (some storeABC)
      readPasswords_worldABC compile_paren).1 (by decide)⟩

/-- C6. With a pattern that matches the site of exactly one record, the record at index
`i`: when the stored password decodes, `get` returns no error and prints the site, the
login, the comment and the decoded password of that record, and changes nothing else
(no write); when it does not decode, `get` fails with the error of
`base64.DecodeString` and prints nothing. -/
theorem get_unique_match (re : RegexpPkg) (pattern : GoString) (m : GoString → Bool)
    (w : World) (S : Slice) (i : Nat) (hi : i < S.elems.length)
    (hread : readPasswords w = .ok S) (hc : re.Compile pattern = .ok m)
    (hmatch : ∀ j (hj : j < S.elems.length), m (S.elems[j]).Site = true ↔ j = i) :
    (∀ pw, DecodeString (S.elems[i]).Password = .ok pw →
        get re [pattern] w
          = (none, { w with stdout := w.stdout ++ getOutput S.elems[i] pw }))
      ∧ (∀ err, DecodeString (S.elems[i]).Password = .error err →
        get re [pattern] w = (some (.errorf (str "base64.DecodeString(): " ++ err)), w)) :=
  ⟨fun pw hpw => get_unique_ok_aux re pattern m w S i hi hread hc hmatch pw hpw,
    fun err hpw => get_unique_err_aux re pattern m w S i hi hread hc hmatch err hpw⟩

/-- Witness of C6: `get y` on the store with the sites `x`, `y`, `x2`. -/
theorem get_unique_match_witness :
    readPasswords worldABC = .ok (some storeABC)
      ∧ DecodeString (str "cGFzc0I=") = .ok (str "passB")
      ∧ get literalRegexp [str "y"] worldABC
          = (none,
             { worldABC with
               stdout :=
                 worldABC.stdout
                   ++ getOutput ⟨str "y", str "bob", str "work", str "cGFzc0I="⟩ (str "passB") }) :=
  ⟨readPasswords_worldABC, by decide,
    (get_unique_match literalRegexp (str "y") (fun s => hasSubstr s (str "y")) worldABC
      (some storeABC) 1 (by decide) readPasswords_worldABC compile_literal_y unique_y).1
      (str "passB") (by decide)⟩

/-- C7. Decoding with `base64.StdEncoding.DecodeString`, as `get` does, the text that
`EncodeToString` gives for a secret, as `add` stores it, succeeds and returns the secret,
for every byte string. -/
theorem decode_encode_roundtrip (secret : GoString) :
    DecodeString (EncodeToString secret) = .ok secret :=
  decodeLoop_EncodeToString secret.length secret (le_refl _) 0

/-- Counterexample to C8.  A record whose site is the byte 0xFF is written with the site
escaped as U+FFFD, so it is loaded with the three bytes of U+FFFD as its site: the loaded
sequence differs from the saved one.  And saving fails when the file cannot be written:
when its directory does not exist `writePasswords` fails with the error of `os.OpenFile`
and loading fails for want of the file; when `Write` fails it fails with that error, and
the truncated file does not load. -/
theorem roundtrip_not_identity :
    (readPasswords (writePasswords (some [entryBadSite]) worldEmpty).2
        = .ok (some [(⟨[0xEF, 0xBF, 0xBD], entryBadSite.Login, entryBadSite.Comment,
            entryBadSite.Password⟩ : PasswordEntry)])
      ∧ readPasswords (writePasswords (some [entryBadSite]) worldEmpty).2
        ≠ .ok (some [entryBadSite]))
      ∧ (Slice.valid (some storeABC) = true
        ∧ writePasswords (some storeABC) worldNoDir
          = (some (.errorf (str
              "os.OpenFile(): open nodir/passwords.json: no such file or directory")),
             worldNoDir)
        ∧ readPasswords (writePasswords (some storeABC) worldNoDir).2
          = .error (.errorf (str
              "ioutil.ReadFile(): open nodir/passwords.json: no such file or directory")))
      ∧ (writePasswords (some storeABC) worldWriteError
          = (some (.errorf (str
              "(os.File) os.Write(): write passwords.json: input/output error")),
             { worldWriteError with file := some [], writes := 1 })
        ∧ (readPasswords (writePasswords (some storeABC) worldWriteError).2).toOption
          = none) :=
  ⟨⟨by decide, by decide⟩, ⟨by decide, rfl, rfl⟩, ⟨rfl, rfl⟩⟩

/-- C8, amended. Saving with `writePasswords` a sequence of records whose fields are all
valid UTF-8 (the empty sequence and the nil slice included), when the file can be written
(`os.OpenFile` opens it and `Write` writes all of the text), succeeds, and loading the
file with `readPasswords` then succeeds and gives the same sequence: same length, same
order, every field equal. -/
theorem write_read_roundtrip (v : Slice) (w : World) (hv : v.valid = true)
    (hopen : w.openErr = none) (hwrite : w.writeErr = none) :
    (writePasswords v w).1 = none ∧ readPasswords (writePasswords v w).2 = .ok v := by
  rw [writePasswords_ok v w hopen hwrite]
  exact ⟨rfl, readPasswords_of_file_valid _ v rfl hv⟩

/-- Witness of C8, amended: the three records of `storeABC`. -/
theorem write_read_roundtrip_witness :
    Slice.valid (some storeABC) = true
      ∧ worldEmpty.openErr = none ∧ worldEmpty.writeErr = none
      ∧ (writePasswords (some storeABC) worldEmpty).1 = none
      ∧ readPasswords (writePasswords (some storeABC) worldEmpty).2 = .ok (some storeABC) :=
  ⟨by decide, rfl, rfl, write_read_roundtrip (some storeABC) worldEmpty (by decide) rfl rfl⟩

theorem trimSpace_scenarioSecret : TrimSpace scenarioSecret = scenarioSecret := by decide

theorem getOutput_scenario :
    getOutput scenarioEntry scenarioSecret
      = str "Site: example.com\nLogin: alice\nComment: \nPassword: Ab12Cd34Ef56Gh78Ij90Kl12\n" := by
  decide

theorem scenarioEntry_valid : Slice.valid (some [scenarioEntry]) = true := by decide

set_option maxRecDepth 100000 in
theorem isLine_example : isLine (str "example.com") [0x0A] = true := by decide

set_option maxRecDepth 100000 in
theorem isLine_alice : isLine (str "alice") [0x0A] = true := by decide

set_option maxRecDepth 100000 in
theorem isLine_empty : isLine (str "") [0x0A] = true := by decide

set_option maxRecDepth 100000 in
/-- Counterexample to C9: the scenario from an empty store whose file cannot be written.
When the file is absent together with its directory, `add` fails with the error of
`os.OpenFile` and leaves no file, so there is no store of one record and `get example`
fails with the error of `readPasswords`.  When `Write` fails, `add` fails with that error
and leaves an empty file, which `readPasswords` does not load. -/
theorem scenario_unwritable_file :
    (worldNoDir.file = none
      ∧ scenarioAdd worldNoDir
          = (some (.errorf (str ("writePasswords(): os.OpenFile(): "
              ++ "open nodir/passwords.json: no such file or directory"))),
             { worldNoDir with stdin := [], stdout := str "Site: Login: Comment: " })
      ∧ readPasswords (scenarioAdd worldNoDir).2
          = .error (.errorf (str
              "ioutil.ReadFile(): open nodir/passwords.json: no such file or directory"))
      ∧ (scenarioGet literalRegexp worldNoDir).1
          = some (.errorf (str ("readPasswords(): ioutil.ReadFile(): "
              ++ "open nodir/passwords.json: no such file or directory"))))
    ∧ (worldFreshWriteError.file = none
      ∧ (scenarioAdd worldFreshWriteError).1
          = some (.errorf (str ("writePasswords(): (os.File) os.Write(): "
              ++ "write passwords.json: input/output error")))
      ∧ (scenarioAdd worldFreshWriteError).2.file = some []
      ∧ (readPasswords (scenarioAdd worldFreshWriteError).2).toOption = none) :=
  ⟨⟨rfl, by decide, by decide, by decide⟩, ⟨rfl, by decide, by decide, by decide⟩⟩

/-- C9, amended. The scenario, from a store that is empty (the file does not exist, or
holds no record) and whose file can be written (`os.OpenFile` opens it, creating it when
it is absent, and `Write` writes all of the text), the user typing the three lines
`example.com`, `alice` and an empty line, for every regexp package that finds `example`
in `example.com` and does not find `nomatch` in it: `add` succeeds and the store then
holds exactly the one record; `get example` succeeds and prints the login `alice` and the
generated secret; `remove nomatch` fails with `Site not found` and changes nothing, the
store still holds the one record; `remove example` succeeds and the store is empty. -/
theorem end_to_end_scenario (re : RegexpPkg) (w0 : World) (more : GoString)
    (hempty : w0.file = none ∨ ∃ S : Slice, readPasswords w0 = .ok S ∧ S.elems = [])
    (hstdin : w0.stdin = str "example.com\nalice\n\n" ++ more)
    (hopen : w0.openErr = none) (hwrite : w0.writeErr = none)
    (hex : re.MatchString (str "example") (str "example.com") = .ok true)
    (hno : re.MatchString (str "nomatch") (str "example.com") = .ok false) :
    (scenarioAdd w0).1 = none
      ∧ readPasswords (scenarioAdd w0).2 = .ok (some [scenarioEntry])
      ∧ (scenarioGet re w0).1 = none
      ∧ (scenarioGet re w0).2.stdout
          = (scenarioAdd w0).2.stdout
            ++ str "Site: example.com\nLogin: alice\nComment: \nPassword: Ab12Cd34Ef56Gh78Ij90Kl12\n"
      ∧ scenarioRemoveNoMatch re w0
          = (some (.errorf (str "Site not found")), (scenarioGet re w0).2)
      ∧ readPasswords (scenarioRemoveNoMatch re w0).2 = .ok (some [scenarioEntry])
      ∧ (scenarioRemove re w0).1 = none
      ∧ readPasswords (scenarioRemove re w0).2 = .ok (some []) := by
  -- the store before `add`
  obtain ⟨S, hS, hSe⟩ : ∃ S : Slice,
      ((w0.file = none ∧ S.elems = []) ∨ readPasswords w0 = .ok S) ∧ S.elems = [] := by
    rcases hempty with h | ⟨S, hr, he⟩
    · exact ⟨some [], Or.inl ⟨h, rfl⟩, rfl⟩
    · exact ⟨S, Or.inr hr, he⟩
  -- `add`
  have hstdin2 : w0.stdin = str "example.com" ++ [0x0A]
      ++ (str "alice" ++ [0x0A] ++ (str "" ++ [0x0A] ++ more)) := by
    rw [hstdin]; rfl
  have h1 := add_aux [] scenarioSecret w0 S (str "example.com") (str "alice") (str "")
    [0x0A] [0x0A] [0x0A] more hS hstdin2 isLine_example isLine_alice isLine_empty hopen hwrite
  rw [hSe, trimSpace_scenarioSecret, List.nil_append] at h1
  have hA : scenarioAdd w0 = (none,
      { w0 with
        file := some (MarshalIndent (some [scenarioEntry])),
        writes := w0.writes + 1, stdin := more,
        stdout := w0.stdout ++ str "Site: " ++ str "Login: " ++ str "Comment: " }) := h1
  have hr1 : readPasswords (scenarioAdd w0).2 = .ok (some [scenarioEntry]) := by
    rw [hA]
    exact readPasswords_of_file_valid _ _ rfl scenarioEntry_valid
  -- `get example`
  obtain ⟨m, hc, hm⟩ := MatchString_ok_iff.mp hex
  have hmatch : ∀ j (hj : j < (Slice.elems (some [scenarioEntry])).length),
      m ((Slice.elems (some [scenarioEntry]))[j]).Site = true ↔ j = 0 := by
    intro j hj
    have hj0 : j = 0 := by
      have : j < 1 := hj
      omega
    subst hj0
    simpa using hm
  have hdec : DecodeString ((Slice.elems (some [scenarioEntry]))[0]).Password
      = .ok scenarioSecret := decodeLoop_EncodeToString _ _ (le_refl _) 0
  have hG : scenarioGet re w0 = (none,
      { (scenarioAdd w0).2 with
        stdout := (scenarioAdd w0).2.stdout ++ getOutput scenarioEntry scenarioSecret }) :=
    get_unique_ok_aux re (str "example") m (scenarioAdd w0).2 (some [scenarioEntry]) 0
      (by decide) hr1 hc hmatch scenarioSecret hdec
  have hr2 : readPasswords (scenarioGet re w0).2 = .ok (some [scenarioEntry]) := by
    rw [hG, hA]
    exact readPasswords_of_file_valid _ _ rfl scenarioEntry_valid
  -- `remove nomatch`
  have hnone : ∀ e ∈ Slice.elems (some [scenarioEntry]),
      re.MatchString (str "nomatch") e.Site = .ok false := by
    intro e he
    have : e = scenarioEntry := by simpa [Slice.elems] using he
    rw [this]; exact hno
  have hN : scenarioRemoveNoMatch re w0
      = (some (.errorf (str "Site not found")), (scenarioGet re w0).2) :=
    remove_none_aux re (str "nomatch") (scenarioGet re w0).2 (some [scenarioEntry]) hr2 hnone
  have hr3 : readPasswords (scenarioRemoveNoMatch re w0).2 = .ok (some [scenarioEntry]) := by
    rw [hN]; exact hr2
  -- `remove example`
  have hopen3 : (scenarioRemoveNoMatch re w0).2.openErr = none := by
    rw [hN, hG, hA]; exact hopen
  have hwrite3 : (scenarioRemoveNoMatch re w0).2.writeErr = none := by
    rw [hN, hG, hA]; exact hwrite
  have hR := remove_unique_aux re (str "example") m (scenarioRemoveNoMatch re w0).2
    (some [scenarioEntry]) 0 (by decide) hr3 hc hmatch hopen3 hwrite3
  have hR2 : scenarioRemove re w0 = _ := hR
  refine ⟨by rw [hA], hr1, by rw [hG], ?_, hN, hr3, by rw [hR2], ?_⟩
  · rw [hG, getOutput_scenario]
  · rw [hR2]
    exact read_after_remove _ (some [scenarioEntry]) 0 hr3

/-- Witness of C9, amended: the scenario with the file absent at first and the literal
patterns matched as substrings. -/
theorem end_to_end_scenario_witness :
    (worldFresh.file = none
        ∨ ∃ S : Slice, readPasswords worldFresh = .ok S ∧ S.elems = [])
      ∧ worldFresh.stdin = str "example.com\nalice\n\n" ++ []
      ∧ worldFresh.openErr = none ∧ worldFresh.writeErr = none
      ∧ literalRegexp.MatchString (str "example") (str "example.com") = .ok true
      ∧ literalRegexp.MatchString (str "nomatch") (str "example.com") = .ok false
      ∧ ((scenarioAdd worldFresh).1 = none
        ∧ readPasswords (scenarioAdd worldFresh).2 = .ok (some [scenarioEntry])
        ∧ (scenarioGet literalRegexp worldFresh).1 = none
        ∧ (scenarioGet literalRegexp worldFresh).2.stdout
            = (scenarioAdd worldFresh).2.stdout
              ++ str "Site: example.com\nLogin: alice\nComment: \nPassword: Ab12Cd34Ef56Gh78Ij90Kl12\n"
        ∧ scenarioRemoveNoMatch literalRegexp worldFresh
            = (some (.errorf (str "Site not found")), (scenarioGet literalRegexp worldFresh).2)
        ∧ readPasswords (scenarioRemoveNoMatch literalRegexp worldFresh).2
            = .ok (some [scenarioEntry])
        ∧ (scenarioRemove literalRegexp worldFresh).1 = none
        ∧ readPasswords (scenarioRemove literalRegexp worldFresh).2 = .ok (some [])) :=
  ⟨Or.inl rfl, rfl, rfl, rfl, by decide, by decide,
    end_to_end_scenario literalRegexp worldFresh [] (Or.inl rfl) rfl rfl rfl (by decide)
      (by decide)⟩

/-- C10. When `remove` succeeds on a store, the store it leaves has exactly one record
fewer and holds no record whose site matches the pattern; so `remove` and `get` with
the same pattern, run right after, both fail with `Site not found`. -/
theorem remove_then_not_found (re : RegexpPkg) (pattern : GoString) (w : World) (S : Slice)
    (hread : readPasswords w = .ok S) (hok : (remove re [pattern] w).1 = none) :
    ∃ S2 : List PasswordEntry,
      readPasswords (remove re [pattern] w).2 = .ok (some S2)
        ∧ S2.length + 1 = S.elems.length
        ∧ (∀ e ∈ S2, re.MatchString pattern e.Site = .ok false)
        ∧ remove re [pattern] (remove re [pattern] w).2
            = (some (.errorf (str "Site not found")), (remove re [pattern] w).2)
        ∧ get re [pattern] (remove re [pattern] w).2
            = (some (.errorf (str "Site not found")), (remove re [pattern] w).2) := by
  obtain ⟨m, i, hi, hc, hmatch, hopen, hwrite⟩ := remove_ok_unique re pattern w S hread hok
  have h1 := remove_unique_aux re pattern m w S i hi hread hc hmatch hopen hwrite
  have hr : readPasswords (remove re [pattern] w).2 = .ok (some (S.elems.eraseIdx i)) := by
    rw [h1]; exact read_after_remove w S i hread
  have hnone : ∀ e ∈ Slice.elems (some (S.elems.eraseIdx i)),
      re.MatchString pattern e.Site = .ok false := by
    intro e he
    rw [MatchString_of_compile hc, eraseIdx_no_match S.elems m i hmatch e he]
  refine ⟨S.elems.eraseIdx i, hr, ?_, hnone,
    remove_none_aux re pattern _ _ hr hnone, get_none_aux re pattern _ _ hr hnone⟩
  rw [List.length_eraseIdx_of_lt hi]
  omega

/-- Witness of C10: `remove y` on the store with the sites `x`, `y`, `x2`. -/
theorem remove_then_not_found_witness :
    readPasswords worldABC = .ok (some storeABC)
      ∧ (remove literalRegexp [str "y"] worldABC).1 = none
      ∧ ∃ S2 : List PasswordEntry,
        readPasswords (remove literalRegexp [str "y"] worldABC).2 = .ok (some S2)
          ∧ S2.length + 1 = storeABC.length
          ∧ (∀ e ∈ S2, literalRegexp.MatchString (str "y") e.Site = .ok false)
          ∧ remove literalRegexp [str "y"] (remove literalRegexp [str "y"] worldABC).2
              = (some (.errorf (str "Site not found")),
                 (remove literalRegexp [str "y"] worldABC).2)
          ∧ get literalRegexp [str "y"] (remove literalRegexp [str "y"] worldABC).2
              = (some (.errorf (str "Site not found")),
                 (remove literalRegexp [str "y"] worldABC).2) :=
  ⟨readPasswords_worldABC,
    congrArg Prod.fst (remove_unique_aux literalRegexp (str "y") (fun s => hasSubstr s (str "y"))
      worldABC (some storeABC) 1 (by decide) readPasswords_worldABC compile_literal_y unique_y
      rfl rfl),
    remove_then_not_found literalRegexp (str "y") worldABC (some storeABC)
      readPasswords_worldABC
      (congrArg Prod.fst (remove_unique_aux literalRegexp (str "y")
        (fun s => hasSubstr s (str "y")) worldABC (some storeABC) 1 (by decide)
        readPasswords_worldABC compile_literal_y unique_y rfl rfl))⟩

end Pwmanager
